import Mathlib

/-!
# The compiler backend: resolver, optimizer and register pool

A shallow embedding of `src/dealias.c`, `src/optimizer.c` and
`src/gen_code.c` (the register tables, the register macros and the walk over
the tree), followed by the properties proved of them.

Conventions of the embedding:

* a C pointer to a node is a value of `Ast`, the null pointer being `Ast.null`;
* the globals of a file are a record that each function takes and returns;
* a function of the resolver or the optimizer that can stop the run (a null
  dereference, an arithmetic operation that C leaves undefined, a write past the
  end of a table) returns `Option`, with `none` for the run that does not
  complete; a function of the code generator returns `Except Fatal`, the error
  naming the fatal path taken;
* `long long` values are integers kept in `[-2^63, 2^63)` by `wrap64`, signed
  overflow of `+ - *` and negation wrapping around as on the x86-64 host;
* the headers `ast.h`, `loc.h`, `parse.h` and `compiler.h` are not among the
  sources: what is used of them is modelled from the specification and marked
  so.
-/

set_option autoImplicit false

namespace Compiler

/-! ## The syntax tree -/

/-- The fields every node carries besides its variant: the resolved location,
the discard-registers flag and the two flags read by the code generator. -/
structure Attr (L : Type) where
  loc : Option L
  throw_away : Bool
  boolean_not : Bool
  unary_prefix : Bool
deriving DecidableEq, Repr

/-- Modelled from the spec: the node type of `ast.h`, which is not among the
sources.  One constructor per `type` tag used by the three passes, with the
children the passes reach through `op.<variant>.<field>`; every node also has
its common fields `a` and its sibling pointer `next`.  The parameter `L` is the
type of the `loc` field: `dealias.c` stores C strings there, `gen_code.c`
reads operand records. -/
inductive Ast (L : Type) where
  | null : Ast L
  | block (a : Attr L) (val block_next : Ast L) (next : Ast L) : Ast L
  | function (a : Attr L) (name : String) (args body : Ast L) (next : Ast L) : Ast L
  | ret (a : Attr L) (val : Ast L) (next : Ast L) : Ast L
  | cond (a : Attr L) (cond body : Ast L) (next : Ast L) : Ast L
  | label (a : Attr L) (name : String) (stuff : Ast L) (next : Ast L) : Ast L
  | jump (a : Attr L) (name : String) (next : Ast L) : Ast L
  | integer (a : Attr L) (i : Int) (next : Ast L) : Ast L
  | variable (a : Attr L) (name : String) (type : Option String) (alloc : Int)
      (next : Ast L) : Ast L
  | string (a : Attr L) (val : Option String) (next : Ast L) : Ast L
  | binary (a : Attr L) (op : Int) (left right : Ast L) (next : Ast L) : Ast L
  | unary (a : Attr L) (op : Int) (arg : Ast L) (next : Ast L) : Ast L
  | crement (a : Attr L) (val : Ast L) (next : Ast L) : Ast L
  | function_call (a : Attr L) (name args : Ast L) (next : Ast L) : Ast L
  | statement (a : Attr L) (val : Ast L) (next : Ast L) : Ast L
  | alloc (a : Attr L) (size : Ast L) (next : Ast L) : Ast L
deriving DecidableEq, Repr

/-- The common fields of a freshly made node: no location, no flag set. -/
def Attr.fresh {L : Type} : Attr L :=
  { loc := none, throw_away := false, boolean_not := false, unary_prefix := false }

/-- Modelled from the spec: `make_integer` of `ast.h`, which is not among the
sources: a new integer-literal node holding `i`, with no location, no flag
and no sibling. -/
def make_integer {L : Type} (i : Int) : Ast L :=
  Ast.integer Attr.fresh i Ast.null

/-! ## Operator codes -/

/-- Modelled from the spec: the operator tags `GE LE EQ NE RS LS INC DEC` of
`parse.h`, which is not among the sources.  They are given the numbers a
generated grammar hands out from 258 on; all that is used of them is that
they differ from one another and from every character code. -/
def GE : Int := 258

/-- The tag of `<=` (see `GE`). -/
def LE : Int := 259

/-- The tag of `==` (see `GE`). -/
def EQ : Int := 260

/-- The tag of `!=` (see `GE`). -/
def NE : Int := 261

/-- The tag of `>>` (see `GE`). -/
def RS : Int := 262

/-- The tag of `<<` (see `GE`). -/
def LS : Int := 263

/-- The tag of `++` (see `GE`). -/
def INC : Int := 264

/-- The tag of `--` (see `GE`). -/
def DEC : Int := 265

/-- The code of a character constant such as `'+'`. -/
def chr (c : Char) : Int := (c.toNat : Int)

/-! ## `long long` arithmetic of the host -/

/-- Reduction of an integer to the signed 64-bit range, two's complement. -/
def wrap64 (x : Int) : Int := (x + 2 ^ 63) % 2 ^ 64 - 2 ^ 63

/-- C truth value of a comparison. -/
def c_bool (p : Bool) : Int := if p then 1 else 0

/-- `l + r` on `long long`. -/
def c_add (l r : Int) : Option Int := some (wrap64 (l + r))

/-- `l - r` on `long long`. -/
def c_sub (l r : Int) : Option Int := some (wrap64 (l - r))

/-- `l * r` on `long long`. -/
def c_mul (l r : Int) : Option Int := some (wrap64 (l * r))

/-- `l / r` on `long long`: undefined for a zero divisor and for the one
quotient that does not fit. -/
def c_div (l r : Int) : Option Int :=
  if r = 0 ∨ (l = -(2 ^ 63) ∧ r = -1) then none else some (Int.tdiv l r)

/-- `l % r` on `long long`: undefined where `l / r` is. -/
def c_mod (l r : Int) : Option Int :=
  if r = 0 ∨ (l = -(2 ^ 63) ∧ r = -1) then none else some (Int.tmod l r)

/-- `l >> r` on `long long`: undefined unless `0 <= r < 64`. -/
def c_shr (l r : Int) : Option Int :=
  if 0 ≤ r ∧ r < 64 then some (l >>> r.toNat) else none

/-- `l << r` on `long long`: undefined unless `0 <= r < 64`. -/
def c_shl (l r : Int) : Option Int :=
  if 0 ≤ r ∧ r < 64 then some (wrap64 (l * 2 ^ r.toNat)) else none

/-- `- a` on `long long`. -/
def c_neg (a : Int) : Int := wrap64 (-a)

/-! ## `optimizer.c` -/

/-- The `switch (s->op.binary.op)` of `optimizer_r`: the C operator of the
`FOLD_INT_BIN` case that `op` selects, `none` when no case matches. -/
def fold_case (op : Int) : Option (Int → Int → Option Int) :=
  if op = chr '+' then some c_add
  else if op = chr '-' then some c_sub
  else if op = chr '*' then some c_mul
  else if op = chr '/' then some c_div
  else if op = chr '%' then some c_mod
  else if op = chr '>' then some (fun l r => some (c_bool (l > r)))
  else if op = chr '<' then some (fun l r => some (c_bool (l < r)))
  else if op = GE then some (fun l r => some (c_bool (l ≥ r)))
  else if op = LE then some (fun l r => some (c_bool (l ≤ r)))
  else if op = EQ then some (fun l r => some (c_bool (l = r)))
  else if op = NE then some (fun l r => some (c_bool (l ≠ r)))
  else if op = RS then some c_shr
  else if op = LS then some c_shl
  else none

/-- The macro `FOLD_INTEGER_BIN (OP)` applied to the binary node `s` with
children `left` and `right`. -/
def FOLD_INTEGER_BIN {L : Type} (f : Int → Int → Option Int)
    (a : Attr L) (op : Int) (left right next : Ast L) : Option (Ast L) :=
  match left with
  | Ast.null => none
  | Ast.integer _ l _ =>
    match right with
    | Ast.null => none
    | Ast.integer _ r _ => (f l r).map make_integer
    | _ => some (Ast.binary a op left right next)
  | _ => some (Ast.binary a op left right next)

/-- The macro `FOLD_INTEGER_UNI (-)` applied to the unary node `s` with
operand `arg`. -/
def FOLD_INTEGER_UNI {L : Type}
    (a : Attr L) (op : Int) (arg next : Ast L) : Option (Ast L) :=
  match arg with
  | Ast.null => none
  | Ast.integer _ i _ => some (make_integer (c_neg i))
  | _ => some (Ast.unary a op arg next)

/-- The conditional case of `optimizer_r` after both children were visited. -/
def fold_cond {L : Type} (a : Attr L) (cond body next : Ast L) : Option (Ast L) :=
  match cond with
  | Ast.null => none
  | Ast.integer _ i _ => if i ≠ 0 then some body else some Ast.null
  | _ => some (Ast.cond a cond body next)

/-- The function `optimizer_r`, as a function from the node `*ss` to the node
left in `*ss`; `optimize` is the global flag. -/
def optimizer_r {L : Type} (optimize : Int) : Ast L → Option (Ast L)
  | Ast.null => some Ast.null
  | Ast.block a val block_next next =>
    match optimizer_r optimize val with
    | none => none
    | some v =>
      match optimizer_r optimize block_next with
      | none => none
      | some n => some (Ast.block a v n next)
  | Ast.function a name args body next =>
    match optimizer_r optimize body with
    | none => none
    | some b => some (Ast.function a name args b next)
  | Ast.ret a val next =>
    match optimizer_r optimize val with
    | none => none
    | some v => some (Ast.ret a v next)
  | Ast.cond a cond body next =>
    match optimizer_r optimize cond with
    | none => none
    | some c =>
      match optimizer_r optimize body with
      | none => none
      | some b => fold_cond a c b next
  | Ast.label a name stuff next =>
    match optimizer_r optimize stuff with
    | none => none
    | some s => some (Ast.label a name s next)
  | Ast.binary a op left right next =>
    match optimizer_r optimize left with
    | none => none
    | some l =>
      match optimizer_r optimize right with
      | none => none
      | some r =>
        if optimize > 0 then
          match fold_case op with
          | some f => FOLD_INTEGER_BIN f a op l r next
          | none => some (Ast.binary a op l r next)
        else some (Ast.binary a op l r next)
  | Ast.unary a op arg next =>
    match optimizer_r optimize arg with
    | none => none
    | some x =>
      if optimize > 0 then
        if op = chr '-' then FOLD_INTEGER_UNI a op x next
        else some (Ast.unary a op x next)
      else some (Ast.unary a op x next)
  | t => some t

/-- The entry point `optimizer`. -/
def optimizer {L : Type} (optimize : Int) (ss : Ast L) : Option (Ast L) :=
  optimizer_r optimize ss

/-- Whether no conditional node that the optimizer reaches has an integer
literal or a null node as its condition. -/
def no_constant_cond {L : Type} : Ast L → Bool
  | Ast.block _ val block_next _ => no_constant_cond val && no_constant_cond block_next
  | Ast.function _ _ _ body _ => no_constant_cond body
  | Ast.ret _ val _ => no_constant_cond val
  | Ast.cond _ cond body _ =>
    (match cond with
      | Ast.null => false
      | Ast.integer _ _ _ => false
      | _ => true) && no_constant_cond cond && no_constant_cond body
  | Ast.label _ _ stuff _ => no_constant_cond stuff
  | Ast.binary _ _ left right _ => no_constant_cond left && no_constant_cond right
  | Ast.unary _ _ arg _ => no_constant_cond arg
  | _ => true

/-! ## `dealias.c` -/

/-- The record `struct state_entry`. -/
structure state_entry where
  label : String
  meaning : String
deriving DecidableEq, Repr

/-- The globals of `dealias.c`: the used part `state[0 .. state_end - 1]` of the
binding table (so `state_end` is the length of `state`), `func_allocd` and
`curr_labelno`. -/
structure DState where
  state : List state_entry
  func_allocd : Int
  curr_labelno : Int
deriving DecidableEq, Repr

/-- The globals as the program starts: an empty table, `func_allocd = 0`,
`curr_labelno = 1`. -/
def DState.initial : DState :=
  { state := [], func_allocd := 0, curr_labelno := 1 }

/-- The number of entries of the array `state`. -/
def state_capacity : Nat := 0x10000

/-- Reduction of an integer to the range of `int`. -/
def wrap32 (x : Int) : Int := (x + 2 ^ 31) % 2 ^ 32 - 2 ^ 31

/-- The text `my_printf ("-%d(%%rbp)", n)`. -/
def frame_slot (n : Int) : String := "-" ++ toString n ++ "(%rbp)"

/-- The text `my_printf (".LJ%d", n)`. -/
def jump_label (n : Int) : String := ".LJ" ++ toString n

/-- The function `clear_state`. -/
def clear_state (st : DState) : DState :=
  { st with state := [], func_allocd := 0 }

/-- The function `add_to_state`; it does not complete when the table is
full. -/
def add_to_state (v : String) (s : Int) (st : DState) : Option DState :=
  if st.state.length < state_capacity then
    let allocd := wrap32 (st.func_allocd + s)
    some { st with
      state := st.state ++ [{ label := v, meaning := frame_slot allocd }],
      func_allocd := allocd }
  else none

/-- The function `get_from_state`: the meaning of the last entry of the table
whose label is `l`, and `l` itself when there is none. -/
def get_from_state (l : String) (st : DState) : String :=
  match st.state.reverse.find? (fun e => e.label == l) with
  | some e => e.meaning
  | none => l

/-- The test `*s != '.'` on a C string. -/
def not_dotted (s : String) : Bool := s.data.head? != some '.'

/-- The function `get_label`; it does not complete when the table is full or
the label counter is at its largest value. -/
def get_label (l : String) (st : DState) : Option (String × DState) :=
  let s := get_from_state l st
  if not_dotted s then
    if st.state.length < state_capacity ∧ st.curr_labelno < 2 ^ 31 - 1 then
      let m := jump_label st.curr_labelno
      some (m, { st with
        state := st.state ++ [{ label := l, meaning := m }],
        curr_labelno := st.curr_labelno + 1 })
    else none
  else some (s, st)

/-- The function `dealias_r`, from the node `*ss` and the globals to the node
left in `*ss` and the globals on return. -/
def dealias_r : Ast String → DState → Option (Ast String × DState)
  | Ast.block a val block_next next, st =>
    match dealias_r val st with
    | none => none
    | some (v, st1) =>
      match dealias_r block_next st1 with
      | none => none
      | some (n, st2) => some (Ast.block a v n next, st2)
  | Ast.function a name args body next, st =>
    match dealias_r args (clear_state st) with
    | none => none
    | some (p, st1) =>
      match dealias_r body st1 with
      | none => none
      | some (b, st2) => some (Ast.function a name p b next, clear_state st2)
  | Ast.ret a val next, st =>
    match dealias_r val st with
    | none => none
    | some (v, st1) => some (Ast.ret a v next, st1)
  | Ast.cond a cond body next, st =>
    match dealias_r cond st with
    | none => none
    | some (c, st1) =>
      match dealias_r body st1 with
      | none => none
      | some (b, st2) => some (Ast.cond a c b next, st2)
  | Ast.variable a name type alloc next, st =>
    match type with
    | some ty =>
      match add_to_state name 8 st with
      | none => none
      | some st1 =>
        some (Ast.variable { a with loc := some (get_from_state name st1) }
          name (some ty) 8 next, st1)
    | none =>
      some (Ast.variable { a with loc := some (get_from_state name st) }
        name none alloc next, st)
  | Ast.label a name stuff next, st =>
    match get_label name st with
    | none => none
    | some (l, st1) =>
      match dealias_r stuff st1 with
      | none => none
      | some (x, st2) => some (Ast.label { a with loc := some l } name x next, st2)
  | Ast.jump a name next, st =>
    match get_label name st with
    | none => none
    | some (l, st1) => some (Ast.jump { a with loc := some l } name next, st1)
  | Ast.binary a op left right next, st =>
    match dealias_r left st with
    | none => none
    | some (l, st1) =>
      match dealias_r right st1 with
      | none => none
      | some (r, st2) => some (Ast.binary a op l r next, st2)
  | Ast.unary a op arg next, st =>
    match dealias_r arg st with
    | none => none
    | some (x, st1) => some (Ast.unary a op x next, st1)
  | Ast.crement a val next, st =>
    match dealias_r val st with
    | none => none
    | some (v, st1) => some (Ast.crement a v next, st1)
  | Ast.function_call a name args next, st =>
    match dealias_r args st with
    | none => none
    | some (p, st1) =>
      match dealias_r name st1 with
      | none => none
      | some (n, st2) => some (Ast.function_call a n p next, st2)
  | Ast.statement a val next, st =>
    match dealias_r val st with
    | none => none
    | some (v, st1) => some (Ast.statement a v next, st1)
  | t, st => some (t, st)

/-- The entry point `dealias`, run on the globals as they stand. -/
def dealias (ss : Ast String) (st : DState) : Option (Ast String × DState) :=
  dealias_r ss st

/-! ### The nodes met by the resolver, in the order it meets them -/

/-- What `dealias_r` does at one point of its walk: a call of `clear_state` at
a function boundary, or the rewriting of a variable, label or jump node, given
with the name of the node and the fields the resolver writes. -/
inductive Visit where
  | clear : Visit
  | declaration (name : String) (alloc : Int) (loc : Option String) : Visit
  | reference (name : String) (loc : Option String) : Visit
  | label (name : String) (loc : Option String) : Visit
  | jump (name : String) (loc : Option String) : Visit
deriving DecidableEq, Repr

/-- The walk of `dealias_r` over a tree: the calls of `clear_state` and the
variable, label and jump nodes it reaches, in the order of the recursion. -/
def visits : Ast String → List Visit
  | Ast.block _ val block_next _ => visits val ++ visits block_next
  | Ast.function _ _ args body _ =>
    Visit.clear :: (visits args ++ visits body ++ [Visit.clear])
  | Ast.ret _ val _ => visits val
  | Ast.cond _ cond body _ => visits cond ++ visits body
  | Ast.variable a name type alloc _ =>
    match type with
    | some _ => [Visit.declaration name alloc a.loc]
    | none => [Visit.reference name a.loc]
  | Ast.label a name stuff _ => Visit.label name a.loc :: visits stuff
  | Ast.jump a name _ => [Visit.jump name a.loc]
  | Ast.binary _ _ left right _ => visits left ++ visits right
  | Ast.unary _ _ arg _ => visits arg
  | Ast.crement _ val _ => visits val
  | Ast.function_call _ name args _ => visits args ++ visits name
  | Ast.statement _ val _ => visits val
  | _ => []

/-- One step of the walk, on the globals alone. -/
def resolve_visit : Visit → DState → Option (Visit × DState)
  | Visit.clear, st => some (Visit.clear, clear_state st)
  | Visit.declaration name _ _, st =>
    match add_to_state name 8 st with
    | none => none
    | some st1 => some (Visit.declaration name 8 (some (get_from_state name st1)), st1)
  | Visit.reference name _, st =>
    some (Visit.reference name (some (get_from_state name st)), st)
  | Visit.label name _, st =>
    match get_label name st with
    | none => none
    | some (l, st1) => some (Visit.label name (some l), st1)
  | Visit.jump name _, st =>
    match get_label name st with
    | none => none
    | some (l, st1) => some (Visit.jump name (some l), st1)

/-- The steps of a walk, one after the other. -/
def resolve_visits : List Visit → DState → Option (List Visit × DState)
  | [], st => some ([], st)
  | v :: vs, st =>
    match resolve_visit v st with
    | none => none
    | some (w, st1) =>
      match resolve_visits vs st1 with
      | none => none
      | some (ws, st2) => some (w :: ws, st2)

/-- Whether a step is a declaration of the name `x`. -/
def Visit.declares (x : String) : Visit → Bool
  | Visit.declaration name _ _ => name == x
  | _ => false

/-- Whether a step is a declaration, a label or a jump of the name `x`: the
steps that can add an entry for `x` to the table. -/
def Visit.binds (x : String) : Visit → Bool
  | Visit.declaration name _ _ => name == x
  | Visit.label name _ => name == x
  | Visit.jump name _ => name == x
  | _ => false

/-- The allocation size and location of the declarations of a walk. -/
def declarations : List Visit → List (Int × Option String)
  | [] => []
  | Visit.declaration _ alloc loc :: vs => (alloc, loc) :: declarations vs
  | _ :: vs => declarations vs

/-- Whether a tree is free of function nodes at the places the resolver
reaches. -/
def no_function : Ast String → Bool
  | Ast.block _ val block_next _ => no_function val && no_function block_next
  | Ast.function _ _ _ _ _ => false
  | Ast.ret _ val _ => no_function val
  | Ast.cond _ cond body _ => no_function cond && no_function body
  | Ast.label _ _ stuff _ => no_function stuff
  | Ast.binary _ _ left right _ => no_function left && no_function right
  | Ast.unary _ _ arg _ => no_function arg
  | Ast.crement _ val _ => no_function val
  | Ast.function_call _ name args _ => no_function args && no_function name
  | Ast.statement _ val _ => no_function val
  | _ => true

/-! ## Auxiliary definitions: the specified value of a constant expression -/

/-- Quotient truncated toward zero. -/
def spec_quot (l r : Int) : Int := Int.sign l * Int.sign r * ((l.natAbs / r.natAbs : Nat) : Int)

/-- Remainder carrying the sign of the dividend. -/
def spec_rem (l r : Int) : Int := Int.sign l * ((l.natAbs % r.natAbs : Nat) : Int)

/-- Value of `l op r` as the specification words it, for the thirteen operators
it names: wrap-around for `+ - *`, the truncated quotient and the remainder of
the dividend's sign for `/ %`, `1` or `0` for the comparisons, the arithmetic
shift for `>>` (the quotient by `2^r` rounded down) and the wrapped
multiplication by `2^r` for `<<`; `none` for a
zero divisor, for the division that overflows, for a shift count outside
`0..63` and for any other operator. -/
def spec_binary (op l r : Int) : Option Int :=
  if op = chr '+' then some (wrap64 (l + r))
  else if op = chr '-' then some (wrap64 (l - r))
  else if op = chr '*' then some (wrap64 (l * r))
  else if op = chr '/' then
    (if r ≠ 0 ∧ ¬ (l = -(2 ^ 63) ∧ r = -1) then some (spec_quot l r) else none)
  else if op = chr '%' then
    (if r ≠ 0 ∧ ¬ (l = -(2 ^ 63) ∧ r = -1) then some (spec_rem l r) else none)
  else if op = chr '>' then some (if l > r then 1 else 0)
  else if op = chr '<' then some (if l < r then 1 else 0)
  else if op = GE then some (if l ≥ r then 1 else 0)
  else if op = LE then some (if l ≤ r then 1 else 0)
  else if op = EQ then some (if l = r then 1 else 0)
  else if op = NE then some (if l ≠ r then 1 else 0)
  else if op = RS then (if 0 ≤ r ∧ r ≤ 63 then some (l / 2 ^ r.toNat) else none)
  else if op = LS then (if 0 ≤ r ∧ r ≤ 63 then some (wrap64 (l * 2 ^ r.toNat)) else none)
  else none

/-- Value of a tree built only from integer literals, binary nodes of the
thirteen operators and unary negations, under signed 64-bit arithmetic as the
specification words it; `none` for any other tree and where `spec_binary` is
`none`. -/
def value {L : Type} : Ast L → Option Int
  | Ast.integer _ i _ => some i
  | Ast.binary _ op left right _ =>
    match value left, value right with
    | some l, some r => spec_binary op l r
    | _, _ => none
  | Ast.unary _ op arg _ =>
    if op = chr '-' then (value arg).map (fun a => wrap64 (-a)) else none
  | _ => none

/-! ## Auxiliary definitions for the proofs about the resolver -/

/-- The number a list of decimal digits denotes, most significant digit first. -/
def dec_value (l : List Char) : Nat := l.foldl (fun acc c => 10 * acc + (c.toNat - 48)) 0

/-- The frame counter stands at eight times a number of entries of the table. -/
def Framed (st : DState) : Prop :=
  ∃ n : Nat, st.func_allocd = 8 * (n : Int) ∧ n ≤ st.state.length ∧
    st.state.length ≤ state_capacity

/-! ## `gen_code.c`: locations, the register pool and binary operators -/

/-- The `kind` tags of a location. -/
inductive loc_kind where
  | register_loc : loc_kind
  | memory_loc : loc_kind
  | literal_loc : loc_kind
  | symbol_loc : loc_kind
deriving DecidableEq, Repr

/-- Modelled from the spec: the record `struct loc` of `loc.h`, which is not
among the sources: a kind, a base (a register name, the text of an immediate
or a symbol), an optional index register, a scale and a displacement. -/
structure Loc where
  kind : loc_kind
  base : Option String
  index : Option String
  scale : Int
  offset : Int
deriving DecidableEq, Repr

/-- Modelled from the spec: the macro `MAKE_BASE_LOC (X, KIND, BASE)` of
`loc.h`: a new location of the given kind and base and nothing else. -/
def MAKE_BASE_LOC (kind : loc_kind) (base : String) : Loc :=
  { kind := kind, base := some base, index := none, scale := 0, offset := 0 }

/-- Modelled from the spec: the test `IS_REGISTER` of `loc.h`. -/
def IS_REGISTER (x : Loc) : Bool := x.kind == loc_kind.register_loc

/-- Modelled from the spec: the test `IS_MEMORY` of `loc.h`. -/
def IS_MEMORY (x : Loc) : Bool := x.kind == loc_kind.memory_loc

/-- Modelled from the spec: the test `IS_LITERAL` of `loc.h`. -/
def IS_LITERAL (x : Loc) : Bool := x.kind == loc_kind.literal_loc

/-- Modelled from the spec: the function `print_loc` of `loc.h`: the operand
text of a location, `%name` for a register, `$value` for an immediate, the
label for a symbol, `disp(base)` or `(base,index,scale)` for memory. -/
def print_loc (x : Loc) : String :=
  match x.kind with
  | loc_kind.register_loc => x.base.getD ""
  | loc_kind.literal_loc => "$" ++ x.base.getD ""
  | loc_kind.symbol_loc => x.base.getD ""
  | loc_kind.memory_loc =>
    match x.index with
    | some i => "(" ++ x.base.getD "" ++ "," ++ i ++ "," ++ toString x.scale ++ ")"
    | none =>
      (if x.offset = 0 then "" else toString x.offset) ++ "(" ++ x.base.getD "" ++ ")"

/-- One line written by `PUT`, kept with its operands: the formats
`"\t%s\t%s, %s\n"` and `"\t%s\t%s\n"`, and any other text. -/
inductive Instr where
  | two (op : String) (src dst : Loc) : Instr
  | one (op : String) (arg : Loc) : Instr
  | text (line : String) : Instr
deriving DecidableEq, Repr

/-- The characters `PUT` writes for a line. -/
def Instr.render : Instr → String
  | Instr.two op src dst => "\t" ++ op ++ "\t" ++ print_loc src ++ ", " ++ print_loc dst ++ "\n"
  | Instr.one op arg => "\t" ++ op ++ "\t" ++ print_loc arg ++ "\n"
  | Instr.text line => line

/-- The ways a run of the code generator ends early.  The error of the
`default` case of an operator switch carries the operator code that `error`
reports and the lines that stand on `outfile` when it is called. -/
inductive Fatal where
  | bounds : Fatal
  | assertion : Fatal
  | null_pointer : Fatal
  | invalid_binary (op : Int) (written : List Instr) : Fatal
  | invalid_unary (op : Int) (written : List Instr) : Fatal
deriving DecidableEq, Repr

/-- The globals of `gen_code.c` and the lines written to `outfile` so far. -/
structure GState where
  avail : Int
  str_labelno : Int
  data_section : String
  branch_labelno : Int
  out : List Instr
deriving DecidableEq, Repr

/-- Modelled from the spec: the macro `CHECK_BOUNDS (ARRAY, I)` of `compiler.h`,
which is not among the sources: an index outside the array ends the run. -/
def CHECK_BOUNDS (len : Nat) (a : Int) : Except Fatal Unit :=
  if 0 ≤ a ∧ a < len then Except.ok () else Except.error Fatal.bounds

/-- The array `storage` of `regis`. -/
def regis_storage : List String :=
  ["%rax", "%rbx", "%rcx", "%rdx", "%rdi", "%rsi", "%r8", "%r9", "%r10",
   "%r11", "%r12", "%r13", "%r14", "%r15"]

/-- The array `storage` of `call_regis`. -/
def call_regis_storage : List Int := [4, 5, 2, 3, 6, 7]

/-- The array `storage` of `general_regis`. -/
def general_regis_storage : List Int := [1, 8, 9, 10, 11, 12, 13, 7, 6, 3, 2, 5, 4]

/-- The function `regis`. -/
def regis (a : Int) : Except Fatal String :=
  match CHECK_BOUNDS regis_storage.length a with
  | Except.error e => Except.error e
  | Except.ok _ => Except.ok (regis_storage.getD a.toNat "")

/-- The function `call_regis`. -/
def call_regis (a : Int) : Except Fatal Int :=
  match CHECK_BOUNDS call_regis_storage.length a with
  | Except.error e => Except.error e
  | Except.ok _ => Except.ok (call_regis_storage.getD a.toNat 0)

/-- The function `general_regis`. -/
def general_regis (a : Int) : Except Fatal Int :=
  match CHECK_BOUNDS general_regis_storage.length a with
  | Except.error e => Except.error e
  | Except.ok _ => Except.ok (general_regis_storage.getD a.toNat 0)

/-- The macro `ALLOC_REGISTER (X)`: the location given to `X` and the globals
afterwards. -/
def ALLOC_REGISTER (g : GState) : Except Fatal (Loc × GState) :=
  match general_regis g.avail with
  | Except.error e => Except.error e
  | Except.ok r =>
    match regis r with
    | Except.error e => Except.error e
    | Except.ok d =>
      Except.ok (MAKE_BASE_LOC loc_kind.register_loc d, { g with avail := g.avail + 1 })

/-- The macro `PUT`: one more line on `outfile`. -/
def PUT (i : Instr) (g : GState) : GState := { g with out := g.out ++ [i] }

/-- The macro `VALID_REGISTER_CHECK (S)`: whether the register text `S` names
the register on top of the pool. -/
def VALID_REGISTER_CHECK (s : Option String) (g : GState) : Except Fatal Bool :=
  match s with
  | none => Except.ok false
  | some r =>
    match general_regis (if g.avail < 1 then 0 else g.avail - 1) with
    | Except.error e => Except.error e
    | Except.ok i =>
      match regis i with
      | Except.error e => Except.error e
      | Except.ok top => Except.ok (r == top)

/-- The macro `FREE_LOC_HOOK (X)`. -/
def FREE_LOC_HOOK (x : Loc) (g : GState) : Except Fatal GState :=
  if IS_REGISTER x || IS_MEMORY x then
    match (if IS_MEMORY x then
        match VALID_REGISTER_CHECK x.index g with
        | Except.error e => Except.error e
        | Except.ok true => Except.ok { g with avail := g.avail - 1 }
        | Except.ok false => Except.ok g
      else Except.ok g) with
    | Except.error e => Except.error e
    | Except.ok g1 =>
      match VALID_REGISTER_CHECK x.base g1 with
      | Except.error e => Except.error e
      | Except.ok true => Except.ok { g1 with avail := g1.avail - 1 }
      | Except.ok false => Except.ok g1
  else Except.ok g

/-- Modelled from the spec: the macro `FREE_LOC (X)` of `loc.h`, which is not
among the sources: a null `X` is left alone, any other is passed to
`FREE_LOC_HOOK`, released and set to null. -/
def FREE_LOC (x : Option Loc) (g : GState) : Except Fatal GState :=
  match x with
  | none => Except.ok g
  | some l => FREE_LOC_HOOK l g

/-- The macro `MOVE_LOC_WITH (OP, X, Y)`: the globals afterwards; `X` is `Y`
from then on. -/
def MOVE_LOC_WITH (op : String) (x : Option Loc) (y : Loc) (g : GState) :
    Except Fatal GState :=
  match x with
  | none => Except.ok g
  | some l => FREE_LOC (some l) (PUT (Instr.two op l y) g)

/-- The macro `GIVE_REGISTER_HOW (I, S)`: the location `S` holds afterwards
and the globals. -/
def GIVE_REGISTER_HOW (i : String) (s : Loc) (g : GState) : Except Fatal (Loc × GState) :=
  let pick : Except Fatal (Int × Option Loc) :=
    if IS_MEMORY s then
      match s.base with
      | none => Except.error Fatal.null_pointer
      | some b =>
        if b ≠ "%rbp" then Except.ok (1, some (MAKE_BASE_LOC loc_kind.register_loc b))
        else
          match s.index with
          | some x => Except.ok (1, some (MAKE_BASE_LOC loc_kind.register_loc x))
          | none => Except.ok (0, none)
    else Except.ok (0, none)
  match pick with
  | Except.error e => Except.error e
  | Except.ok (addto_avail, t) =>
    match (match t with
        | some r => Except.ok (r, g)
        | none => ALLOC_REGISTER g) with
    | Except.error e => Except.error e
    | Except.ok (r, g1) =>
      match MOVE_LOC_WITH i (some s) r g1 with
      | Except.error e => Except.error e
      | Except.ok g2 => Except.ok (r, { g2 with avail := g2.avail + addto_avail })

/-- The macro `GIVE_REGISTER (S)`. -/
def GIVE_REGISTER (s : Loc) (g : GState) : Except Fatal (Loc × GState) :=
  GIVE_REGISTER_HOW "mov" s g

/-- The macro `ENSURE_DESTINATION_REGISTER1 (X, Y)`: `X` and `Y` afterwards. -/
def ENSURE_DESTINATION_REGISTER1 (x y : Loc) (g : GState) :
    Except Fatal (Loc × Loc × GState) :=
  if !IS_REGISTER x then
    if IS_REGISTER y then Except.ok (y, x, g)
    else
      match GIVE_REGISTER x g with
      | Except.error e => Except.error e
      | Except.ok (x1, g1) => Except.ok (x1, y, g1)
  else Except.ok (x, y, g)

/-- The macro `ENSURE_DESTINATION_REGISTER2 (X, Y)`. -/
def ENSURE_DESTINATION_REGISTER2 (x y : Loc) (g : GState) :
    Except Fatal (Loc × Loc × GState) :=
  if !IS_REGISTER x then
    if IS_REGISTER y then
      match GIVE_REGISTER y g with
      | Except.error e => Except.error e
      | Except.ok (y1, g1) =>
        match MOVE_LOC_WITH "mov" (some x) y g1 with
        | Except.error e => Except.error e
        | Except.ok g2 => Except.ok (y, y1, g2)
    else
      match GIVE_REGISTER x g with
      | Except.error e => Except.error e
      | Except.ok (x1, g1) => Except.ok (x1, y, g1)
  else Except.ok (x, y, g)

/-- The macro `ENSURE_DESTINATION_REGISTER3 (X, Y)`. -/
def ENSURE_DESTINATION_REGISTER3 (x y : Loc) (g : GState) :
    Except Fatal (Loc × Loc × GState) :=
  match (if !IS_LITERAL y then
      match MOVE_LOC_WITH "mov" (some y) (MAKE_BASE_LOC loc_kind.register_loc "%rcx") g with
      | Except.error e => Except.error e
      | Except.ok g1 => Except.ok (MAKE_BASE_LOC loc_kind.register_loc "%cl", g1)
    else Except.ok (y, g)) with
  | Except.error e => Except.error e
  | Except.ok (y1, g1) =>
    if IS_LITERAL x then
      match GIVE_REGISTER x g1 with
      | Except.error e => Except.error e
      | Except.ok (x1, g2) => Except.ok (x1, y1, g2)
    else Except.ok (x, y1, g1)

/-- The macro `ENSURE_DESTINATION_REGISTER4 (X, Y)`. -/
def ENSURE_DESTINATION_REGISTER4 (x y : Loc) (g : GState) :
    Except Fatal (Loc × Loc × GState) :=
  match ENSURE_DESTINATION_REGISTER2 x y g with
  | Except.error e => Except.error e
  | Except.ok (x1, y1, g1) =>
    if !IS_REGISTER y1 then
      match GIVE_REGISTER y1 g1 with
      | Except.error e => Except.error e
      | Except.ok (y2, g2) => Except.ok (x1, y2, g2)
    else Except.ok (x1, y1, g1)

/-- The cases `'&' '|' '^' '+'` and `'-'`, `RS`, `LS` of `gen_code_binary`:
`ENSURE_DESTINATION_REGISTER (N, s->loc, from->loc)`, then one line
`op from, s->loc`. -/
def binary_two_operand
    (ensure : Loc → Loc → GState → Except Fatal (Loc × Loc × GState))
    (op : String) (sloc from_loc : Loc) (g : GState) :
    Except Fatal (Loc × Option Loc × GState) :=
  match ensure sloc from_loc g with
  | Except.error e => Except.error e
  | Except.ok (x, y, g1) => Except.ok (x, some y, PUT (Instr.two op y x) g1)

/-- The cases `'*'`, `'/'` and `'%'` of `gen_code_binary`, which differ in the
instruction `op` and in the register `result` the value is taken from. -/
def binary_mul_div (op result : String) (sloc from_loc : Loc) (g : GState) :
    Except Fatal (Loc × Option Loc × GState) :=
  match MOVE_LOC_WITH "mov" (some sloc) (MAKE_BASE_LOC loc_kind.register_loc "%rax") g with
  | Except.error e => Except.error e
  | Except.ok g1 =>
    let g2 := PUT (Instr.two "mov" (MAKE_BASE_LOC loc_kind.literal_loc "0")
      (MAKE_BASE_LOC loc_kind.register_loc "%rdx")) g1
    match (if IS_LITERAL from_loc then GIVE_REGISTER from_loc g2
        else Except.ok (from_loc, g2)) with
    | Except.error e => Except.error e
    | Except.ok (f, g3) =>
      match FREE_LOC (some f) (PUT (Instr.one op f) g3) with
      | Except.error e => Except.error e
      | Except.ok g4 =>
        match GIVE_REGISTER (MAKE_BASE_LOC loc_kind.register_loc result) g4 with
        | Except.error e => Except.error e
        | Except.ok (x, g5) => Except.ok (x, none, g5)

/-- The function `gen_code_binary` from the point where both operands have
been generated: `left` and `right` are `s->ops[0]->loc` and `s->ops[1]->loc`,
the result is `s->loc` and the globals on return. -/
def gen_code_binary (op : Int) (left right : Option Loc) (g : GState) :
    Except Fatal (Loc × GState) :=
  match left, right with
  | none, _ => Except.error Fatal.assertion
  | some _, none => Except.error Fatal.assertion
  | some sloc, some from_loc =>
    match (
      if op = chr '=' then
        match (if IS_MEMORY from_loc then GIVE_REGISTER from_loc g
            else Except.ok (from_loc, g)) with
        | Except.error e => Except.error e
        | Except.ok (f, g1) =>
          if IS_MEMORY sloc then Except.ok (sloc, some f, PUT (Instr.two "movq" f sloc) g1)
          else Except.error Fatal.assertion
      else if op = chr '&' then
        binary_two_operand ENSURE_DESTINATION_REGISTER1 "and" sloc from_loc g
      else if op = chr '|' then
        binary_two_operand ENSURE_DESTINATION_REGISTER1 "or" sloc from_loc g
      else if op = chr '^' then
        binary_two_operand ENSURE_DESTINATION_REGISTER1 "xor" sloc from_loc g
      else if op = chr '+' then
        binary_two_operand ENSURE_DESTINATION_REGISTER1 "add" sloc from_loc g
      else if op = chr '-' then
        binary_two_operand ENSURE_DESTINATION_REGISTER2 "sub" sloc from_loc g
      else if op = chr '*' then binary_mul_div "imulq" "%rax" sloc from_loc g
      else if op = chr '/' then binary_mul_div "idivq" "%rax" sloc from_loc g
      else if op = chr '%' then binary_mul_div "idivq" "%rdx" sloc from_loc g
      else if op = RS then
        binary_two_operand ENSURE_DESTINATION_REGISTER3 "shr" sloc from_loc g
      else if op = LS then
        binary_two_operand ENSURE_DESTINATION_REGISTER3 "shl" sloc from_loc g
      else if op = chr '[' then
        if IS_LITERAL sloc then Except.error Fatal.assertion
        else
          match ENSURE_DESTINATION_REGISTER4 sloc from_loc g with
          | Except.error e => Except.error e
          | Except.ok (x, y, g1) =>
            Except.ok ({ x with kind := loc_kind.memory_loc, index := y.base, scale := 8 },
              some { y with base := none }, g1)
      else Except.error (Fatal.invalid_binary op g.out)) with
    | Except.error e => Except.error e
    | Except.ok (x, f, g1) =>
      match FREE_LOC f g1 with
      | Except.error e => Except.error e
      | Except.ok g2 => Except.ok (x, g2)

/-- The case `integer_type` of `gen_code_r` for a node without a location:
the immediate `my_printf ("%lld", i)`. -/
def integer_loc (i : Int) : Loc := MAKE_BASE_LOC loc_kind.literal_loc (toString i)

/-- The globals as `gen_code` sets them before it walks the tree. -/
def GState.start : GState :=
  { avail := 0, str_labelno := 0, data_section := "\t.data\n", branch_labelno := 0, out := [] }

/-! ## The x86-64 instructions of the arithmetic operators

The meaning of the instructions that `gen_code_binary` writes for `+ - * / %
>> <<`, on a machine of 64-bit registers holding signed values; it follows
the instruction set reference, not the sources. -/

/-- The registers written so far, with their signed 64-bit contents. -/
abbrev Regs := List (String × Int)

/-- The content of a register, if it was written. -/
def Regs.get (m : Regs) (r : String) : Option Int :=
  match m with
  | [] => none
  | (n, v) :: rest => if n = r then some v else Regs.get rest r

/-- The registers after a write. -/
def Regs.set (m : Regs) (r : String) (v : Int) : Regs := (r, v) :: m

/-- The number a string of decimal digits denotes. -/
def parse_digits : List Char → Option Nat
  | [] => none
  | cs => cs.foldl (fun acc c =>
      match acc with
      | none => none
      | some n => if '0' ≤ c ∧ c ≤ '9' then some (10 * n + (c.toNat - 48)) else none) (some 0)

/-- The number the text of an immediate denotes. -/
def parse_imm (s : String) : Option Int :=
  match s.data with
  | '-' :: ds => (parse_digits ds).map (fun n => -(n : Int))
  | ds => (parse_digits ds).map (fun n => (n : Int))

/-- The unsigned reading of a signed 64-bit value. -/
def unsigned64 (v : Int) : Int := v % 2 ^ 64

/-- The value of a source operand: a register, `%cl` as the low byte of
`%rcx`, or an immediate. -/
def operand_value (m : Regs) (x : Loc) : Option Int :=
  match x.kind, x.base with
  | loc_kind.register_loc, some "%cl" => (m.get "%rcx").map (fun v => v % 256)
  | loc_kind.register_loc, some r => m.get r
  | loc_kind.literal_loc, some t => (parse_imm t).map wrap64
  | _, _ => none

/-- One instruction; `none` for a fault (`#DE`) and for anything outside the
instructions described. -/
def exec_instr (i : Instr) (m : Regs) : Option Regs :=
  match i with
  | Instr.two op src dst =>
    match dst.kind, dst.base, operand_value m src with
    | loc_kind.register_loc, some d, some s =>
      if op = "mov" then some (m.set d s)
      else
        match m.get d with
        | none => none
        | some v =>
          if op = "add" then some (m.set d (wrap64 (v + s)))
          else if op = "sub" then some (m.set d (wrap64 (v - s)))
          else if op = "shr" then some (m.set d (wrap64 (unsigned64 v / 2 ^ (s % 64).toNat)))
          else if op = "shl" then some (m.set d (wrap64 (v * 2 ^ (s % 64).toNat)))
          else none
    | _, _, _ => none
  | Instr.one op arg =>
    match operand_value m arg, m.get "%rax", m.get "%rdx" with
    | some s, some a, some d =>
      if op = "imulq" then
        some ((m.set "%rax" (wrap64 (a * s))).set "%rdx" ((a * s - wrap64 (a * s)) / 2 ^ 64))
      else if op = "idivq" then
        let dividend := d * 2 ^ 64 + unsigned64 a
        if s = 0 then none
        else if Int.tdiv dividend s < -(2 ^ 63) ∨ 2 ^ 63 ≤ Int.tdiv dividend s then none
        else some ((m.set "%rax" (Int.tdiv dividend s)).set "%rdx" (Int.tmod dividend s))
      else none
    | _, _, _ => none
  | Instr.text _ => none

/-- A sequence of instructions, from the first to the last. -/
def exec : List Instr → Regs → Option Regs
  | [], m => some m
  | i :: rest, m =>
    match exec_instr i m with
    | none => none
    | some m1 => exec rest m1

/-- The lines that `gen_code_binary` writes for the node `a op b` of two
integer literals, as text. -/
def emitted_lines (op a b : Int) : List String :=
  match gen_code_binary op (some (integer_loc a)) (some (integer_loc b)) GState.start with
  | Except.error _ => []
  | Except.ok (_, g) => g.out.map Instr.render

/-- The value left in the result location `s->loc` by the lines that
`gen_code_binary` writes for the node `a op b` of two integer literals. -/
def emitted_value (op a b : Int) : Option Int :=
  match gen_code_binary op (some (integer_loc a)) (some (integer_loc b)) GState.start with
  | Except.error _ => none
  | Except.ok (l, g) =>
    match exec g.out [] with
    | none => none
    | some m => operand_value m l

/-- The value left in the result location by the lines that `gen_code_binary`
writes for the node `(a op1 b) op2 c` of three integer literals: the lines of
the left operand `a op1 b` first, then those of the node itself. -/
def emitted_value_nested (op1 a b op2 c : Int) : Option Int :=
  match gen_code_binary op1 (some (integer_loc a)) (some (integer_loc b)) GState.start with
  | Except.error _ => none
  | Except.ok (l1, g1) =>
    match gen_code_binary op2 (some l1) (some (integer_loc c)) g1 with
    | Except.error _ => none
    | Except.ok (l2, g2) =>
      match exec g2.out [] with
      | none => none
      | some m => operand_value m l2

/-- The order of the pool as the specification lists it. -/
def pool_order : List String :=
  ["%rbx", "%r10", "%r11", "%r12", "%r13", "%r14", "%r15", "%r9", "%r8",
   "%rdx", "%rcx", "%rsi", "%rdi"]

/-! ## Example trees -/

/-- A declaration node of the name `x`. -/
def decl_node (x : String) : Ast String :=
  Ast.variable Attr.fresh x (some "int") 0 Ast.null

/-- A reference node of the name `x`. -/
def ref_node (x : String) : Ast String :=
  Ast.variable Attr.fresh x none 0 Ast.null

/-- A sequence of nodes as nested blocks. -/
def seq_nodes : List (Ast String) → Ast String
  | [] => Ast.null
  | t :: ts => Ast.block Attr.fresh t (seq_nodes ts) Ast.null

/-- The function `f (int a) { int x; int x; x; }`. -/
def shadow_fn : Ast String :=
  Ast.function Attr.fresh "f" (decl_node "a")
    (seq_nodes [decl_node "x", decl_node "x", ref_node "x"]) Ast.null

/-- The function `f () { int x; x: x; }`, with a variable and a label of one name. -/
def label_after_variable_fn : Ast String :=
  Ast.function Attr.fresh "f" Ast.null
    (seq_nodes [decl_node "x", Ast.label Attr.fresh "x" Ast.null Ast.null, ref_node "x"]) Ast.null

/-- The function `f () { goto L; L: int L; goto L; }`. -/
def variable_after_label_fn : Ast String :=
  Ast.function Attr.fresh "f" Ast.null
    (seq_nodes [Ast.jump Attr.fresh "L" Ast.null, Ast.label Attr.fresh "L" Ast.null Ast.null,
      decl_node "L", Ast.jump Attr.fresh "L" Ast.null]) Ast.null

/-- The function `g () { x: x; }`. -/
def label_then_reference_fn : Ast String :=
  Ast.function Attr.fresh "g" Ast.null
    (seq_nodes [Ast.label Attr.fresh "x" Ast.null Ast.null, ref_node "x"]) Ast.null

/-- The function `g (int b) { x; int y; }`. -/
def second_fn : Ast String :=
  Ast.function Attr.fresh "g" (decl_node "b")
    (seq_nodes [ref_node "x", decl_node "y"]) Ast.null

/-- The common fields of a node that was given the location `loc` only. -/
def Attr.located (loc : String) : Attr String :=
  { loc := some loc, throw_away := false, boolean_not := false, unary_prefix := false }

/-- A variable node as the resolver leaves it. -/
def resolved_node (x : String) (type : Option String) (alloc : Int) (loc : String) :
    Ast String :=
  Ast.variable (Attr.located loc) x type alloc Ast.null

/-- The function `shadow_fn` as the resolver leaves it. -/
def shadow_fn_resolved : Ast String :=
  Ast.function Attr.fresh "f" (resolved_node "a" (some "int") 8 "-8(%rbp)")
    (seq_nodes [resolved_node "x" (some "int") 8 "-16(%rbp)",
      resolved_node "x" (some "int") 8 "-24(%rbp)",
      resolved_node "x" none 0 "-24(%rbp)"]) Ast.null

/-- The function `second_fn` as the resolver leaves it. -/
def second_fn_resolved : Ast String :=
  Ast.function Attr.fresh "g" (resolved_node "b" (some "int") 8 "-8(%rbp)")
    (seq_nodes [resolved_node "x" none 0 "x",
      resolved_node "y" (some "int") 8 "-16(%rbp)"]) Ast.null

/-- The function `f () { goto L; y; L: goto L; }`. -/
def jumps_fn : Ast String :=
  Ast.function Attr.fresh "f" Ast.null
    (seq_nodes [Ast.jump Attr.fresh "L" Ast.null, ref_node "y",
      Ast.label Attr.fresh "L" Ast.null Ast.null, Ast.jump Attr.fresh "L" Ast.null]) Ast.null

/-- The function `jumps_fn` as the resolver leaves it. -/
def jumps_fn_resolved : Ast String :=
  Ast.function Attr.fresh "f" Ast.null
    (seq_nodes [Ast.jump (Attr.located ".LJ1") "L" Ast.null,
      resolved_node "y" none 0 "y",
      Ast.label (Attr.located ".LJ1") "L" Ast.null Ast.null,
      Ast.jump (Attr.located ".LJ1") "L" Ast.null]) Ast.null

/-- The expression `(1 + 2) * 3`. -/
def product_of_sum {L : Type} : Ast L :=
  Ast.binary Attr.fresh (chr '*')
    (Ast.binary Attr.fresh (chr '+') (make_integer 1) (make_integer 2) Ast.null)
    (make_integer 3) Ast.null

/-- The statement `return 7;`. -/
def return_seven {L : Type} : Ast L := Ast.ret Attr.fresh (make_integer 7) Ast.null

/-! ## Auxiliary definitions for the proofs about the register pool -/

/-- The register text that `VALID_REGISTER_CHECK` compares with at the depth
`avail`: the register handed out last, `regis (general_regis (avail - 1))`,
and the first register of the pool when `avail < 1`. -/
def top_register (avail : Int) : String :=
  pool_order.getD (if avail < 1 then 0 else avail - 1).toNat ""

/-- The depth that `FREE_LOC_HOOK` leaves for the location `x` at the depth
`avail`, read off the macro: a register location gives up one level when its
register is the top one; a memory location has its index compared first and
then its base, each against the top register of the depth reached by then;
any other location changes nothing. -/
def freed_depth (x : Loc) (avail : Int) : Int :=
  match x.kind with
  | loc_kind.register_loc => if x.base = some (top_register avail) then avail - 1 else avail
  | loc_kind.memory_loc =>
    let a1 := if x.index = some (top_register avail) then avail - 1 else avail
    if x.base = some (top_register a1) then a1 - 1 else a1
  | _ => avail

/-- The memory location `(base,index,8)`. -/
def indexed_loc (base index : String) : Loc :=
  { kind := loc_kind.memory_loc, base := some base, index := some index, scale := 8, offset := 0 }

/-- The memory location `(base)`. -/
def indirect_loc (base : String) : Loc :=
  { kind := loc_kind.memory_loc, base := some base, index := none, scale := 0, offset := 0 }

/-- The register of the argument position `a` of a call, as
`gen_code_function` and `gen_code_function_call` take it:
`regis (call_regis (a))`. -/
def call_register (a : Int) : Except Fatal String :=
  match call_regis a with
  | Except.error e => Except.error e
  | Except.ok r => regis r

/-- The macro `ALLOC_REGISTER` used `n` times, one after the other. -/
def alloc_registers : Nat → GState → Except Fatal GState
  | 0, g => Except.ok g
  | n + 1, g =>
    match ALLOC_REGISTER g with
    | Except.error e => Except.error e
    | Except.ok (_, g1) => alloc_registers n g1

/-! ## Auxiliary definitions for the proofs about the optimizer -/

/-- Whether a node is an integer literal. -/
def is_integer {L : Type} : Ast L → Bool
  | Ast.integer _ _ _ => true
  | _ => false

/-- The operators `+ - * / % > < >= <= == != >> <<`. -/
def folded_operators : List Int :=
  [chr '+', chr '-', chr '*', chr '/', chr '%', chr '>', chr '<', GE, LE, EQ, NE, RS, LS]

/-- Whether a binary node of operator `op` and children `left`, `right` is one
the optimizer folds: the operator is among `folded_operators` and both children
are integer literals. -/
def foldable {L : Type} (op : Int) (left right : Ast L) : Bool :=
  decide (op ∈ folded_operators) && is_integer left && is_integer right

/-- Whether a foldable binary node stands anywhere in the tree, under any
child of any node and in any sibling. -/
def has_foldable {L : Type} : Ast L → Bool
  | Ast.null => false
  | Ast.block _ val block_next next =>
    has_foldable val || has_foldable block_next || has_foldable next
  | Ast.function _ _ args body next =>
    has_foldable args || has_foldable body || has_foldable next
  | Ast.ret _ val next => has_foldable val || has_foldable next
  | Ast.cond _ cond body next => has_foldable cond || has_foldable body || has_foldable next
  | Ast.label _ _ stuff next => has_foldable stuff || has_foldable next
  | Ast.jump _ _ next => has_foldable next
  | Ast.integer _ _ next => has_foldable next
  | Ast.variable _ _ _ _ next => has_foldable next
  | Ast.string _ _ next => has_foldable next
  | Ast.binary _ op left right next =>
    foldable op left right || has_foldable left || has_foldable right || has_foldable next
  | Ast.unary _ _ arg next => has_foldable arg || has_foldable next
  | Ast.crement _ val next => has_foldable val || has_foldable next
  | Ast.function_call _ name args next =>
    has_foldable name || has_foldable args || has_foldable next
  | Ast.statement _ val next => has_foldable val || has_foldable next
  | Ast.alloc _ size next => has_foldable size || has_foldable next

/-- Whether a foldable binary node stands at a place `optimizer_r` visits: the
root, and from a visited node the value and the successor of a block, the body
of a function, the value of a return, the condition and the body of a
conditional, the content of a label, the operands of a binary and of a unary
node. -/
def reached_foldable {L : Type} : Ast L → Bool
  | Ast.block _ val block_next _ => reached_foldable val || reached_foldable block_next
  | Ast.function _ _ _ body _ => reached_foldable body
  | Ast.ret _ val _ => reached_foldable val
  | Ast.cond _ cond body _ => reached_foldable cond || reached_foldable body
  | Ast.label _ _ stuff _ => reached_foldable stuff
  | Ast.binary _ op left right _ =>
    foldable op left right || reached_foldable left || reached_foldable right
  | Ast.unary _ _ arg _ => reached_foldable arg
  | _ => false

/-- The expression `1 + 2`. -/
def one_plus_two {L : Type} : Ast L :=
  Ast.binary Attr.fresh (chr '+') (make_integer 1) (make_integer 2) Ast.null

/-! ## Auxiliary definitions for the proofs about the places the resolver visits -/

/-- Whether every variable, label and jump node of the tree, under any child
of any node and in any sibling, has a location. -/
def all_resolved : Ast String → Bool
  | Ast.null => true
  | Ast.block _ val block_next next =>
    all_resolved val && all_resolved block_next && all_resolved next
  | Ast.function _ _ args body next =>
    all_resolved args && all_resolved body && all_resolved next
  | Ast.ret _ val next => all_resolved val && all_resolved next
  | Ast.cond _ cond body next => all_resolved cond && all_resolved body && all_resolved next
  | Ast.label a _ stuff next => a.loc.isSome && all_resolved stuff && all_resolved next
  | Ast.jump a _ next => a.loc.isSome && all_resolved next
  | Ast.integer _ _ next => all_resolved next
  | Ast.variable a _ _ _ next => a.loc.isSome && all_resolved next
  | Ast.string _ _ next => all_resolved next
  | Ast.binary _ _ left right next =>
    all_resolved left && all_resolved right && all_resolved next
  | Ast.unary _ _ arg next => all_resolved arg && all_resolved next
  | Ast.crement _ val next => all_resolved val && all_resolved next
  | Ast.function_call _ name args next =>
    all_resolved name && all_resolved args && all_resolved next
  | Ast.statement _ val next => all_resolved val && all_resolved next
  | Ast.alloc _ size next => all_resolved size && all_resolved next

/-- Whether every variable, label and jump node at a place `dealias_r` visits
has a location: the root, and from a visited node the children that the case
of its type passes on, which are all children but the size of an allocation;
a sibling is not visited. -/
def reached_resolved : Ast String → Bool
  | Ast.block _ val block_next _ => reached_resolved val && reached_resolved block_next
  | Ast.function _ _ args body _ => reached_resolved args && reached_resolved body
  | Ast.ret _ val _ => reached_resolved val
  | Ast.cond _ cond body _ => reached_resolved cond && reached_resolved body
  | Ast.label a _ stuff _ => a.loc.isSome && reached_resolved stuff
  | Ast.jump a _ _ => a.loc.isSome
  | Ast.variable a _ _ _ _ => a.loc.isSome
  | Ast.binary _ _ left right _ => reached_resolved left && reached_resolved right
  | Ast.unary _ _ arg _ => reached_resolved arg
  | Ast.crement _ val _ => reached_resolved val
  | Ast.function_call _ name args _ => reached_resolved name && reached_resolved args
  | Ast.statement _ val _ => reached_resolved val
  | _ => true

/-- Whether a tree is made of function nodes alone, as the value or the
successor of blocks: a translation unit without code outside functions. -/
def top_level : Ast String → Bool
  | Ast.null => true
  | Ast.function _ _ _ _ _ => true
  | Ast.block _ val block_next _ => top_level val && top_level block_next
  | _ => false

/-- The allocation `alloca (n)` as an allocation node, its size the variable `n`. -/
def alloc_of_variable : Ast String := Ast.alloc Attr.fresh (ref_node "n") Ast.null

/-- The call `g (x, y)`, the arguments linked through `next`. -/
def call_two_arguments : Ast String :=
  Ast.function_call Attr.fresh (ref_node "g")
    (Ast.variable Attr.fresh "x" none 0 (ref_node "y")) Ast.null

/-- The call `call_two_arguments` as the resolver leaves it. -/
def call_two_arguments_resolved : Ast String :=
  Ast.function_call Attr.fresh (resolved_node "g" none 0 "g")
    (Ast.variable (Attr.located "x") "x" none 0 (ref_node "y")) Ast.null

/-- The function `f () { L: ; }`. -/
def label_fn : Ast String :=
  Ast.function Attr.fresh "f" Ast.null (Ast.label Attr.fresh "L" Ast.null Ast.null) Ast.null

/-- The function `label_fn` as the resolver leaves it when the label is given
the text `l`. -/
def label_fn_resolved (l : String) : Ast String :=
  Ast.function Attr.fresh "f" Ast.null (Ast.label (Attr.located l) "L" Ast.null Ast.null)
    Ast.null

/-- The globals that a run on the declaration `int x;` leaves when it starts
from the initial ones. -/
def after_declaration : DState :=
  { state := [{ label := "x", meaning := "-8(%rbp)" }], func_allocd := 8, curr_labelno := 1 }

/-- The globals that a second run on the declaration `int x;` leaves. -/
def after_two_declarations : DState :=
  { state := [{ label := "x", meaning := "-8(%rbp)" }, { label := "x", meaning := "-16(%rbp)" }],
    func_allocd := 16, curr_labelno := 1 }

/-! ## `gen_code.c`: the walk over the tree

Modelled from the spec: `ast.h` is not among the sources.  The array `ops` of a
node holds its children in the order of the fields of its variant: `ops[0]`,
`ops[1]` are the parameters and the body of a function, the name and the
arguments of a call, the condition and the body of a conditional, the operands
of a binary node, the value and the successor of a block; `num_ops` counts
them, a variable having none.  A function of the walk returns the tree with the
locations it stored, next to the globals. -/

/-- The common fields of the node a pointer points to, none for the null
pointer. -/
def node_attr {L : Type} : Ast L → Option (Attr L)
  | Ast.null => none
  | Ast.block a _ _ _ => some a
  | Ast.function a _ _ _ _ => some a
  | Ast.ret a _ _ => some a
  | Ast.cond a _ _ _ => some a
  | Ast.label a _ _ _ => some a
  | Ast.jump a _ _ => some a
  | Ast.integer a _ _ => some a
  | Ast.variable a _ _ _ _ => some a
  | Ast.string a _ _ => some a
  | Ast.binary a _ _ _ _ => some a
  | Ast.unary a _ _ _ => some a
  | Ast.crement a _ _ => some a
  | Ast.function_call a _ _ _ => some a
  | Ast.statement a _ _ => some a
  | Ast.alloc a _ _ => some a

/-- The field `next` of a node. -/
def node_next {L : Type} : Ast L → Ast L
  | Ast.null => Ast.null
  | Ast.block _ _ _ next => next
  | Ast.function _ _ _ _ next => next
  | Ast.ret _ _ next => next
  | Ast.cond _ _ _ next => next
  | Ast.label _ _ _ next => next
  | Ast.jump _ _ next => next
  | Ast.integer _ _ next => next
  | Ast.variable _ _ _ _ next => next
  | Ast.string _ _ next => next
  | Ast.binary _ _ _ _ next => next
  | Ast.unary _ _ _ next => next
  | Ast.crement _ _ next => next
  | Ast.function_call _ _ _ next => next
  | Ast.statement _ _ next => next
  | Ast.alloc _ _ next => next

/-- The assignment `s->loc = l` on the node `s`. -/
def set_loc {L : Type} (l : Option L) : Ast L → Ast L
  | Ast.null => Ast.null
  | Ast.block a val block_next next => Ast.block { a with loc := l } val block_next next
  | Ast.function a name args body next => Ast.function { a with loc := l } name args body next
  | Ast.ret a val next => Ast.ret { a with loc := l } val next
  | Ast.cond a cond body next => Ast.cond { a with loc := l } cond body next
  | Ast.label a name stuff next => Ast.label { a with loc := l } name stuff next
  | Ast.jump a name next => Ast.jump { a with loc := l } name next
  | Ast.integer a i next => Ast.integer { a with loc := l } i next
  | Ast.variable a name type alloc next => Ast.variable { a with loc := l } name type alloc next
  | Ast.string a val next => Ast.string { a with loc := l } val next
  | Ast.binary a op left right next => Ast.binary { a with loc := l } op left right next
  | Ast.unary a op arg next => Ast.unary { a with loc := l } op arg next
  | Ast.crement a val next => Ast.crement { a with loc := l } val next
  | Ast.function_call a name args next => Ast.function_call { a with loc := l } name args next
  | Ast.statement a val next => Ast.statement { a with loc := l } val next
  | Ast.alloc a size next => Ast.alloc { a with loc := l } size next

/-- The nodes that a loop `for (i = s; i != NULL; i = i->next)` meets. -/
def siblings {L : Type} : Ast L → List (Ast L)
  | Ast.null => []
  | Ast.block a val block_next next => Ast.block a val block_next next :: siblings next
  | Ast.function a name args body next =>
    Ast.function a name args body next :: siblings next
  | Ast.ret a val next => Ast.ret a val next :: siblings next
  | Ast.cond a cond body next => Ast.cond a cond body next :: siblings next
  | Ast.label a name stuff next => Ast.label a name stuff next :: siblings next
  | Ast.jump a name next => Ast.jump a name next :: siblings next
  | Ast.integer a i next => Ast.integer a i next :: siblings next
  | Ast.variable a name type alloc next =>
    Ast.variable a name type alloc next :: siblings next
  | Ast.string a val next => Ast.string a val next :: siblings next
  | Ast.binary a op left right next => Ast.binary a op left right next :: siblings next
  | Ast.unary a op arg next => Ast.unary a op arg next :: siblings next
  | Ast.crement a val next => Ast.crement a val next :: siblings next
  | Ast.function_call a name args next =>
    Ast.function_call a name args next :: siblings next
  | Ast.statement a val next => Ast.statement a val next :: siblings next
  | Ast.alloc a size next => Ast.alloc a size next :: siblings next

/-- The list of siblings with the locations `ls` stored in its nodes, the
first location in the first node. -/
def set_locs {L : Type} : List (Option L) → Ast L → Ast L
  | [], t => t
  | _ :: _, Ast.null => Ast.null
  | l :: ls, Ast.block a val block_next next =>
    Ast.block { a with loc := l } val block_next (set_locs ls next)
  | l :: ls, Ast.function a name args body next =>
    Ast.function { a with loc := l } name args body (set_locs ls next)
  | l :: ls, Ast.ret a val next => Ast.ret { a with loc := l } val (set_locs ls next)
  | l :: ls, Ast.cond a cond body next =>
    Ast.cond { a with loc := l } cond body (set_locs ls next)
  | l :: ls, Ast.label a name stuff next =>
    Ast.label { a with loc := l } name stuff (set_locs ls next)
  | l :: ls, Ast.jump a name next => Ast.jump { a with loc := l } name (set_locs ls next)
  | l :: ls, Ast.integer a i next => Ast.integer { a with loc := l } i (set_locs ls next)
  | l :: ls, Ast.variable a name type alloc next =>
    Ast.variable { a with loc := l } name type alloc (set_locs ls next)
  | l :: ls, Ast.string a val next => Ast.string { a with loc := l } val (set_locs ls next)
  | l :: ls, Ast.binary a op left right next =>
    Ast.binary { a with loc := l } op left right (set_locs ls next)
  | l :: ls, Ast.unary a op arg next =>
    Ast.unary { a with loc := l } op arg (set_locs ls next)
  | l :: ls, Ast.crement a val next =>
    Ast.crement { a with loc := l } val (set_locs ls next)
  | l :: ls, Ast.function_call a name args next =>
    Ast.function_call { a with loc := l } name args (set_locs ls next)
  | l :: ls, Ast.statement a val next =>
    Ast.statement { a with loc := l } val (set_locs ls next)
  | l :: ls, Ast.alloc a size next => Ast.alloc { a with loc := l } size (set_locs ls next)

/-- The read `s->loc` handed to a function that takes the record apart, such
as `print_loc` or `loc_dup`: a null `s` and a null `s->loc` end the run. -/
def deref_loc (s : Ast Loc) : Except Fatal Loc :=
  match node_attr s with
  | none => Except.error Fatal.null_pointer
  | some a =>
    match a.loc with
    | none => Except.error Fatal.null_pointer
    | some l => Except.ok l

/-- The statement `assert (s->loc != NULL)`, giving the location. -/
def assert_loc (s : Ast Loc) : Except Fatal Loc :=
  match node_attr s with
  | none => Except.error Fatal.null_pointer
  | some a =>
    match a.loc with
    | none => Except.error Fatal.assertion
    | some l => Except.ok l

/-- Modelled from the spec: the test `IS_SYMBOL` of `loc.h`. -/
def IS_SYMBOL (x : Loc) : Bool := x.kind == loc_kind.symbol_loc

/-- The macro `ENSURE_DESTINATION_REGISTER_UNI (X)`. -/
def ENSURE_DESTINATION_REGISTER_UNI (x : Loc) (g : GState) : Except Fatal (Loc × GState) :=
  if !IS_REGISTER x then GIVE_REGISTER x g else Except.ok (x, g)

/-- The cases `INC` and `DEC` of `gen_code_unary`, which differ in the
instruction `op`; `keep_old` is `!s->unary_prefix`, `arg` is
`s->ops[0]->loc`. -/
def unary_crement (op : String) (keep_old : Bool) (sloc arg : Loc) (g : GState) :
    Except Fatal (Loc × GState) :=
  match (if keep_old then GIVE_REGISTER sloc g else Except.ok (sloc, g)) with
  | Except.error e => Except.error e
  | Except.ok (x, g1) => Except.ok (x, PUT (Instr.one op arg) g1)

/-- The function `gen_code_unary` from the point where the operand has been
generated and `s->loc = loc_dup (s->ops[0]->loc)` was made: `arg` is
`s->ops[0]->loc`, `keep_old` is `!s->unary_prefix`; the result is `s->loc`
and the globals on return. -/
def gen_code_unary (op : Int) (keep_old : Bool) (arg : Loc) (g : GState) :
    Except Fatal (Loc × GState) :=
  if op = chr '*' then
    match ENSURE_DESTINATION_REGISTER_UNI arg g with
    | Except.error e => Except.error e
    | Except.ok (x, g1) => Except.ok ({ x with kind := loc_kind.memory_loc }, g1)
  else if op = chr '&' then
    if IS_MEMORY arg then GIVE_REGISTER_HOW "lea" arg g
    else if IS_SYMBOL arg then Except.ok ({ arg with kind := loc_kind.literal_loc }, g)
    else Except.error Fatal.assertion
  else if op = chr '-' then
    match ENSURE_DESTINATION_REGISTER_UNI arg g with
    | Except.error e => Except.error e
    | Except.ok (x, g1) => Except.ok (x, PUT (Instr.one "negq" x) g1)
  else if op = INC then unary_crement "incq" keep_old arg arg g
  else if op = DEC then unary_crement "decq" keep_old arg arg g
  else Except.error (Fatal.invalid_unary op g.out)

/-- The record `struct binop_branching`. -/
structure binop_branching where
  op : Int
  check : String
  jump : String
  not : String
deriving DecidableEq, Repr

/-- The table `branchable_binops`. -/
def branchable_binops : List binop_branching :=
  [{ op := chr '<', check := "cmp", jump := "jl", not := "jnl" },
   { op := chr '>', check := "cmp", jump := "jg", not := "jng" },
   { op := EQ, check := "cmp", jump := "je", not := "jne" },
   { op := NE, check := "cmp", jump := "jne", not := "je" },
   { op := LE, check := "cmp", jump := "jle", not := "jnle" },
   { op := GE, check := "cmp", jump := "jge", not := "jnge" }]

/-- Modelled from the spec: the call `bsearch (&op, branchable_binops, ...,
compare)` of `gen_code_cond`, on the table that `gen_code` has sorted with the
same `compare`; `compare` is not among the sources and is taken to order the
records by their `op`, so that the search finds the record of the operator, if
there is one. -/
def branch_code (op : Int) : Option binop_branching :=
  branchable_binops.find? (fun c => c.op == op)

/-- The end of `gen_code_r` for a node whose case of the switch gave `r`: the
reset `if (s->throw_away) avail = 0`, then the call `gen_code_r (s->next)`,
here `gen_next`; `node` puts the node together again. -/
def finish_node {α : Type} (throw_away : Bool) (r : Except Fatal (α × GState))
    (gen_next : GState → Except Fatal (Ast Loc × GState)) (node : α → Ast Loc → Ast Loc) :
    Except Fatal (Ast Loc × GState) :=
  match r with
  | Except.error e => Except.error e
  | Except.ok (x, g1) =>
    match gen_next (if throw_away then { g1 with avail := 0 } else g1) with
    | Except.error e => Except.error e
    | Except.ok (n, g2) => Except.ok (node x n, g2)

/-- The loop of `gen_code_function` over the parameters, `argnum` counting
the variables met so far. -/
def store_params : List (Ast Loc) → Int → GState → Except Fatal GState
  | [], _, g => Except.ok g
  | Ast.variable a _ _ alloc _ :: rest, argnum, g =>
    let g1 := PUT (Instr.text ("\tsub\t$" ++ toString alloc ++ ", %rsp\n")) g
    match a.loc with
    | none => Except.error Fatal.assertion
    | some l =>
      match call_register argnum with
      | Except.error e => Except.error e
      | Except.ok r =>
        store_params rest (argnum + 1)
          (PUT (Instr.two "mov" (MAKE_BASE_LOC loc_kind.register_loc r) l) g1)
  | _ :: rest, argnum, g => store_params rest argnum g

/-- The function `gen_code_function`; `gen_body` is the call
`gen_code_r (s->ops[1])`.  The result is the body as the call leaves it. -/
def gen_code_function (name : String) (args : Ast Loc)
    (gen_body : GState → Except Fatal (Ast Loc × GState)) (g : GState) :
    Except Fatal (Ast Loc × GState) :=
  let g1 := PUT (Instr.text ("\t.global\t" ++ name ++ "\n")) g
  let g2 := PUT (Instr.text (name ++ ":\n")) g1
  let g3 := PUT (Instr.text "\tpush\t%rbp\n\tmov\t%rsp, %rbp\n") g2
  match store_params (siblings args) 0 g3 with
  | Except.error e => Except.error e
  | Except.ok g4 => gen_body g4

/-- The function `gen_code_ret`; `gen_val` is the call `gen_code_r (s->ops[0])`.
The result is the value as the function leaves it. -/
def gen_code_ret (val : Ast Loc) (gen_val : GState → Except Fatal (Ast Loc × GState))
    (g : GState) : Except Fatal (Ast Loc × GState) :=
  match (match val with
      | Ast.null => Except.ok (Ast.null, g)
      | _ =>
        match gen_val g with
        | Except.error e => Except.error e
        | Except.ok (v, g1) =>
          match assert_loc v with
          | Except.error e => Except.error e
          | Except.ok l =>
            match MOVE_LOC_WITH "mov" (some l) (MAKE_BASE_LOC loc_kind.register_loc "%rax") g1 with
            | Except.error e => Except.error e
            | Except.ok g2 =>
              Except.ok (set_loc (some (MAKE_BASE_LOC loc_kind.register_loc "%rax")) v, g2)) with
  | Except.error e => Except.error e
  | Except.ok (v, g3) =>
    Except.ok (v, PUT (Instr.text "\tmov\t%rbp, %rsp\n\tpop\t%rbp\n\tret\n") g3)

/-- The first branch of `gen_code_cond`, taken for a condition that is a
binary node with a record `code` in the table; `gen_left` and `gen_right` are
the calls of `gen_code_r` on the operands of the condition, `boolean_not` the
flag of the condition and `sloc` the field `s->loc`.  The result is the two
operands as the function leaves them. -/
def cond_branch (code : binop_branching) (boolean_not : Bool) (sloc : Option Loc)
    (gen_left gen_right : GState → Except Fatal (Ast Loc × GState)) (g : GState) :
    Except Fatal ((Ast Loc × Ast Loc) × GState) :=
  match gen_left g with
  | Except.error e => Except.error e
  | Except.ok (l, g1) =>
    match assert_loc l with
    | Except.error e => Except.error e
    | Except.ok x =>
      match gen_right g1 with
      | Except.error e => Except.error e
      | Except.ok (r, g2) =>
        match assert_loc r with
        | Except.error e => Except.error e
        | Except.ok y =>
          match ENSURE_DESTINATION_REGISTER2 x y g2 with
          | Except.error e => Except.error e
          | Except.ok (x1, y1, g3) =>
            match sloc with
            | none => Except.error Fatal.null_pointer
            | some target =>
              let g4 := PUT (Instr.two code.check y1 x1) g3
              let g5 := PUT (Instr.one (if boolean_not then code.not else code.jump) target) g4
              match FREE_LOC (some y1) g5 with
              | Except.error e => Except.error e
              | Except.ok g6 =>
                match FREE_LOC (some x1) g6 with
                | Except.error e => Except.error e
                | Except.ok g7 => Except.ok ((set_loc none l, set_loc none r), g7)

/-- The second branch of `gen_code_cond`; `gen_cond` is the call
`gen_code_r (s->ops[0])`.  The result is the condition as the function leaves
it. -/
def cond_plain (sloc : Option Loc) (gen_cond : GState → Except Fatal (Ast Loc × GState))
    (g : GState) : Except Fatal (Ast Loc × GState) :=
  match gen_cond g with
  | Except.error e => Except.error e
  | Except.ok (c, g1) =>
    match assert_loc c with
    | Except.error e => Except.error e
    | Except.ok x =>
      match sloc with
      | none => Except.error Fatal.null_pointer
      | some target =>
        let g2 := PUT (Instr.two "cmpq" x (MAKE_BASE_LOC loc_kind.literal_loc "0")) g1
        let g3 := PUT (Instr.one "jz" target) g2
        match FREE_LOC (some x) g3 with
        | Except.error e => Except.error e
        | Except.ok g4 => Except.ok (set_loc none c, g4)

/-- The start of `gen_code_binary`, the two operands generated and asserted
to have locations, followed by the rest of the function; the result is the two
operands and `s->loc`. -/
def binary_node (op : Int) (gen_left gen_right : GState → Except Fatal (Ast Loc × GState))
    (g : GState) : Except Fatal ((Ast Loc × Ast Loc × Loc) × GState) :=
  match gen_left g with
  | Except.error e => Except.error e
  | Except.ok (l, g1) =>
    match assert_loc l with
    | Except.error e => Except.error e
    | Except.ok x =>
      match gen_right g1 with
      | Except.error e => Except.error e
      | Except.ok (r, g2) =>
        match assert_loc r with
        | Except.error e => Except.error e
        | Except.ok y =>
          match gen_code_binary op (some x) (some y) g2 with
          | Except.error e => Except.error e
          | Except.ok (sloc, g3) => Except.ok ((l, r, sloc), g3)

/-- The start of `gen_code_unary`, the operand generated and its location
copied by `loc_dup`, followed by the rest of the function; the result is the
operand and `s->loc`. -/
def unary_node (op : Int) (keep_old : Bool)
    (gen_arg : GState → Except Fatal (Ast Loc × GState)) (g : GState) :
    Except Fatal ((Ast Loc × Loc) × GState) :=
  match gen_arg g with
  | Except.error e => Except.error e
  | Except.ok (x, g1) =>
    match deref_loc x with
    | Except.error e => Except.error e
    | Except.ok l =>
      match gen_code_unary op keep_old l g1 with
      | Except.error e => Except.error e
      | Except.ok (sloc, g2) => Except.ok ((x, sloc), g2)

/-- The loop of `gen_code_function_call` over the arguments, on the locations
of the nodes of the list; `a` is the position of the first of them.  The
result is the locations the nodes hold afterwards. -/
def move_arguments : List (Option Loc) → Int → GState →
    Except Fatal (List (Option Loc) × GState)
  | [], _, g => Except.ok ([], g)
  | none :: _, _, _ => Except.error Fatal.assertion
  | some l :: rest, a, g =>
    match call_register a with
    | Except.error e => Except.error e
    | Except.ok r =>
      match MOVE_LOC_WITH "mov" (some l) (MAKE_BASE_LOC loc_kind.register_loc r) g with
      | Except.error e => Except.error e
      | Except.ok g1 =>
        match move_arguments rest (a + 1) g1 with
        | Except.error e => Except.error e
        | Except.ok (ls, g2) => Except.ok (some (MAKE_BASE_LOC loc_kind.register_loc r) :: ls, g2)

/-- The location a node of a list of siblings holds. -/
def sibling_loc (s : Ast Loc) : Option Loc :=
  match node_attr s with
  | none => none
  | some a => a.loc

/-- The function `gen_code_function_call`; `gen_args` is the call
`gen_code_r (s->ops[1])`.  The result is the name and the arguments as the
function leaves them, and `s->loc`. -/
def gen_code_function_call (name : Ast Loc)
    (gen_args : GState → Except Fatal (Ast Loc × GState)) (g : GState) :
    Except Fatal ((Ast Loc × Ast Loc × Loc) × GState) :=
  match deref_loc name with
  | Except.error e => Except.error e
  | Except.ok callee =>
    match callee.base with
    | none => Except.error Fatal.null_pointer
    | some b =>
      match (
        if b = "__builtin_alloca" then
          match gen_args g with
          | Except.error e => Except.error e
          | Except.ok (p, g1) =>
            match deref_loc p with
            | Except.error e => Except.error e
            | Except.ok l =>
              match FREE_LOC (some l)
                (PUT (Instr.two "sub" l (MAKE_BASE_LOC loc_kind.register_loc "%rsp")) g1) with
              | Except.error e => Except.error e
              | Except.ok g2 =>
                Except.ok ((name, set_loc none p,
                  MAKE_BASE_LOC loc_kind.register_loc "%rsp"), g2)
        else
          match gen_args g with
          | Except.error e => Except.error e
          | Except.ok (p, g1) =>
            match move_arguments ((siblings p).map sibling_loc) 0 g1 with
            | Except.error e => Except.error e
            | Except.ok (ls, g2) =>
              match name with
              | Ast.variable _ _ _ _ _ =>
                let g3 := PUT (Instr.two "mov" (MAKE_BASE_LOC loc_kind.literal_loc "0")
                  (MAKE_BASE_LOC loc_kind.register_loc "%rax")) g2
                let g4 := PUT (Instr.text ("\tcall\t" ++ b ++ "\n")) g3
                match FREE_LOC (some callee) g4 with
                | Except.error e => Except.error e
                | Except.ok g5 =>
                  Except.ok ((set_loc none name, set_locs ls p,
                    MAKE_BASE_LOC loc_kind.register_loc "%rax"), g5)
              | _ => Except.error Fatal.assertion) with
      | Except.error e => Except.error e
      | Except.ok ((n, p, sloc), g6) =>
        match GIVE_REGISTER sloc g6 with
        | Except.error e => Except.error e
        | Except.ok (x, g7) => Except.ok ((n, p, x), g7)

/-- The case `alloc_type` of `gen_code_r`; `gen_size` is the call
`gen_code_r (s->ops[0])`, `sloc` the field `s->loc` on entry.  The result is the
size as the case leaves it, and `s->loc`. -/
def alloc_node (sloc : Option Loc) (size : Ast Loc)
    (gen_size : GState → Except Fatal (Ast Loc × GState)) (g : GState) :
    Except Fatal ((Ast Loc × Option Loc) × GState) :=
  match size with
  | Ast.null => Except.ok ((Ast.null, sloc), g)
  | _ =>
    match gen_size g with
    | Except.error e => Except.error e
    | Except.ok (z, g1) =>
      match deref_loc z with
      | Except.error e => Except.error e
      | Except.ok l =>
        match FREE_LOC (some l)
          (PUT (Instr.two "sub" l (MAKE_BASE_LOC loc_kind.register_loc "%rsp")) g1) with
        | Except.error e => Except.error e
        | Except.ok g2 =>
          match GIVE_REGISTER (MAKE_BASE_LOC loc_kind.register_loc "%rsp") g2 with
          | Except.error e => Except.error e
          | Except.ok (x, g3) => Except.ok ((set_loc none z, some x), g3)

/-- The case `string_type` of `gen_code_r`: the location of the node
afterwards and the globals.  Modelled from the spec: the macro `EXTENDF` of
`compiler.h`, which is not among the sources, adds the text to the end of the
string. -/
def string_node (sloc : Option Loc) (val : Option String) (g : GState) : Loc × GState :=
  let p : Loc × GState :=
    match sloc with
    | some l => (l, g)
    | none =>
      (MAKE_BASE_LOC loc_kind.symbol_loc (".LS" ++ toString g.str_labelno),
        { g with str_labelno := g.str_labelno + 1 })
  match val with
  | none => p
  | some v =>
    (p.1, { p.2 with
      data_section := p.2.data_section ++ print_loc p.1 ++ ":\n\t.string\t\"" ++ v ++ "\"\n" })

/-- The function `gen_code_r`: the tree as the walk leaves it and the globals
on return. -/
def gen_code_r : Ast Loc → GState → Except Fatal (Ast Loc × GState)
  | Ast.null, g => Except.ok (Ast.null, g)
  | Ast.function a name args body next, g =>
    finish_node a.throw_away (gen_code_function name args (gen_code_r body) g)
      (gen_code_r next) (fun b n => Ast.function a name args b n)
  | Ast.ret a val next, g =>
    finish_node a.throw_away (gen_code_ret val (gen_code_r val) g)
      (gen_code_r next) (fun v n => Ast.ret a v n)
  | Ast.cond _ Ast.null _ _, _ => Except.error Fatal.null_pointer
  | Ast.cond a (Ast.binary ca op left right cnext) body next, g =>
    match branch_code op with
    | some code =>
      finish_node a.throw_away
        (cond_branch code ca.boolean_not a.loc (gen_code_r left) (gen_code_r right) g)
        (gen_code_r next)
        (fun p n => Ast.cond a (Ast.binary ca op p.1 p.2 cnext) body n)
    | none =>
      finish_node a.throw_away
        (cond_plain a.loc (gen_code_r (Ast.binary ca op left right cnext)) g)
        (gen_code_r next) (fun c n => Ast.cond a c body n)
  | Ast.cond a cond body next, g =>
    finish_node a.throw_away (cond_plain a.loc (gen_code_r cond) g)
      (gen_code_r next) (fun c n => Ast.cond a c body n)
  | Ast.label a name stuff next, g =>
    finish_node a.throw_away
      (match a.loc with
        | none => Except.error Fatal.assertion
        | some l => Except.ok ((), PUT (Instr.text (print_loc l ++ ":\n")) g))
      (gen_code_r next) (fun _ n => Ast.label a name stuff n)
  | Ast.jump a name next, g =>
    finish_node a.throw_away
      (match a.loc with
        | none => Except.error Fatal.assertion
        | some l => Except.ok ((), PUT (Instr.one "jmp" l) g))
      (gen_code_r next) (fun _ n => Ast.jump a name n)
  | Ast.integer a i next, g =>
    finish_node a.throw_away (Except.ok ((), g)) (gen_code_r next)
      (fun _ n =>
        Ast.integer
          (match a.loc with
            | none => { a with loc := some (integer_loc i) }
            | some _ => a) i n)
  | Ast.string a val next, g =>
    finish_node a.throw_away (Except.ok (string_node a.loc val g)) (gen_code_r next)
      (fun l n => Ast.string { a with loc := some l } val n)
  | Ast.binary a op left right next, g =>
    finish_node a.throw_away (binary_node op (gen_code_r left) (gen_code_r right) g)
      (gen_code_r next)
      (fun p n => Ast.binary { a with loc := some p.2.2 } op p.1 p.2.1 n)
  | Ast.unary a op arg next, g =>
    finish_node a.throw_away (unary_node op (!a.unary_prefix) (gen_code_r arg) g)
      (gen_code_r next) (fun p n => Ast.unary { a with loc := some p.2 } op p.1 n)
  | Ast.function_call a name args next, g =>
    finish_node a.throw_away (gen_code_function_call name (gen_code_r args) g)
      (gen_code_r next)
      (fun p n => Ast.function_call { a with loc := some p.2.2 } p.1 p.2.1 n)
  | Ast.alloc a size next, g =>
    finish_node a.throw_away (alloc_node a.loc size (gen_code_r size) g)
      (gen_code_r next) (fun p n => Ast.alloc { a with loc := p.2 } p.1 n)
  | Ast.block a val block_next next, g =>
    finish_node a.throw_away
      (match gen_code_r val g with
        | Except.error e => Except.error e
        | Except.ok (v, g1) =>
          match gen_code_r block_next g1 with
          | Except.error e => Except.error e
          | Except.ok (b, g2) => Except.ok ((v, b), g2))
      (gen_code_r next) (fun p n => Ast.block a p.1 p.2 n)
  | Ast.variable a name type alloc next, g =>
    finish_node a.throw_away (Except.ok ((), g)) (gen_code_r next)
      (fun _ n => Ast.variable a name type alloc n)
  | Ast.crement a val next, g =>
    finish_node a.throw_away (gen_code_r val g) (gen_code_r next)
      (fun v n => Ast.crement a v n)
  | Ast.statement a val next, g =>
    finish_node a.throw_away (gen_code_r val g) (gen_code_r next)
      (fun v n => Ast.statement a v n)

/-- The function `gen_code`, run on the globals as an earlier run left them;
the lines of `outfile` are kept. -/
def gen_code (s : Ast Loc) (g : GState) : Except Fatal (Ast Loc × GState) :=
  let g0 : GState :=
    { avail := 0, str_labelno := 0, data_section := "\t.data\n", branch_labelno := 0,
      out := g.out }
  match gen_code_r s g0 with
  | Except.error e => Except.error e
  | Except.ok (t, g1) => Except.ok (t, PUT (Instr.text g1.data_section) g1)

/-! ## Example trees of the code generator -/

/-- The stack slot `-n(%rbp)`. -/
def slot_loc (n : Int) : Loc :=
  { kind := loc_kind.memory_loc, base := some "%rbp", index := none, scale := 0, offset := -n }

/-- The common fields of a node that holds the location `l` and no flag. -/
def Attr.at_loc (l : Loc) : Attr Loc :=
  { loc := some l, throw_away := false, boolean_not := false, unary_prefix := false }

/-- The function `f (int a, int b) { return a % b; }` as the resolver hands it
on: the parameters, linked through `next`, hold the slots `-8(%rbp)` and
`-16(%rbp)` and the allocation size 8, the references hold the slot of their
variable. -/
def modulo_fn : Ast Loc :=
  Ast.function Attr.fresh "f"
    (Ast.variable (Attr.at_loc (slot_loc 8)) "a" (some "int") 8
      (Ast.variable (Attr.at_loc (slot_loc 16)) "b" (some "int") 8 Ast.null))
    (Ast.ret Attr.fresh
      (Ast.binary Attr.fresh (chr '%')
        (Ast.variable (Attr.at_loc (slot_loc 8)) "a" none 0 Ast.null)
        (Ast.variable (Attr.at_loc (slot_loc 16)) "b" none 0 Ast.null) Ast.null) Ast.null)
    Ast.null

/-- The lines on `outfile` and the depth of the pool that a run of `gen_code`
from the initial globals ends with, none for a run that ends early. -/
def gen_code_output (s : Ast Loc) : Option (String × Int) :=
  match gen_code s GState.start with
  | Except.error _ => none
  | Except.ok (_, g) => some (String.join (g.out.map Instr.render), g.avail)

/-- The node alone, as the switch of `gen_code_r` deals with it: without its
sibling and without the discard-registers flag. -/
def detached : Ast Loc → Ast Loc
  | Ast.null => Ast.null
  | Ast.block a val block_next _ =>
    Ast.block { a with throw_away := false } val block_next Ast.null
  | Ast.function a name args body _ =>
    Ast.function { a with throw_away := false } name args body Ast.null
  | Ast.ret a val _ => Ast.ret { a with throw_away := false } val Ast.null
  | Ast.cond a cond body _ => Ast.cond { a with throw_away := false } cond body Ast.null
  | Ast.label a name stuff _ => Ast.label { a with throw_away := false } name stuff Ast.null
  | Ast.jump a name _ => Ast.jump { a with throw_away := false } name Ast.null
  | Ast.integer a i _ => Ast.integer { a with throw_away := false } i Ast.null
  | Ast.variable a name type alloc _ =>
    Ast.variable { a with throw_away := false } name type alloc Ast.null
  | Ast.string a val _ => Ast.string { a with throw_away := false } val Ast.null
  | Ast.binary a op left right _ =>
    Ast.binary { a with throw_away := false } op left right Ast.null
  | Ast.unary a op arg _ => Ast.unary { a with throw_away := false } op arg Ast.null
  | Ast.crement a val _ => Ast.crement { a with throw_away := false } val Ast.null
  | Ast.function_call a name args _ =>
    Ast.function_call { a with throw_away := false } name args Ast.null
  | Ast.statement a val _ => Ast.statement { a with throw_away := false } val Ast.null
  | Ast.alloc a size _ => Ast.alloc { a with throw_away := false } size Ast.null

/-- The common fields of a node with the discard-registers flag and nothing
else. -/
def discarded_sum_attr : Attr Loc :=
  { loc := none, throw_away := true, boolean_not := false, unary_prefix := false }

/-- The statement `1 + 2;`, marked to discard its registers. -/
def discarded_sum : Ast Loc := Ast.statement discarded_sum_attr one_plus_two Ast.null

/-- The globals after the code of `1 + 2` alone, entered at the depth 5. -/
def discarded_sum_state : GState :=
  { GState.start with
    avail := 6,
    out := [Instr.two "mov" (integer_loc 1) (MAKE_BASE_LOC loc_kind.register_loc "%r14"),
      Instr.two "add" (integer_loc 2) (MAKE_BASE_LOC loc_kind.register_loc "%r14")] }

/-! ## Auxiliary definitions for the proofs about the operator switches -/

/-- Whether a run ended at the `default` case of an operator switch. -/
def operator_fatal : Fatal → Bool
  | Fatal.invalid_binary _ _ => true
  | Fatal.invalid_unary _ _ => true
  | _ => false

/-- A step that does not end at the `default` case of an operator switch. -/
def plain {α : Type} (r : Except Fatal α) : Prop :=
  ∀ e, r = Except.error e → operator_fatal e = false

/-- The operators `= & | ^ + - * / % >> << [`. -/
def binary_operators : List Int :=
  [chr '=', chr '&', chr '|', chr '^', chr '+', chr '-', chr '*', chr '/', chr '%', RS, LS,
    chr '[']

/-- The operators `* & - ++ --`. -/
def unary_operators : List Int := [chr '*', chr '&', chr '-', INC, DEC]

/-- The expression `*a + *b`, the variables `a` and `b` in the slots `-8(%rbp)`
and `-16(%rbp)`. -/
def sum_of_derefs : Ast Loc :=
  Ast.binary Attr.fresh (chr '+')
    (Ast.unary Attr.fresh (chr '*')
      (Ast.variable (Attr.at_loc (slot_loc 8)) "a" none 0 Ast.null) Ast.null)
    (Ast.unary Attr.fresh (chr '*')
      (Ast.variable (Attr.at_loc (slot_loc 16)) "b" none 0 Ast.null) Ast.null)
    Ast.null

/-- The sum `s + s + s + s` of four copies of `s`. -/
def four_times (s : Ast Loc) : Ast Loc :=
  Ast.binary Attr.fresh (chr '+')
    (Ast.binary Attr.fresh (chr '+') (Ast.binary Attr.fresh (chr '+') s s Ast.null) s Ast.null)
    s Ast.null

/-- The expression `(a * b)[*((*a + *b) + (*a + *b) + (*a + *b) + (*a + *b))]`. -/
def deep_index : Ast Loc :=
  Ast.binary Attr.fresh (chr '[')
    (Ast.binary Attr.fresh (chr '*')
      (Ast.variable (Attr.at_loc (slot_loc 8)) "a" none 0 Ast.null)
      (Ast.variable (Attr.at_loc (slot_loc 16)) "b" none 0 Ast.null) Ast.null)
    (Ast.unary Attr.fresh (chr '*') (four_times sum_of_derefs) Ast.null)
    Ast.null

/-! ## Auxiliary definitions for the proofs about the depth at zero, the shifts and the entry point -/

/-- The common fields of a node with the discard-registers flag and no
location. -/
def flagged : Attr Loc :=
  { loc := none, throw_away := true, boolean_not := false, unary_prefix := false }

/-- A reference to the variable `a`, in the slot `-8(%rbp)`. -/
def slot_a : Ast Loc := Ast.variable (Attr.at_loc (slot_loc 8)) "a" none 0 Ast.null

/-- A reference to the variable `b`, in the slot `-16(%rbp)`. -/
def slot_b : Ast Loc := Ast.variable (Attr.at_loc (slot_loc 16)) "b" none 0 Ast.null

/-- The statement `return a + b;` with the discard-registers flag on the
sum. -/
def return_flagged_sum : Ast Loc :=
  Ast.ret Attr.fresh (Ast.binary flagged (chr '+') slot_a slot_b Ast.null) Ast.null

/-- The statement `return a >> 1;`. -/
def return_shifted : Ast Loc :=
  Ast.ret Attr.fresh
    (Ast.binary Attr.fresh RS slot_a (Ast.integer Attr.fresh 1 Ast.null) Ast.null) Ast.null

/-- The expression `a << b`. -/
def shift_by_variable : Ast Loc := Ast.binary Attr.fresh LS slot_a slot_b Ast.null

/-- Whether an instruction has a memory operand as its destination: the
second operand of a two-operand instruction. -/
def writes_memory : Instr → Bool
  | Instr.two _ _ dst => IS_MEMORY dst
  | _ => false

/-- The string literal `"hi"`, without a location. -/
def string_hi : Ast Loc := Ast.string Attr.fresh (some "hi") Ast.null

/-- The globals with the values an earlier run may have left in them, and the
lines `out` on `outfile`. -/
def left_behind (avail str_labelno branch_labelno : Int) (data_section : String)
    (out : List Instr) : GState :=
  { avail := avail, str_labelno := str_labelno, data_section := data_section,
    branch_labelno := branch_labelno, out := out }

/-! ## Auxiliary definitions for the proofs about what the optimizer leaves alone -/

/-- Whether no integer-literal node stands anywhere in the tree, under any
child of any node and in any sibling. -/
def no_integer {L : Type} : Ast L → Bool
  | Ast.null => true
  | Ast.block _ val block_next next => no_integer val && no_integer block_next && no_integer next
  | Ast.function _ _ args body next => no_integer args && no_integer body && no_integer next
  | Ast.ret _ val next => no_integer val && no_integer next
  | Ast.cond _ cond body next => no_integer cond && no_integer body && no_integer next
  | Ast.label _ _ stuff next => no_integer stuff && no_integer next
  | Ast.jump _ _ next => no_integer next
  | Ast.integer _ _ _ => false
  | Ast.variable _ _ _ _ next => no_integer next
  | Ast.string _ _ next => no_integer next
  | Ast.binary _ _ left right next => no_integer left && no_integer right && no_integer next
  | Ast.unary _ _ arg next => no_integer arg && no_integer next
  | Ast.crement _ val next => no_integer val && no_integer next
  | Ast.function_call _ name args next => no_integer name && no_integer args && no_integer next
  | Ast.statement _ val next => no_integer val && no_integer next
  | Ast.alloc _ size next => no_integer size && no_integer next

/-- Whether a node is the null pointer. -/
def is_null {L : Type} : Ast L → Bool
  | Ast.null => true
  | _ => false

/-- Whether the nodes that `optimizer_r` visits have the operands whose `type`
it reads: the condition of a conditional, the left operand of a binary node and
the operand of a unary node are not null. -/
def operands_present {L : Type} : Ast L → Bool
  | Ast.block _ val block_next _ => operands_present val && operands_present block_next
  | Ast.function _ _ _ body _ => operands_present body
  | Ast.ret _ val _ => operands_present val
  | Ast.cond _ cond body _ => !is_null cond && operands_present cond && operands_present body
  | Ast.label _ _ stuff _ => operands_present stuff
  | Ast.binary _ _ left right _ =>
    !is_null left && operands_present left && operands_present right
  | Ast.unary _ _ arg _ => !is_null arg && operands_present arg
  | _ => true

/-- The expression `x + 0`. -/
def x_plus_zero {L : Type} : Ast L :=
  Ast.binary Attr.fresh (chr '+') (Ast.variable Attr.fresh "x" none 0 Ast.null) (make_integer 0)
    Ast.null

/-- The expression `0 * x`. -/
def zero_times_x {L : Type} : Ast L :=
  Ast.binary Attr.fresh (chr '*') (make_integer 0) (Ast.variable Attr.fresh "x" none 0 Ast.null)
    Ast.null

/-- The statement `return x - y;`. -/
def return_difference {L : Type} : Ast L :=
  Ast.ret Attr.fresh
    (Ast.binary Attr.fresh (chr '-') (Ast.variable Attr.fresh "x" none 0 Ast.null)
      (Ast.variable Attr.fresh "y" none 0 Ast.null) Ast.null) Ast.null

/-! ## Auxiliary definitions for the proofs about operand placement -/

/-- The register that `ALLOC_REGISTER` hands out at the depth `avail`. -/
def next_register (avail : Int) : Loc :=
  MAKE_BASE_LOC loc_kind.register_loc (pool_order.getD avail.toNat "")

/-- The lines `pre` written before a subtraction or a comparison and the
operands `S`, `D` of its line, as `ENSURE_DESTINATION_REGISTER2` arranges them
for the left operand `x` and the right operand `y` at the depth `avail`. -/
def order_kept (x y : Loc) (avail : Int) (pre : List Instr) (S D : Loc) : Prop :=
  (IS_REGISTER x = true ∧ pre = [] ∧ D = x ∧ S = y) ∨
  (IS_REGISTER x = false ∧ IS_REGISTER y = true ∧ S = next_register avail ∧ D = y ∧
    pre = [Instr.two "mov" y S, Instr.two "mov" x y]) ∨
  (IS_REGISTER x = false ∧ IS_REGISTER y = false ∧ S = y ∧ IS_REGISTER D = true ∧
    pre = [Instr.two "mov" x D])

instance (x y : Loc) (avail : Int) (pre : List Instr) (S D : Loc) :
    Decidable (order_kept x y avail pre S D) := by
  unfold order_kept
  infer_instance

/-- The same for `ENSURE_DESTINATION_REGISTER1`. -/
def order_free (x y : Loc) (pre : List Instr) (S D : Loc) : Prop :=
  (IS_REGISTER x = true ∧ pre = [] ∧ D = x ∧ S = y) ∨
  (IS_REGISTER x = false ∧ IS_REGISTER y = true ∧ pre = [] ∧ D = y ∧ S = x) ∨
  (IS_REGISTER x = false ∧ IS_REGISTER y = false ∧ S = y ∧ IS_REGISTER D = true ∧
    pre = [Instr.two "mov" x D])

instance (x y : Loc) (pre : List Instr) (S D : Loc) : Decidable (order_free x y pre S D) := by
  unfold order_free
  infer_instance

/-- A state of the globals at the depth `avail` with nothing written. -/
def at_depth (avail : Int) : GState := { GState.start with avail := avail }

/-- The pointer `code` of `gen_code_cond`: null for a condition that is not a
binary node, the result of the search in the table for one that is. -/
def cond_code : Ast Loc → Option binop_branching
  | Ast.binary _ op _ _ _ => branch_code op
  | _ => none

/-- The label `.LJ1` as the location of a conditional. -/
def target_lj1 : Loc := MAKE_BASE_LOC loc_kind.symbol_loc ".LJ1"

/-- The record of `<` in the table. -/
def code_less : binop_branching := { op := chr '<', check := "cmp", jump := "jl", not := "jnl" }

/-! ## Auxiliary definitions for the proofs about label texts -/

/-- The label and jump nodes of a walk that hold a text, each with the number
of calls of `clear_state` met before it, counted from `seg`, its name and its
text.  Two nodes with the same number lie in the same function. -/
def label_texts : List Visit → Nat → List (Nat × String × String)
  | [], _ => []
  | Visit.clear :: vs, seg => label_texts vs (seg + 1)
  | Visit.label name (some l) :: vs, seg => (seg, name, l) :: label_texts vs seg
  | Visit.jump name (some l) :: vs, seg => (seg, name, l) :: label_texts vs seg
  | _ :: vs, seg => label_texts vs seg

/-- Whether no label or jump node of a walk has a name that begins with a
dot. -/
def source_labels : List Visit → Bool
  | [] => true
  | Visit.label name _ :: vs => not_dotted name && source_labels vs
  | Visit.jump name _ :: vs => not_dotted name && source_labels vs
  | _ :: vs => source_labels vs

/-- The text that `get_label` makes with `my_printf (".LJ%d", curr_labelno++)`
at a step of the walk that starts from the globals `st` and leaves the node
`w`, if it makes one: it does when the name has no dotted meaning yet. -/
def minted_at (w : Visit) (st : DState) : List String :=
  match w with
  | Visit.label name (some l) => if not_dotted (get_from_state name st) then [l] else []
  | Visit.jump name (some l) => if not_dotted (get_from_state name st) then [l] else []
  | _ => []

/-- The texts that `get_label` makes during a walk from the globals `st`, in
the order it makes them. -/
def minted_texts : List Visit → DState → List String
  | [], _ => []
  | v :: vs, st =>
    match resolve_visit v st with
    | none => []
    | some (w, st1) => minted_at w st ++ minted_texts vs st1

/-- The label counter is not negative, the dotted meanings of the table are
texts `.LJ<k>` with `k` below the counter, and no such text stands in the
table under two names. -/
def Minted (st : DState) : Prop :=
  0 ≤ st.curr_labelno ∧
  (∀ e ∈ st.state, not_dotted e.meaning = false →
    ∃ k : Nat, e.meaning = jump_label (k : Int) ∧ (k : Int) < st.curr_labelno) ∧
  (∀ e1 ∈ st.state, ∀ e2 ∈ st.state, not_dotted e1.meaning = false →
    e1.meaning = e2.meaning → e1.label = e2.label)

/-- A label node without a statement. -/
def label_node (name : String) : Ast String := Ast.label Attr.fresh name Ast.null Ast.null

/-- A jump node. -/
def jump_node (name : String) : Ast String := Ast.jump Attr.fresh name Ast.null

/-- Two functions `f` and `g`: `f` holds the labels `a` and `b` and a jump to
`a`, `g` holds a label `a`. -/
def two_labelled_fns : Ast String :=
  Ast.block Attr.fresh
    (Ast.function Attr.fresh "f" Ast.null
      (seq_nodes [label_node "a", label_node "b", jump_node "a"]) Ast.null)
    (Ast.function Attr.fresh "g" Ast.null (seq_nodes [label_node "a"]) Ast.null)
    Ast.null

/-- The tree `two_labelled_fns` as the resolver leaves it. -/
def two_labelled_fns_resolved : Ast String :=
  Ast.block Attr.fresh
    (Ast.function Attr.fresh "f" Ast.null
      (seq_nodes [Ast.label (Attr.located ".LJ1") "a" Ast.null Ast.null,
        Ast.label (Attr.located ".LJ2") "b" Ast.null Ast.null,
        Ast.jump (Attr.located ".LJ1") "a" Ast.null]) Ast.null)
    (Ast.function Attr.fresh "g" Ast.null
      (seq_nodes [Ast.label (Attr.located ".LJ3") "a" Ast.null Ast.null]) Ast.null)
    Ast.null

/-- The globals after the resolver has made three labels. -/
def three_labels_made : DState := { state := [], func_allocd := 0, curr_labelno := 4 }

/-! ## Example trees for the flag of a node that `gen_code_r` is not called on -/

/-- The condition `a < b`, carrying the discard-registers flag. -/
def flagged_compare : Ast Loc := Ast.binary flagged (chr '<') slot_a slot_b Ast.null

/-- The conditional `if (a < b)` with that condition and the target `.LJ1`. -/
def if_flagged_compare : Ast Loc :=
  Ast.cond (Attr.at_loc target_lj1) flagged_compare Ast.null Ast.null

/-- The common fields of a node in the slot `-8(%rbp)` that carries the
discard-registers flag. -/
def flagged_slot : Attr Loc :=
  { loc := some (slot_loc 8), throw_away := true, boolean_not := false, unary_prefix := false }

/-- The parameter `int a` with these fields. -/
def flagged_parameter : Ast Loc := Ast.variable flagged_slot "a" (some "int") 8 Ast.null

/-- The function `f (int a) { }` with that parameter. -/
def fn_flagged_parameter : Ast Loc :=
  Ast.function Attr.fresh "f" flagged_parameter Ast.null Ast.null

/-! ## Example trees for the nodes the resolver does not visit -/

/-- The function `f (int a, int b) { }`, the parameters linked through `next`. -/
def two_parameters_fn : Ast String :=
  Ast.function Attr.fresh "f" (Ast.variable Attr.fresh "a" (some "int") 0 (decl_node "b"))
    Ast.null Ast.null

/-- The function `two_parameters_fn` as the resolver leaves it. -/
def two_parameters_fn_resolved : Ast String :=
  Ast.function Attr.fresh "f"
    (Ast.variable (Attr.located "-8(%rbp)") "a" (some "int") 8 (decl_node "b"))
    Ast.null Ast.null

/-- The function `two_parameters_fn_resolved` as the code generator reads it:
the first parameter in its slot, the second without a location. -/
def two_parameters_fn_located : Ast Loc :=
  Ast.function Attr.fresh "f"
    (Ast.variable (Attr.at_loc (slot_loc 8)) "a" (some "int") 8
      (Ast.variable Attr.fresh "b" (some "int") 0 Ast.null))
    Ast.null Ast.null

/-- The call `call_two_arguments_resolved` as the code generator reads it: the
callee and the first argument hold their names, the second argument is without
a location. -/
def call_two_arguments_located : Ast Loc :=
  Ast.function_call Attr.fresh
    (Ast.variable (Attr.at_loc (MAKE_BASE_LOC loc_kind.symbol_loc "g")) "g" none 0 Ast.null)
    (Ast.variable (Attr.at_loc (MAKE_BASE_LOC loc_kind.symbol_loc "x")) "x" none 0
      (Ast.variable Attr.fresh "y" none 0 Ast.null))
    Ast.null

/-! ## A machine with memory, for the moves of the operands

The meaning of the `mov` lines that `GIVE_REGISTER` and
`ENSURE_DESTINATION_REGISTER2` write, on a machine of 64-bit registers told
apart by their names, memory cells and symbols; it follows the instruction set
reference, not the sources.  The byte register `%cl`, a part of `%rcx`, is left
out: the statements that use the machine exclude it. -/

/-- The contents of the registers and of the memory cells, and the addresses
of the symbols. -/
structure Machine where
  reg : String → Int
  mem : Int → Int
  sym : String → Int

/-- The address of the memory operand `offset(base,index,scale)`. -/
def Machine.address (m : Machine) (x : Loc) : Int :=
  m.reg (x.base.getD "") + x.offset +
    (match x.index with
      | some i => m.reg i * x.scale
      | none => 0)

/-- The value an operand denotes. -/
def Machine.value (m : Machine) (x : Loc) : Int :=
  match x.kind with
  | loc_kind.register_loc => m.reg (x.base.getD "")
  | loc_kind.memory_loc => m.mem (m.address x)
  | loc_kind.literal_loc => (x.base.bind parse_imm).getD 0
  | loc_kind.symbol_loc => m.sym (x.base.getD "")

/-- The lines that `gen_code_r` writes for a tree from the globals `g`, as
text, and the depth on return. -/
def gen_code_r_output (s : Ast Loc) (g : GState) : Option (String × Int) :=
  match gen_code_r s g with
  | Except.error _ => none
  | Except.ok (_, g1) => some (String.join (g1.out.map Instr.render), g1.avail)

/-! # Theorems -/

/-! ## The optimizer folds constant expressions -/

theorem abs_succ (n : Nat) : |(n : Int) + 1| = (n : Int) + 1 := abs_of_nonneg (by omega)

theorem tdiv_eq_spec_quot (l r : Int) : Int.tdiv l r = spec_quot l r := by
  unfold spec_quot
  rcases l with (_ | l) | l <;> rcases r with (_ | r) | r <;>
    simp [Int.tdiv, Int.sign, abs_succ]

theorem tmod_eq_spec_rem (l r : Int) : Int.tmod l r = spec_rem l r := by
  unfold spec_rem
  rcases l with (_ | l) | l <;> rcases r with (_ | r) | r <;>
    simp [Int.tmod, Int.sign, abs_succ]

theorem fold_case_spec (op l r v : Int) (h : spec_binary op l r = some v) :
    ∃ f, fold_case op = some f ∧ f l r = some v := by
  unfold spec_binary at h
  unfold fold_case
  by_cases h1 : op = chr '+'
  · rw [if_pos h1] at h ⊢; exact ⟨_, rfl, h⟩
  rw [if_neg h1] at h ⊢
  by_cases h2 : op = chr '-'
  · rw [if_pos h2] at h ⊢; exact ⟨_, rfl, h⟩
  rw [if_neg h2] at h ⊢
  by_cases h3 : op = chr '*'
  · rw [if_pos h3] at h ⊢; exact ⟨_, rfl, h⟩
  rw [if_neg h3] at h ⊢
  by_cases h4 : op = chr '/'
  · rw [if_pos h4] at h ⊢
    refine ⟨_, rfl, ?_⟩
    split_ifs at h with hd
    rw [← h, ← tdiv_eq_spec_quot]
    simp only [c_div]
    rw [if_neg (by tauto)]
  rw [if_neg h4] at h ⊢
  by_cases h5 : op = chr '%'
  · rw [if_pos h5] at h ⊢
    refine ⟨_, rfl, ?_⟩
    split_ifs at h with hd
    rw [← h, ← tmod_eq_spec_rem]
    simp only [c_mod]
    rw [if_neg (by tauto)]
  rw [if_neg h5] at h ⊢
  by_cases h6 : op = chr '>'
  · rw [if_pos h6] at h ⊢; exact ⟨_, rfl, by simpa [c_bool] using h⟩
  rw [if_neg h6] at h ⊢
  by_cases h7 : op = chr '<'
  · rw [if_pos h7] at h ⊢; exact ⟨_, rfl, by simpa [c_bool] using h⟩
  rw [if_neg h7] at h ⊢
  by_cases h8 : op = GE
  · rw [if_pos h8] at h ⊢; exact ⟨_, rfl, by simpa [c_bool] using h⟩
  rw [if_neg h8] at h ⊢
  by_cases h9 : op = LE
  · rw [if_pos h9] at h ⊢; exact ⟨_, rfl, by simpa [c_bool] using h⟩
  rw [if_neg h9] at h ⊢
  by_cases h10 : op = EQ
  · rw [if_pos h10] at h ⊢; exact ⟨_, rfl, by simpa [c_bool] using h⟩
  rw [if_neg h10] at h ⊢
  by_cases h11 : op = NE
  · rw [if_pos h11] at h ⊢; exact ⟨_, rfl, by simpa [c_bool] using h⟩
  rw [if_neg h11] at h ⊢
  by_cases h12 : op = RS
  · rw [if_pos h12] at h ⊢
    refine ⟨_, rfl, ?_⟩
    split_ifs at h with hd
    rw [← h]
    simp only [c_shr]
    rw [if_pos (by omega), Int.shiftRight_eq_div_pow]
    simp
  rw [if_neg h12] at h ⊢
  by_cases h13 : op = LS
  · rw [if_pos h13] at h ⊢
    refine ⟨_, rfl, ?_⟩
    split_ifs at h with hd
    rw [← h]
    simp only [c_shl]
    rw [if_pos (by omega)]
  rw [if_neg h13] at h ⊢
  exact absurd h (by simp)

/-- The recursion behind the folding of constant trees: `optimizer_r` turns a
tree whose specified value is `v` into an integer literal holding `v`. -/
theorem optimizer_r_folds_constant_tree {L : Type} (optimize : Int) (hopt : 0 < optimize)
    (t : Ast L) (v : Int) (hv : value t = some v) :
    ∃ a next, optimizer_r optimize t = some (Ast.integer a v next) := by
  induction t generalizing v with
  | integer a i next => 
    simp only [value, Option.some.injEq] at hv
    exact ⟨a, next, by simp [optimizer_r, hv]⟩
  | binary a op left right next ihl ihr _ =>
    simp only [value] at hv
    cases hl : value left with
    | none => simp [hl] at hv
    | some l =>
      cases hr : value right with
      | none => simp [hl, hr] at hv
      | some r =>
        simp only [hl, hr] at hv
        obtain ⟨al, nl, el⟩ := ihl l hl
        obtain ⟨ar, nr, er⟩ := ihr r hr
        obtain ⟨f, hf, hfv⟩ := fold_case_spec op l r v hv
        exact ⟨Attr.fresh, Ast.null, by
          simp [optimizer_r, el, er, hopt, hf, FOLD_INTEGER_BIN, hfv, make_integer]⟩
  | unary a op arg next ih _ =>
    simp only [value] at hv
    split_ifs at hv with hop
    cases ha : value arg with
    | none => simp [ha] at hv
    | some x =>
      simp only [ha, Option.map_some', Option.some.injEq] at hv
      obtain ⟨aa, na, ea⟩ := ih x ha
      exact ⟨Attr.fresh, Ast.null, by
        simp [optimizer_r, ea, hopt, hop, FOLD_INTEGER_UNI, make_integer, c_neg, hv]⟩
  | _ => simp [value] at hv

/-- Claim C1: with optimization enabled (`optimize > 0`), a tree built only from
integer literals, binary nodes of the operators `+ - * / % > < >= <= == != >> <<`
and unary negations, whose value under signed 64-bit arithmetic is defined (no
zero divisor, no overflowing division, every shift count within `0..63`), is
replaced by `optimizer` by a single integer-literal node holding that value;
the operands are folded before their parent, so nested trees fold completely. -/
theorem optimizer_folds_constant_tree {L : Type} (optimize : Int) (hopt : 0 < optimize)
    (t : Ast L) (v : Int) (hv : value t = some v) :
    ∃ a next, optimizer optimize t = some (Ast.integer a v next) :=
  optimizer_r_folds_constant_tree optimize hopt t v hv

/-- Claim C1 at `(1 + 2) * 3`, which folds to the literal `9`. -/
theorem optimizer_folds_constant_tree_witness :
    (0 : Int) < 1 ∧ value (product_of_sum : Ast String) = some 9 ∧
    ∃ a next, optimizer 1 (product_of_sum : Ast String) = some (Ast.integer a 9 next) :=
  ⟨by decide, by decide, optimizer_folds_constant_tree 1 (by decide) product_of_sum 9 (by decide)⟩

/-- Claim C7: a conditional whose condition is, or is folded by `optimizer_r` to,
the integer literal `i` is replaced by `optimizer` by its optimized body when `i` is not zero
and by the null node when `i` is zero; the guard does not remain. -/
theorem optimizer_removes_constant_conditional {L : Type} (optimize : Int) (a ac : Attr L)
    (c body body' nc next : Ast L) (i : Int)
    (hc : optimizer_r optimize c = some (Ast.integer ac i nc))
    (hb : optimizer_r optimize body = some body') :
    optimizer optimize (Ast.cond a c body next) = some (if i ≠ 0 then body' else Ast.null) := by
  simp only [optimizer, optimizer_r, hc, hb, fold_cond]
  split_ifs <;> rfl

/-- Claim C7 at `if ((1 + 2) * 3) return 7;`, which becomes `return 7;`. -/
theorem optimizer_removes_constant_conditional_witness :
    optimizer_r 1 (product_of_sum : Ast String) = some (Ast.integer Attr.fresh 9 Ast.null) ∧
    optimizer_r 1 (return_seven : Ast String) = some return_seven ∧
    optimizer 1 (Ast.cond Attr.fresh product_of_sum return_seven Ast.null : Ast String) =
      some return_seven :=
  ⟨by decide, by decide,
    optimizer_removes_constant_conditional 1 Attr.fresh Attr.fresh product_of_sum
      return_seven return_seven Ast.null Ast.null 9 (by decide) (by decide)⟩

/-- Claim C8 at its failing input: with `optimize = 0` the tree is not returned
unchanged, `if (0) return 7;` becomes the null node and `if (1) return 7;`
becomes `return 7;`: the conditional case of `optimizer_r` does not test the
flag that its binary and unary cases test. -/
theorem optimizer_disabled_removes_conditional :
    optimizer 0 (Ast.cond Attr.fresh (make_integer 0) return_seven Ast.null : Ast String) =
      some Ast.null ∧
    optimizer 0 (Ast.cond Attr.fresh (make_integer 1) return_seven Ast.null : Ast String) =
      some return_seven := by
  constructor <;> decide

/-- With optimization disabled nothing is folded: a tree in which no reachable
conditional has a literal or null condition is returned as it was. -/
theorem optimizer_disabled_keeps_other_trees {L : Type} (optimize : Int) (hopt : optimize ≤ 0) :
    ∀ t : Ast L, no_constant_cond t = true → optimizer optimize t = some t
  | Ast.block a val bn next, h => by
    simp only [no_constant_cond, Bool.and_eq_true] at h
    have h1 := optimizer_disabled_keeps_other_trees optimize hopt val h.1
    have h2 := optimizer_disabled_keeps_other_trees optimize hopt bn h.2
    simp only [optimizer] at h1 h2 ⊢
    simp [optimizer_r, h1, h2]
  | Ast.function a name args body next, h => by
    simp only [no_constant_cond] at h
    have h1 := optimizer_disabled_keeps_other_trees optimize hopt body h
    simp only [optimizer] at h1 ⊢
    simp [optimizer_r, h1]
  | Ast.ret a val next, h => by
    simp only [no_constant_cond] at h
    have h1 := optimizer_disabled_keeps_other_trees optimize hopt val h
    simp only [optimizer] at h1 ⊢
    simp [optimizer_r, h1]
  | Ast.cond a c b next, h => by
    simp only [no_constant_cond, Bool.and_eq_true] at h
    have h1 := optimizer_disabled_keeps_other_trees optimize hopt c h.1.2
    have h2 := optimizer_disabled_keeps_other_trees optimize hopt b h.2
    simp only [optimizer] at h1 h2 ⊢
    simp only [optimizer_r, h1, h2]
    cases c <;> simp_all [fold_cond]
  | Ast.label a name stuff next, h => by
    simp only [no_constant_cond] at h
    have h1 := optimizer_disabled_keeps_other_trees optimize hopt stuff h
    simp only [optimizer] at h1 ⊢
    simp [optimizer_r, h1]
  | Ast.binary a op l r next, h => by
    simp only [no_constant_cond, Bool.and_eq_true] at h
    have h1 := optimizer_disabled_keeps_other_trees optimize hopt l h.1
    have h2 := optimizer_disabled_keeps_other_trees optimize hopt r h.2
    simp only [optimizer] at h1 h2 ⊢
    simp only [optimizer_r, h1, h2]
    rw [if_neg (by omega)]
  | Ast.unary a op arg next, h => by
    simp only [no_constant_cond] at h
    have h1 := optimizer_disabled_keeps_other_trees optimize hopt arg h
    simp only [optimizer] at h1 ⊢
    simp only [optimizer_r, h1]
    rw [if_neg (by omega)]
  | Ast.null, _ => by simp [optimizer, optimizer_r]
  | Ast.jump a name next, _ => by simp [optimizer, optimizer_r]
  | Ast.integer a i next, _ => by simp [optimizer, optimizer_r]
  | Ast.variable a name type alloc next, _ => by simp [optimizer, optimizer_r]
  | Ast.string a val next, _ => by simp [optimizer, optimizer_r]
  | Ast.crement a val next, _ => by simp [optimizer, optimizer_r]
  | Ast.function_call a name args next, _ => by simp [optimizer, optimizer_r]
  | Ast.statement a val next, _ => by simp [optimizer, optimizer_r]
  | Ast.alloc a size next, _ => by simp [optimizer, optimizer_r]

/-! ## The walk of the resolver over a tree is the walk over its steps -/

theorem resolve_visits_append (xs ys : List Visit) (st s1 s2 : DState) (o1 o2 : List Visit)
    (h1 : resolve_visits xs st = some (o1, s1)) (h2 : resolve_visits ys s1 = some (o2, s2)) :
    resolve_visits (xs ++ ys) st = some (o1 ++ o2, s2) := by
  induction xs generalizing st o1 with
  | nil =>
    simp only [resolve_visits, Option.some.injEq, Prod.mk.injEq] at h1
    obtain ⟨rfl, rfl⟩ := h1
    simpa using h2
  | cons v vs ih =>
    simp only [resolve_visits] at h1
    cases hv : resolve_visit v st with
    | none => simp [hv] at h1
    | some p =>
      obtain ⟨w, st1⟩ := p
      simp only [hv] at h1
      cases hvs : resolve_visits vs st1 with
      | none => simp [hvs] at h1
      | some q =>
        obtain ⟨ws, st2⟩ := q
        simp only [hvs, Option.some.injEq, Prod.mk.injEq] at h1
        obtain ⟨rfl, rfl⟩ := h1
        simp [resolve_visits, hv, ih st1 ws hvs]

theorem resolve_visits_cons_out (inp : List Visit) (st st2 : DState) (o : Visit) (os : List Visit)
    (h : resolve_visits inp st = some (o :: os, st2)) :
    ∃ v vs s1, inp = v :: vs ∧ resolve_visit v st = some (o, s1) ∧
      resolve_visits vs s1 = some (os, st2) := by
  cases inp with
  | nil => simp [resolve_visits] at h
  | cons v vs =>
    simp only [resolve_visits] at h
    cases hv : resolve_visit v st with
    | none => simp [hv] at h
    | some p =>
      obtain ⟨w, st1⟩ := p
      simp only [hv] at h
      cases hvs : resolve_visits vs st1 with
      | none => simp [hvs] at h
      | some q =>
        obtain ⟨ws, st3⟩ := q
        simp only [hvs, Option.some.injEq, Prod.mk.injEq, List.cons.injEq] at h
        obtain ⟨⟨rfl, rfl⟩, rfl⟩ := h
        exact ⟨v, vs, st1, rfl, hv, hvs⟩

theorem resolve_visits_split_out (o1 o2 : List Visit) (inp : List Visit) (st st2 : DState)
    (h : resolve_visits inp st = some (o1 ++ o2, st2)) :
    ∃ i1 i2 s1, inp = i1 ++ i2 ∧ resolve_visits i1 st = some (o1, s1) ∧
      resolve_visits i2 s1 = some (o2, st2) := by
  induction o1 generalizing inp st with
  | nil => exact ⟨[], inp, st, rfl, rfl, by simpa using h⟩
  | cons o os ih =>
    obtain ⟨v, vs, s1, rfl, hv, hvs⟩ := resolve_visits_cons_out inp st st2 o (os ++ o2) h
    obtain ⟨i1, i2, s2, rfl, h1, h2⟩ := ih vs s1 hvs
    exact ⟨v :: i1, i2, s2, rfl, by simp [resolve_visits, hv, h1], h2⟩

theorem dealias_r_visits : ∀ (t : Ast String) (st : DState) (t' : Ast String) (st' : DState),
    dealias_r t st = some (t', st') →
    resolve_visits (visits t) st = some (visits t', st')
  | Ast.block a val bn next, st, t', st', h => by
    simp only [dealias_r] at h
    cases h1 : dealias_r val st with
    | none => simp [h1] at h
    | some p =>
      obtain ⟨v, s1⟩ := p
      simp only [h1] at h
      cases h2 : dealias_r bn s1 with
      | none => simp [h2] at h
      | some q =>
        obtain ⟨n, s2⟩ := q
        simp only [h2, Option.some.injEq, Prod.mk.injEq] at h
        obtain ⟨rfl, rfl⟩ := h
        have h3 := resolve_visits_append _ _ _ _ _ _ _
          (dealias_r_visits _ _ _ _ h1) (dealias_r_visits _ _ _ _ h2)
        simpa [visits] using h3
  | Ast.function a name args body next, st, t', st', h => by
    simp only [dealias_r] at h
    cases h1 : dealias_r args (clear_state st) with
    | none => simp [h1] at h
    | some p =>
      obtain ⟨v, s1⟩ := p
      simp only [h1] at h
      cases h2 : dealias_r body s1 with
      | none => simp [h2] at h
      | some q =>
        obtain ⟨n, s2⟩ := q
        simp only [h2, Option.some.injEq, Prod.mk.injEq] at h
        obtain ⟨rfl, rfl⟩ := h
        have h3 := resolve_visits_append _ _ _ _ _ _ _
          (dealias_r_visits _ _ _ _ h1) (dealias_r_visits _ _ _ _ h2)
        have h4 : resolve_visits [Visit.clear] s2 = some ([Visit.clear], clear_state s2) := rfl
        have h5 := resolve_visits_append _ _ _ _ _ _ _ h3 h4
        simp only [List.append_assoc] at h5
        simp [visits, resolve_visits, resolve_visit, h5]
  | Ast.ret a val next, st, t', st', h => by
    simp only [dealias_r] at h
    cases h1 : dealias_r val st with
    | none => simp [h1] at h
    | some p =>
      obtain ⟨v, s1⟩ := p
      simp only [h1, Option.some.injEq, Prod.mk.injEq] at h
      obtain ⟨rfl, rfl⟩ := h
      simpa [visits] using dealias_r_visits _ _ _ _ h1
  | Ast.cond a c b next, st, t', st', h => by
    simp only [dealias_r] at h
    cases h1 : dealias_r c st with
    | none => simp [h1] at h
    | some p =>
      obtain ⟨v, s1⟩ := p
      simp only [h1] at h
      cases h2 : dealias_r b s1 with
      | none => simp [h2] at h
      | some q =>
        obtain ⟨n, s2⟩ := q
        simp only [h2, Option.some.injEq, Prod.mk.injEq] at h
        obtain ⟨rfl, rfl⟩ := h
        have h3 := resolve_visits_append _ _ _ _ _ _ _
          (dealias_r_visits _ _ _ _ h1) (dealias_r_visits _ _ _ _ h2)
        simpa [visits] using h3
  | Ast.variable a name type alloc next, st, t', st', h => by
    cases type with
    | none =>
      simp only [dealias_r, Option.some.injEq, Prod.mk.injEq] at h
      obtain ⟨rfl, rfl⟩ := h
      simp [visits, resolve_visits, resolve_visit]
    | some ty =>
      simp only [dealias_r] at h
      cases h1 : add_to_state name 8 st with
      | none => simp [h1] at h
      | some s1 =>
        simp only [h1, Option.some.injEq, Prod.mk.injEq] at h
        obtain ⟨rfl, rfl⟩ := h
        simp [visits, resolve_visits, resolve_visit, h1]
  | Ast.label a name stuff next, st, t', st', h => by
    simp only [dealias_r] at h
    cases h1 : get_label name st with
    | none => simp [h1] at h
    | some p =>
      obtain ⟨l, s1⟩ := p
      simp only [h1] at h
      cases h2 : dealias_r stuff s1 with
      | none => simp [h2] at h
      | some q =>
        obtain ⟨x, s2⟩ := q
        simp only [h2, Option.some.injEq, Prod.mk.injEq] at h
        obtain ⟨rfl, rfl⟩ := h
        simp [visits, resolve_visits, resolve_visit, h1, dealias_r_visits _ _ _ _ h2]
  | Ast.jump a name next, st, t', st', h => by
    simp only [dealias_r] at h
    cases h1 : get_label name st with
    | none => simp [h1] at h
    | some p =>
      obtain ⟨l, s1⟩ := p
      simp only [h1, Option.some.injEq, Prod.mk.injEq] at h
      obtain ⟨rfl, rfl⟩ := h
      simp [visits, resolve_visits, resolve_visit, h1]
  | Ast.binary a op l r next, st, t', st', h => by
    simp only [dealias_r] at h
    cases h1 : dealias_r l st with
    | none => simp [h1] at h
    | some p =>
      obtain ⟨v, s1⟩ := p
      simp only [h1] at h
      cases h2 : dealias_r r s1 with
      | none => simp [h2] at h
      | some q =>
        obtain ⟨n, s2⟩ := q
        simp only [h2, Option.some.injEq, Prod.mk.injEq] at h
        obtain ⟨rfl, rfl⟩ := h
        have h3 := resolve_visits_append _ _ _ _ _ _ _
          (dealias_r_visits _ _ _ _ h1) (dealias_r_visits _ _ _ _ h2)
        simpa [visits] using h3
  | Ast.unary a op arg next, st, t', st', h => by
    simp only [dealias_r] at h
    cases h1 : dealias_r arg st with
    | none => simp [h1] at h
    | some p =>
      obtain ⟨v, s1⟩ := p
      simp only [h1, Option.some.injEq, Prod.mk.injEq] at h
      obtain ⟨rfl, rfl⟩ := h
      simpa [visits] using dealias_r_visits _ _ _ _ h1
  | Ast.crement a val next, st, t', st', h => by
    simp only [dealias_r] at h
    cases h1 : dealias_r val st with
    | none => simp [h1] at h
    | some p =>
      obtain ⟨v, s1⟩ := p
      simp only [h1, Option.some.injEq, Prod.mk.injEq] at h
      obtain ⟨rfl, rfl⟩ := h
      simpa [visits] using dealias_r_visits _ _ _ _ h1
  | Ast.function_call a name args next, st, t', st', h => by
    simp only [dealias_r] at h
    cases h1 : dealias_r args st with
    | none => simp [h1] at h
    | some p =>
      obtain ⟨v, s1⟩ := p
      simp only [h1] at h
      cases h2 : dealias_r name s1 with
      | none => simp [h2] at h
      | some q =>
        obtain ⟨n, s2⟩ := q
        simp only [h2, Option.some.injEq, Prod.mk.injEq] at h
        obtain ⟨rfl, rfl⟩ := h
        have h3 := resolve_visits_append _ _ _ _ _ _ _
          (dealias_r_visits _ _ _ _ h1) (dealias_r_visits _ _ _ _ h2)
        simpa [visits] using h3
  | Ast.statement a val next, st, t', st', h => by
    simp only [dealias_r] at h
    cases h1 : dealias_r val st with
    | none => simp [h1] at h
    | some p =>
      obtain ⟨v, s1⟩ := p
      simp only [h1, Option.some.injEq, Prod.mk.injEq] at h
      obtain ⟨rfl, rfl⟩ := h
      simpa [visits] using dealias_r_visits _ _ _ _ h1
  | Ast.null, st, t', st', h => by
    simp only [dealias_r, Option.some.injEq, Prod.mk.injEq] at h
    obtain ⟨rfl, rfl⟩ := h
    simp [visits, resolve_visits]
  | Ast.integer a i next, st, t', st', h => by
    simp only [dealias_r, Option.some.injEq, Prod.mk.injEq] at h
    obtain ⟨rfl, rfl⟩ := h
    simp [visits, resolve_visits]
  | Ast.string a val next, st, t', st', h => by
    simp only [dealias_r, Option.some.injEq, Prod.mk.injEq] at h
    obtain ⟨rfl, rfl⟩ := h
    simp [visits, resolve_visits]
  | Ast.alloc a size next, st, t', st', h => by
    simp only [dealias_r, Option.some.injEq, Prod.mk.injEq] at h
    obtain ⟨rfl, rfl⟩ := h
    simp [visits, resolve_visits]

/-! ## The resolver completes while the table has room -/

theorem add_to_state_completes (v : String) (st : DState)
    (h : st.state.length < state_capacity) :
    ∃ s1, add_to_state v 8 st = some s1 ∧ s1.state.length = st.state.length + 1 ∧
      s1.curr_labelno = st.curr_labelno := by
  simp only [add_to_state, if_pos h]
  exact ⟨_, rfl, by simp, rfl⟩

theorem get_label_completes (l : String) (st : DState)
    (h : st.state.length < state_capacity) (hl : st.curr_labelno < 2 ^ 31 - 1) :
    ∃ m s1, get_label l st = some (m, s1) ∧ s1.state.length ≤ st.state.length + 1 ∧
      s1.curr_labelno ≤ st.curr_labelno + 1 := by
  simp only [get_label]
  by_cases hd : not_dotted (get_from_state l st) = true
  · rw [if_pos hd, if_pos ⟨h, hl⟩]
    exact ⟨_, _, rfl, by simp, by simp⟩
  · rw [if_neg hd]
    exact ⟨_, _, rfl, by omega, by omega⟩

/-- The resolver completes on every tree for which the table has room and the
label counter is far enough from the largest `int`: `dealias_r` returns, with
at most one more entry and one more label per step of the walk. -/
theorem dealias_r_completes : ∀ (t : Ast String) (st : DState),
    st.state.length + (visits t).length ≤ state_capacity →
    st.curr_labelno + (visits t).length < 2 ^ 31 →
    ∃ t' st', dealias_r t st = some (t', st') ∧
      st'.state.length ≤ st.state.length + (visits t).length ∧
      st'.curr_labelno ≤ st.curr_labelno + (visits t).length
  | Ast.block a val bn next, st, h1, h2 => by
    simp only [visits, List.length_append, Nat.cast_add] at h1 h2
    obtain ⟨v, s1, e1, b1, c1⟩ := dealias_r_completes val st (by omega) (by omega)
    obtain ⟨n, s2, e2, b2, c2⟩ := dealias_r_completes bn s1 (by omega) (by omega)
    refine ⟨Ast.block a v n next, s2, by simp only [dealias_r, e1, e2], ?_, ?_⟩
    · simp only [visits, List.length_append]; omega
    · simp only [visits, List.length_append, Nat.cast_add]; omega
  | Ast.function a name args body next, st, h1, h2 => by
    simp only [visits, List.length_append, List.length_cons, List.length_nil,
      Nat.cast_add, Nat.cast_one] at h1 h2
    have hc : (clear_state st).state.length = 0 := by simp [clear_state]
    have hl : (clear_state st).curr_labelno = st.curr_labelno := rfl
    obtain ⟨v, s1, e1, b1, c1⟩ := dealias_r_completes args (clear_state st) (by omega) (by omega)
    obtain ⟨n, s2, e2, b2, c2⟩ := dealias_r_completes body s1 (by omega) (by omega)
    refine ⟨Ast.function a name v n next, clear_state s2, by simp only [dealias_r, e1, e2], ?_, ?_⟩
    · simp [clear_state]
    · simp only [visits, List.length_append, List.length_cons, List.length_nil,
        Nat.cast_add, Nat.cast_one]
      have : (clear_state s2).curr_labelno = s2.curr_labelno := rfl
      omega
  | Ast.ret a val next, st, h1, h2 => by
    simp only [visits] at h1 h2
    obtain ⟨v, s1, e1, b1, c1⟩ := dealias_r_completes val st h1 h2
    exact ⟨Ast.ret a v next, s1, by simp only [dealias_r, e1], by simpa [visits] using b1,
      by simpa [visits] using c1⟩
  | Ast.cond a c b next, st, h1, h2 => by
    simp only [visits, List.length_append, Nat.cast_add] at h1 h2
    obtain ⟨v, s1, e1, b1, c1⟩ := dealias_r_completes c st (by omega) (by omega)
    obtain ⟨n, s2, e2, b2, c2⟩ := dealias_r_completes b s1 (by omega) (by omega)
    refine ⟨Ast.cond a v n next, s2, by simp only [dealias_r, e1, e2], ?_, ?_⟩
    · simp only [visits, List.length_append]; omega
    · simp only [visits, List.length_append, Nat.cast_add]; omega
  | Ast.variable a name type alloc next, st, h1, h2 => by
    cases type with
    | none =>
      exact ⟨Ast.variable { a with loc := some (get_from_state name st) } name none alloc next,
        st, by simp only [dealias_r], by omega, by omega⟩
    | some ty =>
      simp only [visits, List.length_cons, List.length_nil] at h1 h2
      obtain ⟨s1, e1, b1, c1⟩ := add_to_state_completes name st (by omega)
      refine ⟨Ast.variable { a with loc := some (get_from_state name s1) } name (some ty) 8 next,
        s1, by simp only [dealias_r, e1], ?_, ?_⟩
      · simp only [visits, List.length_cons, List.length_nil]; omega
      · simp only [visits, List.length_cons, List.length_nil]; omega
  | Ast.label a name stuff next, st, h1, h2 => by
    simp only [visits, List.length_cons, Nat.cast_add, Nat.cast_one] at h1 h2
    obtain ⟨m, s1, e1, b1, c1⟩ := get_label_completes name st (by omega) (by omega)
    obtain ⟨x, s2, e2, b2, c2⟩ := dealias_r_completes stuff s1 (by omega) (by omega)
    refine ⟨Ast.label { a with loc := some m } name x next, s2, by simp only [dealias_r, e1, e2], ?_, ?_⟩
    · simp only [visits, List.length_cons]; omega
    · simp only [visits, List.length_cons, Nat.cast_add, Nat.cast_one]; omega
  | Ast.jump a name next, st, h1, h2 => by
    simp only [visits, List.length_cons, List.length_nil, Nat.cast_add, Nat.cast_one] at h1 h2
    obtain ⟨m, s1, e1, b1, c1⟩ := get_label_completes name st (by omega) (by omega)
    refine ⟨Ast.jump { a with loc := some m } name next, s1, by simp only [dealias_r, e1], ?_, ?_⟩
    · simp only [visits, List.length_cons, List.length_nil]; omega
    · simp only [visits, List.length_cons, List.length_nil, Nat.cast_add, Nat.cast_one]; omega
  | Ast.binary a op l r next, st, h1, h2 => by
    simp only [visits, List.length_append, Nat.cast_add] at h1 h2
    obtain ⟨v, s1, e1, b1, c1⟩ := dealias_r_completes l st (by omega) (by omega)
    obtain ⟨n, s2, e2, b2, c2⟩ := dealias_r_completes r s1 (by omega) (by omega)
    refine ⟨Ast.binary a op v n next, s2, by simp only [dealias_r, e1, e2], ?_, ?_⟩
    · simp only [visits, List.length_append]; omega
    · simp only [visits, List.length_append, Nat.cast_add]; omega
  | Ast.unary a op arg next, st, h1, h2 => by
    simp only [visits] at h1 h2
    obtain ⟨v, s1, e1, b1, c1⟩ := dealias_r_completes arg st h1 h2
    exact ⟨Ast.unary a op v next, s1, by simp only [dealias_r, e1], by simpa [visits] using b1,
      by simpa [visits] using c1⟩
  | Ast.crement a val next, st, h1, h2 => by
    simp only [visits] at h1 h2
    obtain ⟨v, s1, e1, b1, c1⟩ := dealias_r_completes val st h1 h2
    exact ⟨Ast.crement a v next, s1, by simp only [dealias_r, e1], by simpa [visits] using b1,
      by simpa [visits] using c1⟩
  | Ast.function_call a name args next, st, h1, h2 => by
    simp only [visits, List.length_append, Nat.cast_add] at h1 h2
    obtain ⟨v, s1, e1, b1, c1⟩ := dealias_r_completes args st (by omega) (by omega)
    obtain ⟨n, s2, e2, b2, c2⟩ := dealias_r_completes name s1 (by omega) (by omega)
    refine ⟨Ast.function_call a n v next, s2, by simp only [dealias_r, e1, e2], ?_, ?_⟩
    · simp only [visits, List.length_append]; omega
    · simp only [visits, List.length_append, Nat.cast_add]; omega
  | Ast.statement a val next, st, h1, h2 => by
    simp only [visits] at h1 h2
    obtain ⟨v, s1, e1, b1, c1⟩ := dealias_r_completes val st h1 h2
    exact ⟨Ast.statement a v next, s1, by simp only [dealias_r, e1], by simpa [visits] using b1,
      by simpa [visits] using c1⟩
  | Ast.null, st, _, _ => ⟨Ast.null, st, by simp only [dealias_r], by omega, by omega⟩
  | Ast.integer a i next, st, _, _ => ⟨Ast.integer a i next, st, by simp only [dealias_r], by omega, by omega⟩
  | Ast.string a val next, st, _, _ => ⟨Ast.string a val next, st, by simp only [dealias_r], by omega, by omega⟩
  | Ast.alloc a size next, st, _, _ => ⟨Ast.alloc a size next, st, by simp only [dealias_r], by omega, by omega⟩

/-! ## Decimal texts of distinct numbers are distinct -/

theorem digitChar_value (k : Nat) (h : k < 10) : (Nat.digitChar k).toNat - 48 = k := by
  interval_cases k <;> rfl

theorem toDigitsCore_acc (fuel : Nat) : ∀ (n : Nat) (ds : List Char),
    Nat.toDigitsCore 10 fuel n ds = Nat.toDigitsCore 10 fuel n [] ++ ds := by
  induction fuel with
  | zero => intro n ds; simp [Nat.toDigitsCore]
  | succ f ih =>
    intro n ds
    simp only [Nat.toDigitsCore]
    split
    · simp
    · rw [ih (n / 10) (_ :: ds), ih (n / 10) [_]]; simp

theorem dec_value_toDigitsCore (fuel : Nat) : ∀ n : Nat, n < fuel →
    dec_value (Nat.toDigitsCore 10 fuel n []) = n := by
  induction fuel with
  | zero => intro n h; omega
  | succ f ih =>
    intro n h
    simp only [Nat.toDigitsCore]
    split
    · rename_i h0
      have : n < 10 := by omega
      have h3 : n % 10 = n := Nat.mod_eq_of_lt this
      simp [dec_value, h3, digitChar_value n this]
    · rename_i h0
      rw [toDigitsCore_acc]
      have h1 : n / 10 < f := by omega
      have h2 := ih (n / 10) h1
      simp only [dec_value] at h2 ⊢
      rw [List.foldl_append, h2]
      simp only [List.foldl_cons, List.foldl_nil]
      rw [digitChar_value _ (Nat.mod_lt _ (by decide))]
      omega

theorem nat_repr_injective (a b : Nat) (h : Nat.repr a = Nat.repr b) : a = b := by
  have h1 : Nat.toDigits 10 a = Nat.toDigits 10 b := by
    simp only [Nat.repr] at h
    have := congrArg String.data h
    simpa using this
  have ha := dec_value_toDigitsCore (a + 1) a (by omega)
  have hb := dec_value_toDigitsCore (b + 1) b (by omega)
  simp only [Nat.toDigits] at h1
  rw [h1] at ha
  omega

theorem frame_slot_injective (a b : Nat) (h : frame_slot (a : Int) = frame_slot (b : Int)) :
    a = b := by
  simp only [frame_slot] at h
  have h1 := congrArg String.data h
  simp only [String.data_append] at h1
  have h2 := List.append_cancel_right h1
  have h3 := List.append_cancel_left h2
  apply nat_repr_injective
  apply String.ext
  exact h3

/-! ## What one step of the resolver does to the table -/

theorem get_from_state_append (x y m : String) (st : DState) (fa cl : Int) :
    get_from_state x { state := st.state ++ [{ label := y, meaning := m }],
                       func_allocd := fa, curr_labelno := cl } =
      if y = x then m else get_from_state x st := by
  simp only [get_from_state, List.reverse_append, List.reverse_cons, List.reverse_nil,
    List.nil_append, List.singleton_append, List.find?_cons]
  by_cases h : y = x
  · simp [h]
  · have h1 : (y == x) = false := by simpa using h
    simp [h, h1]

theorem get_from_state_clear (x : String) (st : DState) :
    get_from_state x (clear_state st) = x := by
  simp [get_from_state, clear_state]

theorem not_dotted_jump_label (n : Int) : not_dotted (jump_label n) = false := by
  simp [not_dotted, jump_label, String.data_append]

theorem not_dotted_frame_slot (n : Int) : not_dotted (frame_slot n) = true := by
  simp [not_dotted, frame_slot, String.data_append]

/-- What `add_to_state` leaves, when it completes. -/
theorem add_to_state_some (v : String) (st s1 : DState) (h : add_to_state v 8 st = some s1) :
    st.state.length < state_capacity ∧
    s1 = { state := st.state ++ [{ label := v, meaning := frame_slot (wrap32 (st.func_allocd + 8)) }],
           func_allocd := wrap32 (st.func_allocd + 8), curr_labelno := st.curr_labelno } := by
  simp only [add_to_state] at h
  split_ifs at h with hc
  simp only [Option.some.injEq] at h
  exact ⟨hc, h.symm⟩

/-- What `get_label` leaves, when it completes. -/
theorem get_label_some (l : String) (st s1 : DState) (m : String)
    (h : get_label l st = some (m, s1)) :
    (not_dotted (get_from_state l st) = true ∧ st.state.length < state_capacity ∧
      m = jump_label st.curr_labelno ∧
      s1 = { state := st.state ++ [{ label := l, meaning := m }],
             func_allocd := st.func_allocd, curr_labelno := st.curr_labelno + 1 }) ∨
    (not_dotted (get_from_state l st) = false ∧ m = get_from_state l st ∧ s1 = st) := by
  simp only [get_label] at h
  split_ifs at h with hd hc
  · simp only [Option.some.injEq, Prod.mk.injEq] at h
    obtain ⟨rfl, rfl⟩ := h
    exact Or.inl ⟨hd, hc.1, rfl, rfl⟩
  · simp only [Option.some.injEq, Prod.mk.injEq] at h
    exact Or.inr ⟨by simpa using hd, h.1.symm, h.2.symm⟩

/-- A step that is no function boundary and binds no entry for `x` leaves the
resolution of `x` as it was. -/
theorem resolve_visit_keeps (x : String) (v o : Visit) (st s1 : DState)
    (h : resolve_visit v st = some (o, s1)) (hc : o ≠ Visit.clear) (hb : o.binds x = false) :
    get_from_state x s1 = get_from_state x st := by
  cases v with
  | clear =>
    simp only [resolve_visit, Option.some.injEq, Prod.mk.injEq] at h
    exact absurd h.1.symm hc
  | declaration n al lo =>
    simp only [resolve_visit] at h
    cases h1 : add_to_state n 8 st with
    | none => simp [h1] at h
    | some s2 =>
      simp only [h1, Option.some.injEq, Prod.mk.injEq] at h
      obtain ⟨rfl, rfl⟩ := h
      obtain ⟨_, rfl⟩ := add_to_state_some n st s2 h1
      have hn : ¬ n = x := by simpa [Visit.binds] using hb
      rw [get_from_state_append, if_neg hn]
  | reference n lo =>
    simp only [resolve_visit, Option.some.injEq, Prod.mk.injEq] at h
    rw [h.2]
  | label n lo =>
    simp only [resolve_visit] at h
    cases h1 : get_label n st with
    | none => simp [h1] at h
    | some p =>
      obtain ⟨m, s2⟩ := p
      simp only [h1, Option.some.injEq, Prod.mk.injEq] at h
      obtain ⟨rfl, rfl⟩ := h
      have hn : ¬ n = x := by simpa [Visit.binds] using hb
      rcases get_label_some n st s2 m h1 with ⟨_, _, _, rfl⟩ | ⟨_, _, rfl⟩
      · rw [get_from_state_append, if_neg hn]
      · rfl
  | jump n lo =>
    simp only [resolve_visit] at h
    cases h1 : get_label n st with
    | none => simp [h1] at h
    | some p =>
      obtain ⟨m, s2⟩ := p
      simp only [h1, Option.some.injEq, Prod.mk.injEq] at h
      obtain ⟨rfl, rfl⟩ := h
      have hn : ¬ n = x := by simpa [Visit.binds] using hb
      rcases get_label_some n st s2 m h1 with ⟨_, _, _, rfl⟩ | ⟨_, _, rfl⟩
      · rw [get_from_state_append, if_neg hn]
      · rfl

theorem resolve_visits_keeps (x : String) (out : List Visit) : ∀ (inp : List Visit) (st s1 : DState),
    resolve_visits inp st = some (out, s1) →
    (∀ v ∈ out, v ≠ Visit.clear ∧ v.binds x = false) →
    get_from_state x s1 = get_from_state x st := by
  induction out with
  | nil =>
    intro inp st s1 h _
    cases inp with
    | nil => simp only [resolve_visits, Option.some.injEq, Prod.mk.injEq] at h; rw [h.2]
    | cons v vs =>
      simp only [resolve_visits] at h
      cases hv : resolve_visit v st with
      | none => simp [hv] at h
      | some p =>
        obtain ⟨w, st1⟩ := p
        simp only [hv] at h
        cases hvs : resolve_visits vs st1 with
        | none => simp [hvs] at h
        | some q => simp [hvs] at h
  | cons o os ih =>
    intro inp st s1 h hk
    obtain ⟨v, vs, s2, rfl, hv, hvs⟩ := resolve_visits_cons_out inp st s1 o os h
    have h1 := hk o (List.mem_cons_self _ _)
    rw [ih vs s2 s1 hvs (fun w hw => hk w (List.mem_cons_of_mem _ hw)),
      resolve_visit_keeps x v o st s2 hv h1.1 h1.2]

/-- The location a declaration step writes. -/
theorem resolve_visit_declaration (v : Visit) (st s1 : DState) (x : String) (al : Int)
    (lo : Option String) (h : resolve_visit v st = some (Visit.declaration x al lo, s1)) :
    al = 8 ∧ lo = some (get_from_state x s1) ∧ st.state.length < state_capacity ∧
    get_from_state x s1 = frame_slot (wrap32 (st.func_allocd + 8)) ∧
    s1.func_allocd = wrap32 (st.func_allocd + 8) ∧ s1.state.length = st.state.length + 1 := by
  cases v with
  | declaration n al2 lo2 =>
    simp only [resolve_visit] at h
    cases h1 : add_to_state n 8 st with
    | none => simp [h1] at h
    | some s2 =>
      simp only [h1, Option.some.injEq, Prod.mk.injEq, Visit.declaration.injEq] at h
      obtain ⟨⟨rfl, rfl, rfl⟩, rfl⟩ := h
      obtain ⟨hc, rfl⟩ := add_to_state_some n st s2 h1
      refine ⟨rfl, rfl, hc, ?_, rfl, by simp⟩
      rw [get_from_state_append, if_pos rfl]
  | clear => simp [resolve_visit] at h
  | reference n lo2 => simp [resolve_visit] at h
  | label n lo2 =>
    simp only [resolve_visit] at h
    cases h1 : get_label n st with
    | none => simp [h1] at h
    | some p => simp [h1] at h
  | jump n lo2 =>
    simp only [resolve_visit] at h
    cases h1 : get_label n st with
    | none => simp [h1] at h
    | some p => simp [h1] at h

/-- The location a reference step writes. -/
theorem resolve_visit_reference (v : Visit) (st s1 : DState) (x : String)
    (lo : Option String) (h : resolve_visit v st = some (Visit.reference x lo, s1)) :
    lo = some (get_from_state x st) := by
  cases v with
  | reference n lo2 =>
    simp only [resolve_visit, Option.some.injEq, Prod.mk.injEq, Visit.reference.injEq] at h
    obtain ⟨⟨rfl, rfl⟩, _⟩ := h
    rfl
  | clear => simp [resolve_visit] at h
  | declaration n al2 lo2 =>
    simp only [resolve_visit] at h
    cases h1 : add_to_state n 8 st with
    | none => simp [h1] at h
    | some p => simp [h1] at h
  | label n lo2 =>
    simp only [resolve_visit] at h
    cases h1 : get_label n st with
    | none => simp [h1] at h
    | some p => simp [h1] at h
  | jump n lo2 =>
    simp only [resolve_visit] at h
    cases h1 : get_label n st with
    | none => simp [h1] at h
    | some p => simp [h1] at h

theorem framed_clear (st : DState) : Framed (clear_state st) :=
  ⟨0, by simp [clear_state], by simp [clear_state], by simp [clear_state]⟩

theorem wrap32_small (x : Int) (h0 : 0 ≤ x) (h1 : x < 2 ^ 31) : wrap32 x = x := by
  unfold wrap32
  omega

theorem resolve_visit_framed (v o : Visit) (st s1 : DState)
    (h : resolve_visit v st = some (o, s1)) (hf : Framed st) :
    Framed s1 ∧ (o ≠ Visit.clear → st.func_allocd ≤ s1.func_allocd) := by
  obtain ⟨n, hn, hl, hc⟩ := hf
  cases v with
  | clear =>
    simp only [resolve_visit, Option.some.injEq, Prod.mk.injEq] at h
    obtain ⟨rfl, rfl⟩ := h
    exact ⟨framed_clear st, fun h => absurd rfl h⟩
  | declaration x al lo =>
    simp only [resolve_visit] at h
    cases h1 : add_to_state x 8 st with
    | none => simp [h1] at h
    | some s2 =>
      simp only [h1, Option.some.injEq, Prod.mk.injEq] at h
      obtain ⟨rfl, rfl⟩ := h
      obtain ⟨hcap, rfl⟩ := add_to_state_some x st s2 h1
      simp only [state_capacity] at hcap hc
      have hw : wrap32 (st.func_allocd + 8) = st.func_allocd + 8 :=
        wrap32_small _ (by omega) (by omega)
      refine ⟨⟨n + 1, ?_, ?_, ?_⟩, fun _ => ?_⟩
      · show wrap32 (st.func_allocd + 8) = _
        rw [hw, hn]; push_cast; ring
      · simp; omega
      · simp [state_capacity]; omega
      · show st.func_allocd ≤ wrap32 (st.func_allocd + 8)
        rw [hw]; omega
  | reference x lo =>
    simp only [resolve_visit, Option.some.injEq, Prod.mk.injEq] at h
    obtain ⟨rfl, rfl⟩ := h
    exact ⟨⟨n, hn, hl, hc⟩, fun _ => le_refl _⟩
  | label x lo =>
    simp only [resolve_visit] at h
    cases h1 : get_label x st with
    | none => simp [h1] at h
    | some p =>
      obtain ⟨m, s2⟩ := p
      simp only [h1, Option.some.injEq, Prod.mk.injEq] at h
      obtain ⟨rfl, rfl⟩ := h
      rcases get_label_some x st s2 m h1 with ⟨_, hcap, _, rfl⟩ | ⟨_, _, rfl⟩
      · refine ⟨⟨n, hn, ?_, ?_⟩, fun _ => le_refl _⟩
        · simp; omega
        · simp; omega
      · exact ⟨⟨n, hn, hl, hc⟩, fun _ => le_refl _⟩
  | jump x lo =>
    simp only [resolve_visit] at h
    cases h1 : get_label x st with
    | none => simp [h1] at h
    | some p =>
      obtain ⟨m, s2⟩ := p
      simp only [h1, Option.some.injEq, Prod.mk.injEq] at h
      obtain ⟨rfl, rfl⟩ := h
      rcases get_label_some x st s2 m h1 with ⟨_, hcap, _, rfl⟩ | ⟨_, _, rfl⟩
      · refine ⟨⟨n, hn, ?_, ?_⟩, fun _ => le_refl _⟩
        · simp; omega
        · simp; omega
      · exact ⟨⟨n, hn, hl, hc⟩, fun _ => le_refl _⟩

theorem resolve_visits_nil_out (inp : List Visit) (st s1 : DState)
    (h : resolve_visits inp st = some ([], s1)) : inp = [] ∧ s1 = st := by
  cases inp with
  | nil => simp only [resolve_visits, Option.some.injEq, Prod.mk.injEq] at h; exact ⟨rfl, h.2.symm⟩
  | cons v vs =>
    simp only [resolve_visits] at h
    cases hv : resolve_visit v st with
    | none => simp [hv] at h
    | some p =>
      obtain ⟨w, st1⟩ := p
      simp only [hv] at h
      cases hvs : resolve_visits vs st1 with
      | none => simp [hvs] at h
      | some q => simp [hvs] at h

/-- A walk that starts framed, or passes a function boundary, ends framed. -/
theorem resolve_visits_framed (out : List Visit) : ∀ (inp : List Visit) (st s1 : DState),
    resolve_visits inp st = some (out, s1) → (Framed st ∨ Visit.clear ∈ out) → Framed s1 := by
  induction out with
  | nil =>
    intro inp st s1 h hf
    obtain ⟨_, rfl⟩ := resolve_visits_nil_out inp st s1 h
    rcases hf with hf | hf
    · exact hf
    · simp at hf
  | cons o os ih =>
    intro inp st s1 h hf
    obtain ⟨v, vs, s2, rfl, hv, hvs⟩ := resolve_visits_cons_out inp st s1 o os h
    apply ih vs s2 s1 hvs
    rcases hf with hf | hf
    · exact Or.inl (resolve_visit_framed v o st s2 hv hf).1
    · rcases List.mem_cons.1 hf with hf | hf
      · left
        subst hf
        cases v with
        | clear =>
          simp only [resolve_visit, Option.some.injEq, Prod.mk.injEq] at hv
          rw [← hv.2]; exact framed_clear st
        | declaration n al2 lo2 =>
          simp only [resolve_visit] at hv
          cases h1 : add_to_state n 8 st with
          | none => simp [h1] at hv
          | some p => simp [h1] at hv
        | reference n lo2 => simp [resolve_visit] at hv
        | label n lo2 =>
          simp only [resolve_visit] at hv
          cases h1 : get_label n st with
          | none => simp [h1] at hv
          | some p => simp [h1] at hv
        | jump n lo2 =>
          simp only [resolve_visit] at hv
          cases h1 : get_label n st with
          | none => simp [h1] at hv
          | some p => simp [h1] at hv
      · exact Or.inr hf

/-- Between two function boundaries the frame counter does not decrease. -/
theorem resolve_visits_mono (out : List Visit) : ∀ (inp : List Visit) (st s1 : DState),
    resolve_visits inp st = some (out, s1) → Framed st → Visit.clear ∉ out →
    st.func_allocd ≤ s1.func_allocd := by
  induction out with
  | nil =>
    intro inp st s1 h _ _
    obtain ⟨_, rfl⟩ := resolve_visits_nil_out inp st s1 h
    exact le_refl _
  | cons o os ih =>
    intro inp st s1 h hf hc
    obtain ⟨v, vs, s2, rfl, hv, hvs⟩ := resolve_visits_cons_out inp st s1 o os h
    have h1 := resolve_visit_framed v o st s2 hv hf
    have h2 : o ≠ Visit.clear := fun e => hc (by simp [e])
    have h3 := ih vs s2 s1 hvs h1.1 (fun e => hc (List.mem_cons_of_mem _ e))
    exact le_trans (h1.2 h2) h3

/-- From a framed state a declaration takes the next slot. -/
theorem resolve_visit_declaration_framed (v : Visit) (st s1 : DState) (x : String) (al : Int)
    (lo : Option String) (h : resolve_visit v st = some (Visit.declaration x al lo, s1))
    (hf : Framed st) :
    ∃ n : Nat, st.func_allocd = 8 * (n : Int) ∧ n ≤ st.state.length ∧ al = 8 ∧
      lo = some (frame_slot (((8 * (n + 1) : Nat)) : Int)) ∧
      s1.func_allocd = 8 * ((n : Int) + 1) ∧ get_from_state x s1 = frame_slot (((8 * (n + 1) : Nat)) : Int) := by
  obtain ⟨n, hn, hl, hc⟩ := hf
  obtain ⟨h1, h2, h3, h4, h5, h6⟩ := resolve_visit_declaration v st s1 x al lo h
  simp only [state_capacity] at h3 hc
  have hw : wrap32 (st.func_allocd + 8) = st.func_allocd + 8 :=
    wrap32_small _ (by omega) (by omega)
  have he : st.func_allocd + 8 = (((8 * (n + 1) : Nat)) : Int) := by rw [hn]; push_cast; ring
  refine ⟨n, hn, hl, h1, ?_, ?_, ?_⟩
  · rw [h2, h4, hw, he]
  · rw [h5, hw, hn]; ring
  · rw [h4, hw, he]

/-! ## References, declarations, labels and function boundaries -/

theorem dealias_r_function (a : Attr String) (name : String) (args body next : Ast String)
    (st st' : DState) (t' : Ast String)
    (h : dealias_r (Ast.function a name args body next) st = some (t', st')) :
    ∃ p b s1 s2, t' = Ast.function a name p b next ∧
      dealias_r args (clear_state st) = some (p, s1) ∧ dealias_r body s1 = some (b, s2) := by
  simp only [dealias_r] at h
  cases h1 : dealias_r args (clear_state st) with
  | none => simp [h1] at h
  | some p =>
    obtain ⟨v, s1⟩ := p
    simp only [h1] at h
    cases h2 : dealias_r body s1 with
    | none => simp [h2] at h
    | some q =>
      obtain ⟨n, s2⟩ := q
      simp only [h2, Option.some.injEq, Prod.mk.injEq] at h
      exact ⟨v, n, s1, s2, h.1.symm, rfl, h2⟩

/-- In the walk of a function node a function boundary comes before every
other step. -/
theorem clear_met_first (t' : Ast String) (a : Attr String) (name : String)
    (p b next : Ast String) (ht : t' = Ast.function a name p b next)
    (pre rest : List Visit) (v : Visit) (hne : v ≠ Visit.clear)
    (hv : visits t' = pre ++ v :: rest) : Visit.clear ∈ pre := by
  subst ht
  simp only [visits] at hv
  cases pre with
  | nil =>
    simp only [List.nil_append, List.cons.injEq] at hv
    exact absurd hv.1.symm hne
  | cons w ws =>
    simp only [List.cons_append, List.cons.injEq] at hv
    rw [← hv.1]; exact List.mem_cons_self _ _

/-- Claim C3, as amended: in the walk of `dealias_r` over a function node, a
reference to `x` that follows a declaration of `x` with no function boundary
and no declaration, label or jump of the name `x` in between is given the
location of that declaration, a stack slot `-8k(%rbp)` with `k >= 1`, and this slot differs
from that of every declaration met earlier in the same function. -/
theorem dealias_reference_takes_latest_declaration
    (a : Attr String) (name : String) (args body next : Ast String) (st st' : DState)
    (t' : Ast String)
    (h : dealias_r (Ast.function a name args body next) st = some (t', st'))
    (pre mid post : List Visit) (x : String) (al : Int) (l1 l2 : Option String)
    (hv : visits t' = pre ++ Visit.declaration x al l1 :: (mid ++ Visit.reference x l2 :: post))
    (hmid : ∀ v ∈ mid, v ≠ Visit.clear ∧ v.binds x = false) :
    l2 = l1 ∧ (∃ k : Nat, 1 ≤ k ∧ l1 = some (frame_slot (8 * (k : Int)))) ∧
    (∀ (pre0 mid0 : List Visit) (y : String) (al0 : Int) (l0 : Option String),
      pre = pre0 ++ Visit.declaration y al0 l0 :: mid0 → Visit.clear ∉ mid0 → l0 ≠ l1) := by
  have hr := dealias_r_visits _ _ _ _ h
  obtain ⟨p, b, _, _, ht, _, _⟩ := dealias_r_function a name args body next st st' t' h
  have hclear := clear_met_first t' a name p b next ht pre _ _ (by simp) hv
  rw [hv] at hr
  obtain ⟨i1, i2, sA, hi, hpre, hrest⟩ := resolve_visits_split_out _ _ _ _ _ hr
  obtain ⟨vd, i3, sB, _, hd, hrest2⟩ := resolve_visits_cons_out _ _ _ _ _ hrest
  obtain ⟨i4, i5, sC, _, hm, hrest3⟩ := resolve_visits_split_out _ _ _ _ _ hrest2
  obtain ⟨vr, i6, sD, _, hrf, _⟩ := resolve_visits_cons_out _ _ _ _ _ hrest3
  have hfA : Framed sA := resolve_visits_framed _ _ _ _ hpre (Or.inr hclear)
  obtain ⟨n, hn, _, _, hl1, _, hg⟩ := resolve_visit_declaration_framed vd sA sB x al l1 hd hfA
  have hk := resolve_visits_keeps x mid i4 sB sC hm hmid
  have hl2 := resolve_visit_reference vr sC sD x l2 hrf
  refine ⟨?_, ⟨n + 1, by omega, ?_⟩, ?_⟩
  · rw [hl2, hk, hg, hl1]
  · rw [hl1]; push_cast; rfl
  · intro pre0 mid0 y al0 l0 hp hc0
    have hclear0 : Visit.clear ∈ pre0 := by
      have hv2 := hv
      rw [hp] at hv2
      simp only [List.append_assoc, List.cons_append] at hv2
      exact clear_met_first t' a name p b next ht pre0 _ _ (by simp) hv2
    rw [hp] at hpre
    obtain ⟨j1, j2, s0, _, hp0, hq0⟩ := resolve_visits_split_out _ _ _ _ _ hpre
    obtain ⟨vy, j3, s0', _, hy, hq1⟩ := resolve_visits_cons_out _ _ _ _ _ hq0
    have hf0 : Framed s0 := resolve_visits_framed _ _ _ _ hp0 (Or.inr hclear0)
    obtain ⟨n0, _, _, _, hl0, hs0', _⟩ := resolve_visit_declaration_framed vy s0 s0' y al0 l0 hy hf0
    have hf0' : Framed s0' := (resolve_visit_framed vy _ s0 s0' hy hf0).1
    have hmono := resolve_visits_mono mid0 j3 s0' sA hq1 hf0' hc0
    intro he
    rw [hl0, hl1] at he
    have := frame_slot_injective _ _ (Option.some.inj he)
    omega

theorem no_function_visits : ∀ (t : Ast String), no_function t = true → Visit.clear ∉ visits t
  | Ast.block a val bn next, h => by
    simp only [no_function, Bool.and_eq_true] at h
    simp only [visits, List.mem_append, not_or]
    exact ⟨no_function_visits val h.1, no_function_visits bn h.2⟩
  | Ast.function a name args body next, h => by simp [no_function] at h
  | Ast.ret a val next, h => by
    simp only [no_function] at h
    simpa [visits] using no_function_visits val h
  | Ast.cond a c b next, h => by
    simp only [no_function, Bool.and_eq_true] at h
    simp only [visits, List.mem_append, not_or]
    exact ⟨no_function_visits c h.1, no_function_visits b h.2⟩
  | Ast.variable a name type alloc next, h => by
    cases type <;> simp [visits]
  | Ast.label a name stuff next, h => by
    simp only [no_function] at h
    simpa [visits] using no_function_visits stuff h
  | Ast.jump a name next, h => by simp [visits]
  | Ast.binary a op l r next, h => by
    simp only [no_function, Bool.and_eq_true] at h
    simp only [visits, List.mem_append, not_or]
    exact ⟨no_function_visits l h.1, no_function_visits r h.2⟩
  | Ast.unary a op arg next, h => by
    simp only [no_function] at h
    simpa [visits] using no_function_visits arg h
  | Ast.crement a val next, h => by
    simp only [no_function] at h
    simpa [visits] using no_function_visits val h
  | Ast.function_call a name args next, h => by
    simp only [no_function, Bool.and_eq_true] at h
    simp only [visits, List.mem_append, not_or]
    exact ⟨no_function_visits args h.1, no_function_visits name h.2⟩
  | Ast.statement a val next, h => by
    simp only [no_function] at h
    simpa [visits] using no_function_visits val h
  | Ast.null, _ => by simp [visits]
  | Ast.integer a i next, _ => by simp [visits]
  | Ast.string a val next, _ => by simp [visits]
  | Ast.alloc a size next, _ => by simp [visits]

theorem resolve_visit_clear_out (v : Visit) (st s1 : DState)
    (h : resolve_visit v st = some (Visit.clear, s1)) : v = Visit.clear := by
  cases v with
  | clear => rfl
  | declaration n al2 lo2 =>
    simp only [resolve_visit] at h
    cases h1 : add_to_state n 8 st with
    | none => simp [h1] at h
    | some p => simp [h1] at h
  | reference n lo2 => simp [resolve_visit] at h
  | label n lo2 =>
    simp only [resolve_visit] at h
    cases h1 : get_label n st with
    | none => simp [h1] at h
    | some p => simp [h1] at h
  | jump n lo2 =>
    simp only [resolve_visit] at h
    cases h1 : get_label n st with
    | none => simp [h1] at h
    | some p => simp [h1] at h

theorem resolve_visits_clear_out (out : List Visit) : ∀ (inp : List Visit) (st s1 : DState),
    resolve_visits inp st = some (out, s1) → Visit.clear ∈ out → Visit.clear ∈ inp := by
  induction out with
  | nil => intro inp st s1 _ h; simp at h
  | cons o os ih =>
    intro inp st s1 h hc
    obtain ⟨v, vs, s2, rfl, hv, hvs⟩ := resolve_visits_cons_out inp st s1 o os h
    rcases List.mem_cons.1 hc with hc | hc
    · subst hc
      rw [resolve_visit_clear_out v st s2 hv]; exact List.mem_cons_self _ _
    · exact List.mem_cons_of_mem _ (ih vs s2 s1 hvs hc)

/-- Between two function boundaries the declarations take the slots after the
one the frame counter stands at, in order. -/
theorem resolve_visits_declarations (out : List Visit) :
    ∀ (inp : List Visit) (st s1 : DState) (n : Nat),
    resolve_visits inp st = some (out, s1) → Visit.clear ∉ out →
    st.func_allocd = 8 * (n : Int) → n ≤ st.state.length → st.state.length ≤ state_capacity →
    declarations out = (List.range' (n + 1) (declarations out).length).map
      (fun k : Nat => ((8 : Int), some (frame_slot (8 * (k : Int))))) := by
  induction out with
  | nil => intro inp st s1 n _ _ _ _ _; simp [declarations]
  | cons o os ih =>
    intro inp st s1 n h hc hn hl hcap
    obtain ⟨v, vs, s2, rfl, hv, hvs⟩ := resolve_visits_cons_out inp st s1 o os h
    have hf : Framed st := ⟨n, hn, hl, hcap⟩
    have hc2 : Visit.clear ∉ os := fun e => hc (List.mem_cons_of_mem _ e)
    have hne : o ≠ Visit.clear := fun e => hc (by simp [e])
    obtain ⟨⟨m, hm, hml, hmcap⟩, hmono⟩ := resolve_visit_framed v o st s2 hv hf
    cases o with
    | clear => exact absurd rfl hne
    | declaration x al lo =>
      obtain ⟨n', hn', _, hal, hlo, hs2, _⟩ := resolve_visit_declaration_framed v st s2 x al lo hv hf
      have hnn : n' = n := by omega
      subst hnn
      have hm1 : m = n' + 1 := by omega
      subst hm1
      have := ih vs s2 s1 (n' + 1) hvs hc2 hm hml hmcap
      simp only [declarations, List.length_cons, List.range'_succ, List.map_cons]
      rw [← this, hal, hlo]
      push_cast
      rfl
    | reference x lo =>
      simp only [resolve_visit_reference v st s2 x lo hv] at *
      have hs : s2 = st := by
        cases v with
        | reference y lo2 =>
          simp only [resolve_visit, Option.some.injEq, Prod.mk.injEq] at hv
          exact hv.2.symm
        | clear => simp [resolve_visit] at hv
        | declaration y al2 lo2 =>
          simp only [resolve_visit] at hv
          cases h1 : add_to_state y 8 st with
          | none => simp [h1] at hv
          | some p => simp [h1] at hv
        | label y lo2 =>
          simp only [resolve_visit] at hv
          cases h1 : get_label y st with
          | none => simp [h1] at hv
          | some p => simp [h1] at hv
        | jump y lo2 =>
          simp only [resolve_visit] at hv
          cases h1 : get_label y st with
          | none => simp [h1] at hv
          | some p => simp [h1] at hv
      subst hs
      simpa [declarations] using ih vs s2 s1 n hvs hc2 hn hl hcap
    | label x lo =>
      have hs : s2.func_allocd = st.func_allocd ∧ True := by
        cases v with
        | label y lo2 =>
          simp only [resolve_visit] at hv
          cases h1 : get_label y st with
          | none => simp [h1] at hv
          | some p =>
            obtain ⟨m2, s3⟩ := p
            simp only [h1, Option.some.injEq, Prod.mk.injEq] at hv
            obtain ⟨_, rfl⟩ := hv
            rcases get_label_some y st s3 m2 h1 with ⟨_, _, _, rfl⟩ | ⟨_, _, rfl⟩
            · exact ⟨rfl, trivial⟩
            · exact ⟨rfl, trivial⟩
        | clear => simp [resolve_visit] at hv
        | declaration y al2 lo2 =>
          simp only [resolve_visit] at hv
          cases h1 : add_to_state y 8 st with
          | none => simp [h1] at hv
          | some p => simp [h1] at hv
        | reference y lo2 => simp [resolve_visit] at hv
        | jump y lo2 =>
          simp only [resolve_visit] at hv
          cases h1 : get_label y st with
          | none => simp [h1] at hv
          | some p => simp [h1] at hv
      have hmn : m = n := by omega
      subst hmn
      simpa [declarations] using ih vs s2 s1 m hvs hc2 hm hml hmcap
    | jump x lo =>
      have hs : s2.func_allocd = st.func_allocd ∧ True := by
        cases v with
        | jump y lo2 =>
          simp only [resolve_visit] at hv
          cases h1 : get_label y st with
          | none => simp [h1] at hv
          | some p =>
            obtain ⟨m2, s3⟩ := p
            simp only [h1, Option.some.injEq, Prod.mk.injEq] at hv
            obtain ⟨_, rfl⟩ := hv
            rcases get_label_some y st s3 m2 h1 with ⟨_, _, _, rfl⟩ | ⟨_, _, rfl⟩
            · exact ⟨rfl, trivial⟩
            · exact ⟨rfl, trivial⟩
        | clear => simp [resolve_visit] at hv
        | declaration y al2 lo2 =>
          simp only [resolve_visit] at hv
          cases h1 : add_to_state y 8 st with
          | none => simp [h1] at hv
          | some p => simp [h1] at hv
        | reference y lo2 => simp [resolve_visit] at hv
        | label y lo2 =>
          simp only [resolve_visit] at hv
          cases h1 : get_label y st with
          | none => simp [h1] at hv
          | some p => simp [h1] at hv
      have hmn : m = n := by omega
      subst hmn
      simpa [declarations] using ih vs s2 s1 m hvs hc2 hm hml hmcap

theorem function_declaration_slots
    (a : Attr String) (name : String) (args body next : Ast String) (st st' : DState)
    (t' : Ast String)
    (h : dealias_r (Ast.function a name args body next) st = some (t', st'))
    (hargs : no_function args = true) (hbody : no_function body = true) :
    ∃ p b, t' = Ast.function a name p b next ∧
      declarations (visits p ++ visits b) =
        (List.range' 1 (declarations (visits p ++ visits b)).length).map
          (fun k : Nat => ((8 : Int), some (frame_slot (8 * (k : Int))))) ∧
      ((declarations (visits p ++ visits b)).map Prod.snd).Nodup := by
  obtain ⟨p, b, s1, s2, ht, hp, hb⟩ := dealias_r_function a name args body next st st' t' h
  have hr := resolve_visits_append _ _ _ _ _ _ _
    (dealias_r_visits _ _ _ _ hp) (dealias_r_visits _ _ _ _ hb)
  have hc : Visit.clear ∉ visits p ++ visits b := by
    intro e
    have := resolve_visits_clear_out _ _ _ _ hr e
    rcases List.mem_append.1 this with e1 | e1
    · exact no_function_visits args hargs e1
    · exact no_function_visits body hbody e1
  have hd := resolve_visits_declarations _ _ _ _ 0 hr hc (by simp [clear_state])
    (by simp) (by simp [clear_state])
  refine ⟨p, b, ht, hd, ?_⟩
  rw [hd, List.map_map]
  apply List.Nodup.map _ (List.nodup_range' _ _)
  intro j k hjk
  simp only [Function.comp_apply, Option.some.injEq] at hjk
  have := frame_slot_injective (8 * j) (8 * k) (by push_cast; exact hjk)
  omega

/-- Claim C4: for a function node whose parameter list and body hold no further
function node, the declarations met by `dealias_r`, parameters first and then
body, all get the allocation size 8 and the `k`-th of them, counted from 1, gets
the location `-8k(%rbp)`; the locations of the declarations are pairwise
distinct. -/
theorem dealias_declaration_slots
    (a : Attr String) (name : String) (args body next : Ast String) (st st' : DState)
    (t' : Ast String)
    (h : dealias_r (Ast.function a name args body next) st = some (t', st'))
    (hargs : no_function args = true) (hbody : no_function body = true) :
    ∃ p b, t' = Ast.function a name p b next ∧
      declarations (visits p ++ visits b) =
        (List.range' 1 (declarations (visits p ++ visits b)).length).map
          (fun k : Nat => ((8 : Int), some (frame_slot (8 * (k : Int))))) ∧
      ((declarations (visits p ++ visits b)).map Prod.snd).Nodup :=
  function_declaration_slots a name args body next st st' t' h hargs hbody

/-- The text a label or jump step writes is the dotted text its name resolves
to afterwards, and the text it resolved to before when that was dotted. -/
theorem resolve_visit_label_use (v o : Visit) (st s1 : DState) (L : String) (l : Option String)
    (h : resolve_visit v st = some (o, s1)) (ho : o = Visit.label L l ∨ o = Visit.jump L l) :
    ∃ T, l = some T ∧ get_from_state L s1 = T ∧ not_dotted T = false ∧
      (not_dotted (get_from_state L st) = false → T = get_from_state L st) := by
  have key : ∀ (m : String) (s2 : DState), get_label L st = some (m, s2) →
      get_from_state L s2 = m ∧ not_dotted m = false ∧
      (not_dotted (get_from_state L st) = false → m = get_from_state L st) := by
    intro m s2 hg
    rcases get_label_some L st s2 m hg with ⟨hd, _, rfl, rfl⟩ | ⟨hd, rfl, rfl⟩
    · refine ⟨?_, not_dotted_jump_label _, ?_⟩
      · rw [get_from_state_append, if_pos rfl]
      · intro e; rw [hd] at e; exact absurd e (by simp)
    · exact ⟨rfl, hd, fun _ => rfl⟩
  cases v with
  | label n lo =>
    simp only [resolve_visit] at h
    cases h1 : get_label n st with
    | none => simp [h1] at h
    | some q =>
      obtain ⟨m, s2⟩ := q
      simp only [h1, Option.some.injEq, Prod.mk.injEq] at h
      obtain ⟨rfl, rfl⟩ := h
      rcases ho with ho | ho
      · simp only [Visit.label.injEq] at ho
        obtain ⟨rfl, rfl⟩ := ho
        exact ⟨m, rfl, key m s2 h1⟩
      · simp at ho
  | jump n lo =>
    simp only [resolve_visit] at h
    cases h1 : get_label n st with
    | none => simp [h1] at h
    | some q =>
      obtain ⟨m, s2⟩ := q
      simp only [h1, Option.some.injEq, Prod.mk.injEq] at h
      obtain ⟨rfl, rfl⟩ := h
      rcases ho with ho | ho
      · simp at ho
      · simp only [Visit.jump.injEq] at ho
        obtain ⟨rfl, rfl⟩ := ho
        exact ⟨m, rfl, key m s2 h1⟩
  | clear =>
    simp only [resolve_visit, Option.some.injEq, Prod.mk.injEq] at h
    rcases ho with ho | ho <;> simp [← h.1] at ho
  | reference n lo =>
    simp only [resolve_visit, Option.some.injEq, Prod.mk.injEq] at h
    rcases ho with ho | ho <;> simp [← h.1] at ho
  | declaration n al lo =>
    simp only [resolve_visit] at h
    cases h1 : add_to_state n 8 st with
    | none => simp [h1] at h
    | some q =>
      simp only [h1, Option.some.injEq, Prod.mk.injEq] at h
      rcases ho with ho | ho <;> simp [← h.1] at ho

/-- Once a name resolves to a dotted text, only a function boundary or a
declaration of the name changes that. -/
theorem resolve_visit_keeps_label (L : String) (v o : Visit) (st s1 : DState)
    (h : resolve_visit v st = some (o, s1)) (hc : o ≠ Visit.clear)
    (hd : o.declares L = false) (hdot : not_dotted (get_from_state L st) = false) :
    get_from_state L s1 = get_from_state L st := by
  by_cases hb : o.binds L = false
  · exact resolve_visit_keeps L v o st s1 h hc hb
  · cases o with
    | clear => exact absurd rfl hc
    | declaration n al lo => simp [Visit.binds, Visit.declares] at hb hd; exact absurd hb hd
    | reference n lo => simp [Visit.binds] at hb
    | label n lo =>
      have hn : n = L := by simpa [Visit.binds] using hb
      subst hn
      obtain ⟨T, _, h2, _, h4⟩ := resolve_visit_label_use v _ st s1 n lo h (Or.inl rfl)
      rw [h2, h4 hdot]
    | jump n lo =>
      have hn : n = L := by simpa [Visit.binds] using hb
      subst hn
      obtain ⟨T, _, h2, _, h4⟩ := resolve_visit_label_use v _ st s1 n lo h (Or.inr rfl)
      rw [h2, h4 hdot]

theorem resolve_visits_keeps_label (L : String) (out : List Visit) :
    ∀ (inp : List Visit) (st s1 : DState),
    resolve_visits inp st = some (out, s1) →
    (∀ v ∈ out, v ≠ Visit.clear ∧ v.declares L = false) →
    not_dotted (get_from_state L st) = false →
    get_from_state L s1 = get_from_state L st := by
  induction out with
  | nil =>
    intro inp st s1 h _ _
    obtain ⟨_, rfl⟩ := resolve_visits_nil_out inp st s1 h
    rfl
  | cons o os ih =>
    intro inp st s1 h hk hdot
    obtain ⟨v, vs, s2, rfl, hv, hvs⟩ := resolve_visits_cons_out inp st s1 o os h
    have h1 := hk o (List.mem_cons_self _ _)
    have h2 := resolve_visit_keeps_label L v o st s2 hv h1.1 h1.2 hdot
    rw [ih vs s2 s1 hvs (fun w hw => hk w (List.mem_cons_of_mem _ hw)) (by rw [h2]; exact hdot), h2]

/-- Claim C5, as amended: in the walk of `dealias_r`, two label or jump nodes of
one name `L`, in either order, are given the same text when no function
boundary and no declaration of the name `L` is met between them. -/
theorem dealias_label_text_stable (t t' : Ast String) (st st' : DState)
    (h : dealias_r t st = some (t', st'))
    (pre mid post : List Visit) (L : String) (v1 v2 : Visit) (l1 l2 : Option String)
    (h1 : v1 = Visit.label L l1 ∨ v1 = Visit.jump L l1)
    (h2 : v2 = Visit.label L l2 ∨ v2 = Visit.jump L l2)
    (hv : visits t' = pre ++ v1 :: (mid ++ v2 :: post))
    (hmid : ∀ v ∈ mid, v ≠ Visit.clear ∧ v.declares L = false) :
    l2 = l1 := by
  have hr := dealias_r_visits _ _ _ _ h
  rw [hv] at hr
  obtain ⟨i1, i2, sA, _, _, hrest⟩ := resolve_visits_split_out _ _ _ _ _ hr
  obtain ⟨w1, i3, sB, _, hw1, hrest2⟩ := resolve_visits_cons_out _ _ _ _ _ hrest
  obtain ⟨i4, i5, sC, _, hm, hrest3⟩ := resolve_visits_split_out _ _ _ _ _ hrest2
  obtain ⟨w2, i6, sD, _, hw2, _⟩ := resolve_visits_cons_out _ _ _ _ _ hrest3
  obtain ⟨T1, e1, g1, d1, _⟩ := resolve_visit_label_use w1 v1 sA sB L l1 hw1 h1
  have hk := resolve_visits_keeps_label L mid i4 sB sC hm hmid (by rw [g1]; exact d1)
  obtain ⟨T2, e2, _, _, k2⟩ := resolve_visit_label_use w2 v2 sC sD L l2 hw2 h2
  rw [e1, e2, k2 (by rw [hk, g1]; exact d1), hk, g1]

/-- A name that nothing binds after a function boundary resolves to itself. -/
theorem resolve_visits_unbound (x : String) (out : List Visit) :
    ∀ (inp : List Visit) (st s1 : DState),
    resolve_visits inp st = some (out, s1) →
    (∀ v ∈ out, v.binds x = false) →
    (get_from_state x st = x ∨ Visit.clear ∈ out) →
    get_from_state x s1 = x := by
  induction out with
  | nil =>
    intro inp st s1 h _ hx
    obtain ⟨_, rfl⟩ := resolve_visits_nil_out inp st s1 h
    rcases hx with hx | hx
    · exact hx
    · simp at hx
  | cons o os ih =>
    intro inp st s1 h hk hx
    obtain ⟨v, vs, s2, rfl, hv, hvs⟩ := resolve_visits_cons_out inp st s1 o os h
    apply ih vs s2 s1 hvs (fun w hw => hk w (List.mem_cons_of_mem _ hw))
    by_cases hc : o = Visit.clear
    · subst hc
      have := resolve_visit_clear_out v st s2 hv
      subst this
      simp only [resolve_visit, Option.some.injEq, Prod.mk.injEq] at hv
      left; rw [← hv.2]; exact get_from_state_clear x st
    · rcases hx with hx | hx
      · left
        rw [resolve_visit_keeps x v o st s2 hv hc (hk o (List.mem_cons_self _ _)), hx]
      · rcases List.mem_cons.1 hx with hx | hx
        · exact absurd hx.symm hc
        · exact Or.inr hx

/-- Claim C6, as amended: when `dealias_r` has resolved a function `A` and then
resolves a function `B`, a reference in `B` to a name that no declaration,
label or jump met earlier in `B` carries is given its own name, whatever `A`
declared; and, `B` holding no further function node, the `k`-th declaration of
`B` gets `-8k(%rbp)` again. -/
theorem dealias_function_sees_no_earlier_binding
    (aA : Attr String) (nameA : String) (argsA bodyA nextA : Ast String)
    (a : Attr String) (name : String) (args body next : Ast String)
    (st s1 s2 : DState) (A' B' : Ast String)
    (_hA : dealias_r (Ast.function aA nameA argsA bodyA nextA) st = some (A', s1))
    (hB : dealias_r (Ast.function a name args body next) s1 = some (B', s2))
    (hargs : no_function args = true) (hbody : no_function body = true) :
    (∀ (pre post : List Visit) (x : String) (l : Option String),
      visits B' = pre ++ Visit.reference x l :: post →
      (∀ v ∈ pre, v.binds x = false) → l = some x) ∧
    ∃ p b, B' = Ast.function a name p b next ∧
      declarations (visits p ++ visits b) =
        (List.range' 1 (declarations (visits p ++ visits b)).length).map
          (fun k : Nat => ((8 : Int), some (frame_slot (8 * (k : Int))))) := by
  constructor
  · intro pre post x l hv hpre
    have hr := dealias_r_visits _ _ _ _ hB
    obtain ⟨p, b, _, _, ht, _, _⟩ := dealias_r_function a name args body next s1 s2 B' hB
    have hclear := clear_met_first B' a name p b next ht pre _ _ (by simp) hv
    rw [hv] at hr
    obtain ⟨i1, i2, sA, _, hp, hrest⟩ := resolve_visits_split_out _ _ _ _ _ hr
    obtain ⟨w, i3, sB, _, hw, _⟩ := resolve_visits_cons_out _ _ _ _ _ hrest
    rw [resolve_visit_reference w sA sB x l hw,
      resolve_visits_unbound x pre i1 s1 sA hp hpre (Or.inr hclear)]
  · obtain ⟨p, b, ht, hd, _⟩ :=
      function_declaration_slots a name args body next s1 s2 B' hB hargs hbody
    exact ⟨p, b, ht, hd⟩

/-- Claim C3, as amended, at `f (int a) { int x; int x; x; }`: the reference
takes the slot `-24(%rbp)` of the second `x`, not `-16(%rbp)` of the first. -/
theorem dealias_reference_takes_latest_declaration_witness :
    dealias_r shadow_fn DState.initial = some (shadow_fn_resolved, DState.initial) ∧
    visits shadow_fn_resolved =
      [Visit.clear, Visit.declaration "a" 8 (some "-8(%rbp)"),
        Visit.declaration "x" 8 (some "-16(%rbp)")] ++
      Visit.declaration "x" 8 (some "-24(%rbp)") ::
        ([] ++ Visit.reference "x" (some "-24(%rbp)") :: [Visit.clear]) ∧
    (some "-16(%rbp)" : Option String) ≠ some "-24(%rbp)" :=
  ⟨by decide, by decide,
    (dealias_reference_takes_latest_declaration Attr.fresh "f" (decl_node "a")
      (seq_nodes [decl_node "x", decl_node "x", ref_node "x"]) Ast.null
      DState.initial DState.initial shadow_fn_resolved (by decide)
      [Visit.clear, Visit.declaration "a" 8 (some "-8(%rbp)"),
        Visit.declaration "x" 8 (some "-16(%rbp)")] [] [Visit.clear]
      "x" 8 (some "-24(%rbp)") (some "-24(%rbp)") (by decide) (by decide)).2.2
      [Visit.clear, Visit.declaration "a" 8 (some "-8(%rbp)")] [] "x" 8 (some "-16(%rbp)")
      (by decide) (by decide)⟩

/-- Claim C3 fails as stated: in `f () { int x; x: x; }` the reference to `x`
that follows the declaration is given the label text `.LJ1`, not the slot
`-8(%rbp)`, because the label `x:` between them added an entry for `x`. -/
theorem dealias_label_takes_over_variable :
    (dealias label_after_variable_fn DState.initial).map (fun r => visits r.1) =
      some [Visit.clear, Visit.declaration "x" 8 (some "-8(%rbp)"),
        Visit.label "x" (some ".LJ1"), Visit.reference "x" (some ".LJ1"), Visit.clear] := by
  decide

/-- Claim C4 at `f (int a) { int x; int x; x; }`. -/
theorem dealias_declaration_slots_witness :
    dealias_r shadow_fn DState.initial = some (shadow_fn_resolved, DState.initial) ∧
    no_function (decl_node "a") = true ∧
    no_function (seq_nodes [decl_node "x", decl_node "x", ref_node "x"]) = true ∧
    ∃ p b, shadow_fn_resolved = Ast.function Attr.fresh "f" p b Ast.null ∧
      declarations (visits p ++ visits b) =
        (List.range' 1 (declarations (visits p ++ visits b)).length).map
          (fun k : Nat => ((8 : Int), some (frame_slot (8 * (k : Int))))) ∧
      ((declarations (visits p ++ visits b)).map Prod.snd).Nodup :=
  ⟨by decide, by decide, by decide,
    dealias_declaration_slots Attr.fresh "f" (decl_node "a")
      (seq_nodes [decl_node "x", decl_node "x", ref_node "x"]) Ast.null
      DState.initial DState.initial shadow_fn_resolved (by decide) (by decide) (by decide)⟩

/-- Claim C5, as amended, at `f () { goto L; y; L: goto L; }`: the jump before
the label and the jump after it both get `.LJ1`. -/
theorem dealias_label_text_stable_witness :
    dealias_r jumps_fn DState.initial =
      some (jumps_fn_resolved, { state := [], func_allocd := 0, curr_labelno := 2 }) ∧
    visits jumps_fn_resolved =
      [Visit.clear] ++ Visit.jump "L" (some ".LJ1") ::
        ([Visit.reference "y" (some "y"), Visit.label "L" (some ".LJ1")] ++
          Visit.jump "L" (some ".LJ1") :: [Visit.clear]) ∧
    (some ".LJ1" : Option String) = some ".LJ1" :=
  ⟨by decide, by decide,
    dealias_label_text_stable jumps_fn jumps_fn_resolved DState.initial
      { state := [], func_allocd := 0, curr_labelno := 2 } (by decide)
      [Visit.clear] [Visit.reference "y" (some "y"), Visit.label "L" (some ".LJ1")]
      [Visit.clear] "L" (Visit.jump "L" (some ".LJ1")) (Visit.jump "L" (some ".LJ1"))
      (some ".LJ1") (some ".LJ1") (Or.inr rfl) (Or.inr rfl) (by decide) (by decide)⟩

/-- Claim C5 fails as stated: in `f () { goto L; L: int L; goto L; }` the jump
and the label before the declaration of `L` get `.LJ1`, the jump after it gets
`.LJ2`. -/
theorem dealias_declaration_splits_label :
    (dealias variable_after_label_fn DState.initial).map (fun r => visits r.1) =
      some [Visit.clear, Visit.jump "L" (some ".LJ1"), Visit.label "L" (some ".LJ1"),
        Visit.declaration "L" 8 (some "-8(%rbp)"), Visit.jump "L" (some ".LJ2"),
        Visit.clear] := by
  decide

/-- Claim C6, as amended, at `f (int a) { int x; int x; x; }` followed by
`g (int b) { x; int y; }`: in `g` the reference to `x` gets the text `x`. -/
theorem dealias_function_sees_no_earlier_binding_witness :
    dealias_r shadow_fn DState.initial = some (shadow_fn_resolved, DState.initial) ∧
    dealias_r second_fn DState.initial = some (second_fn_resolved, DState.initial) ∧
    (some "x" : Option String) = some "x" :=
  ⟨by decide, by decide,
    (dealias_function_sees_no_earlier_binding Attr.fresh "f" (decl_node "a")
      (seq_nodes [decl_node "x", decl_node "x", ref_node "x"]) Ast.null
      Attr.fresh "g" (decl_node "b") (seq_nodes [ref_node "x", decl_node "y"]) Ast.null
      DState.initial DState.initial DState.initial shadow_fn_resolved second_fn_resolved
      (by decide) (by decide) (by decide) (by decide)).1
      [Visit.clear, Visit.declaration "b" 8 (some "-8(%rbp)")]
      [Visit.declaration "y" 8 (some "-16(%rbp)"), Visit.clear] "x" (some "x")
      (by decide) (by decide)⟩

/-- Claim C6 fails as stated: after `f (int a) { int x; int x; x; }`, in
`g () { x: x; }`, which does not declare `x`, the reference to `x` is given
the label text `.LJ1`, not its own name. -/
theorem dealias_label_hides_unbound_name :
    ((dealias shadow_fn DState.initial).bind
        (fun r => dealias label_then_reference_fn r.2)).map (fun r => visits r.1) =
      some [Visit.clear, Visit.label "x" (some ".LJ1"), Visit.reference "x" (some ".LJ1"),
        Visit.clear] := by
  decide

/-! ## The register pool and the arithmetic instructions -/

/-- Claim C9: `ALLOC_REGISTER` at depth `avail = d` succeeds exactly when
`0 <= d < 13`; it then hands out the `d`-th register of the order `%rbx %r10
%r11 %r12 %r13 %r14 %r15 %r9 %r8 %rdx %rcx %rsi %rdi` and leaves
`avail = d + 1`; at any other depth, so at `d = 13`, it takes the fatal
bounds-check path and hands out no register. -/
theorem alloc_register_spec (g : GState) :
    (ALLOC_REGISTER g =
      if 0 ≤ g.avail ∧ g.avail < 13 then
        Except.ok (MAKE_BASE_LOC loc_kind.register_loc (pool_order.getD g.avail.toNat ""),
          { g with avail := g.avail + 1 })
      else Except.error Fatal.bounds) ∧
    ALLOC_REGISTER { g with avail := 13 } = Except.error Fatal.bounds := by
  refine ⟨?_, rfl⟩
  obtain ⟨d, s, ds, b, o⟩ := g
  simp only
  by_cases h : 0 ≤ d ∧ d < 13
  · rw [if_pos h]
    obtain ⟨h0, h1⟩ := h
    interval_cases d <;> rfl
  · rw [if_neg h]
    have : CHECK_BOUNDS general_regis_storage.length d = Except.error Fatal.bounds := by
      simp only [CHECK_BOUNDS, general_regis_storage, List.length_cons, List.length_nil]
      rw [if_neg]
      simpa using h
    simp only [ALLOC_REGISTER, general_regis, this]

/-- Claim C10 at its failing inputs: the pool hands out `%rdx` at depth 9 and
`%rcx` at depth 10, two of the registers that the comment above `general_regis`
says were left out. -/
theorem general_pool_holds_reserved :
    (general_regis 9 >>= regis) = Except.ok "%rdx" ∧
    (general_regis 10 >>= regis) = Except.ok "%rcx" ∧
    ALLOC_REGISTER { GState.start with avail := 9 } =
      Except.ok (MAKE_BASE_LOC loc_kind.register_loc "%rdx", { GState.start with avail := 10 }) ∧
    ALLOC_REGISTER { GState.start with avail := 10 } =
      Except.ok (MAKE_BASE_LOC loc_kind.register_loc "%rcx", { GState.start with avail := 11 }) := by
  refine ⟨?_, ?_, ?_, ?_⟩ <;> rfl

/-- Claim C2 at its failing inputs: folding `-6 / 3` gives `-2` and `-6 % 3`
gives `0`, but the lines written for the unfolded nodes clear `%rdx` before
`idivq` instead of extending the sign and leave `6148914691236517203` and `1`;
folding `-8 >> 1` gives `-4`, but the logical shift `shr` leaves
`9223372036854775804`.  The same holds when the negative operand is computed:
`(0 - 6) / 3` folds to `-2` and its lines leave `6148914691236517203`. -/
theorem folded_division_differs_from_emitted_code :
    optimizer 1 (Ast.binary Attr.fresh (chr '/') (make_integer (-6)) (make_integer 3)
      (Ast.null : Ast Loc)) = some (make_integer (-2)) ∧
    emitted_lines (chr '/') (-6) 3 =
      ["\tmov\t$-6, %rax\n", "\tmov\t$0, %rdx\n", "\tmov\t$3, %rbx\n", "\tidivq\t%rbx\n",
        "\tmov\t%rax, %rbx\n"] ∧
    emitted_value (chr '/') (-6) 3 = some 6148914691236517203 ∧
    optimizer 1 (Ast.binary Attr.fresh (chr '%') (make_integer (-6)) (make_integer 3)
      (Ast.null : Ast Loc)) = some (make_integer 0) ∧
    emitted_lines (chr '%') (-6) 3 =
      ["\tmov\t$-6, %rax\n", "\tmov\t$0, %rdx\n", "\tmov\t$3, %rbx\n", "\tidivq\t%rbx\n",
        "\tmov\t%rdx, %rbx\n"] ∧
    emitted_value (chr '%') (-6) 3 = some 1 ∧
    optimizer 1 (Ast.binary Attr.fresh RS (make_integer (-8)) (make_integer 1)
      (Ast.null : Ast Loc)) = some (make_integer (-4)) ∧
    emitted_lines RS (-8) 1 = ["\tmov\t$-8, %rbx\n", "\tshr\t$1, %rbx\n"] ∧
    emitted_value RS (-8) 1 = some 9223372036854775804 ∧
    optimizer 1 (Ast.binary Attr.fresh (chr '/')
      (Ast.binary Attr.fresh (chr '-') (make_integer 0) (make_integer 6) Ast.null)
      (make_integer 3) (Ast.null : Ast Loc)) = some (make_integer (-2)) ∧
    emitted_value_nested (chr '-') 0 6 (chr '/') 3 = some 6148914691236517203 := by
  refine ⟨?_, ?_, ?_, ?_, ?_, ?_, ?_, ?_, ?_, ?_, ?_⟩ <;> decide

/-! ## The register pool: freeing, the depth bound and the call registers -/

set_option maxRecDepth 100000

/-- At a depth from 0 to 13, `VALID_REGISTER_CHECK` tells whether its argument
names the top register of that depth. -/
theorem valid_register_check_top (s : Option String) (g : GState)
    (h0 : 0 ≤ g.avail) (h1 : g.avail ≤ 13) :
    VALID_REGISTER_CHECK s g = Except.ok (decide (s = some (top_register g.avail))) := by
  obtain ⟨d, sl, ds, b, o⟩ := g
  simp only at h0 h1
  cases s with
  | none => simp [VALID_REGISTER_CHECK]
  | some r =>
    interval_cases d <;>
      simp [VALID_REGISTER_CHECK, general_regis, regis, CHECK_BOUNDS, general_regis_storage,
        regis_storage, top_register, pool_order] <;>
      (rw [Bool.eq_iff_iff]; simp)

/-- Claim C11 fails: at depth 1 a memory location whose index and base both
name `%rbx` is freed down to the depth -1.  Once the index has given up the
only level the pool is empty and no register is on top of it, but
`VALID_REGISTER_CHECK` compares the base with the first register of the pool
again and `FREE_LOC_HOOK` counts it a second time.  At depth 14 the comparison
itself leaves the table of the pool and the run ends. -/
theorem free_loc_hook_counts_base_at_depth_zero :
    FREE_LOC_HOOK (indexed_loc "%rbx" "%rbx") { GState.start with avail := 1 } =
      Except.ok { GState.start with avail := -1 } ∧
    FREE_LOC_HOOK (MAKE_BASE_LOC loc_kind.register_loc "%rbx") { GState.start with avail := 14 } =
      Except.error Fatal.bounds := by
  refine ⟨?_, ?_⟩ <;> rfl

/-- What `FREE_LOC_HOOK` computes at a depth from 1 to 13: freeing a location
leaves the depth `freed_depth` gives: the index is compared first and the base next,
each with the register `VALID_REGISTER_CHECK` takes for the depth reached by
then (the top register, and the first register of the pool at depth 0).  The
depth falls by at most 2; a register location gives up one level exactly when it
names the top register; a literal or a symbol changes nothing. -/
theorem free_loc_hook_depth (x : Loc) (g : GState) (h1 : 1 ≤ g.avail) (h2 : g.avail ≤ 13) :
    FREE_LOC_HOOK x g = Except.ok { g with avail := freed_depth x g.avail } ∧
    g.avail - 2 ≤ freed_depth x g.avail ∧ freed_depth x g.avail ≤ g.avail ∧
    (IS_REGISTER x = true →
      (freed_depth x g.avail = g.avail - 1 ↔ x.base = some (top_register g.avail))) ∧
    (IS_REGISTER x = false → IS_MEMORY x = false → freed_depth x g.avail = g.avail) := by
  refine ⟨?_, ?_, ?_, ?_, ?_⟩
  · unfold FREE_LOC_HOOK freed_depth IS_REGISTER IS_MEMORY
    cases hk : x.kind
    · have e1 : (loc_kind.register_loc == loc_kind.memory_loc) = false := rfl
      have e2 : (loc_kind.register_loc == loc_kind.register_loc) = true := rfl
      simp only [e1, e2, Bool.true_or, if_true, Bool.false_eq_true, if_false]
      rw [valid_register_check_top x.base g (by omega) h2]
      by_cases hb : x.base = some (top_register g.avail)
      · simp [hb]
      · simp [hb]
    · have e1 : (loc_kind.memory_loc == loc_kind.memory_loc) = true := rfl
      simp only [e1, Bool.or_true, if_true]
      rw [valid_register_check_top x.index g (by omega) h2]
      by_cases hi : x.index = some (top_register g.avail)
      · simp only [hi, decide_True, if_true]
        rw [valid_register_check_top x.base { g with avail := g.avail - 1 }
          (by simp only; omega) (by simp only; omega)]
        by_cases hb : x.base = some (top_register (g.avail - 1))
        · simp [hb]
        · simp [hb]
      · simp only [hi, decide_False, if_false]
        rw [valid_register_check_top x.base g (by omega) h2]
        by_cases hb : x.base = some (top_register g.avail)
        · simp [hb]
        · simp [hb]
    · rfl
    · rfl
  · unfold freed_depth
    cases x.kind <;> simp only <;> omega
  · unfold freed_depth
    cases x.kind <;> simp only <;> omega
  · intro hr
    unfold IS_REGISTER at hr
    have hk : x.kind = loc_kind.register_loc := by
      cases hk : x.kind <;> rw [hk] at hr <;> first | rfl | exact absurd hr (by decide)
    unfold freed_depth
    rw [hk]
    simp only
    split_ifs with hb
    · simp [hb]
    · simp only [hb, iff_false]; omega
  · intro hr hm
    unfold IS_REGISTER at hr
    unfold IS_MEMORY at hm
    unfold freed_depth
    cases hk : x.kind <;> rw [hk] at hr hm <;>
      first | rfl | exact absurd hr (by decide) | exact absurd hm (by decide)

/-- At depth 2, with `%r10` on top of `%rbx`, the location `(%rbx,%r10,8)`
gives up both levels. -/
theorem free_loc_hook_depth_witness :
    (1 : Int) ≤ ({ GState.start with avail := 2 } : GState).avail ∧
    ({ GState.start with avail := 2 } : GState).avail ≤ 13 ∧
    FREE_LOC_HOOK (indexed_loc "%rbx" "%r10") { GState.start with avail := 2 } =
      Except.ok { GState.start with avail := 0 } :=
  ⟨by decide, by decide,
    (free_loc_hook_depth (indexed_loc "%rbx" "%r10") { GState.start with avail := 2 }
      (by decide) (by decide)).1⟩

/-- Claim C12 fails: thirteen allocations fill the pool, and moving the memory
operand `(%rbx)` into a register then completes with the depth 14.  The base
`%rbx` is not the top register, so freeing the operand lowers nothing, and
`GIVE_REGISTER_HOW` adds its 1 all the same, with no check of the bound.  A run
of `gen_code` gets there: on `(a * b)[*((*a + *b) + (*a + *b) + (*a + *b) +
(*a + *b))]` it completes with the depth 14. -/
theorem give_register_exceeds_pool :
    alloc_registers 13 GState.start = Except.ok { GState.start with avail := 13 } ∧
    GIVE_REGISTER_HOW "mov" (indirect_loc "%rbx") { GState.start with avail := 13 } =
      Except.ok (MAKE_BASE_LOC loc_kind.register_loc "%rbx",
        { GState.start with
          avail := 14,
          out := [Instr.two "mov" (indirect_loc "%rbx")
            (MAKE_BASE_LOC loc_kind.register_loc "%rbx")] }) ∧
    (gen_code_output deep_index).map Prod.snd = some 14 := by
  refine ⟨?_, ?_, ?_⟩
  · rfl
  · rfl
  · decide

/-- Claim C15 fails at the third and the fourth position: `call_regis` hands
out `%rdi`, `%rsi`, `%rcx`, `%rdx`, `%r8`, `%r9`, where a call takes its third
argument in `%rdx` and its fourth in `%rcx`. -/
theorem call_regis_swaps_third_and_fourth :
    call_register 0 = Except.ok "%rdi" ∧ call_register 1 = Except.ok "%rsi" ∧
    call_register 2 = Except.ok "%rcx" ∧ call_register 3 = Except.ok "%rdx" ∧
    call_register 4 = Except.ok "%r8" ∧ call_register 5 = Except.ok "%r9" := by
  refine ⟨?_, ?_, ?_, ?_, ?_, ?_⟩ <;> rfl

/-! ## The optimizer: idempotence and the places it visits -/

/-- The conditional case returns a tree that `optimizer_r` leaves unchanged. -/
theorem fold_cond_fixed {L : Type} (o : Int) (a : Attr L) (c b next t' : Ast L)
    (h : fold_cond a c b next = some t')
    (ic : optimizer_r o c = some c) (ib : optimizer_r o b = some b) :
    optimizer_r o t' = some t' := by
  unfold fold_cond at h
  split at h
  · exact absurd h (by simp)
  · split_ifs at h <;> simp only [Option.some.injEq] at h <;> subst h
    · exact ib
    · simp only [optimizer_r]
  · rename_i h1 h2
    simp only [Option.some.injEq] at h
    subst h
    simp only [optimizer_r, ic, ib]
    unfold fold_cond
    split
    · exact absurd rfl h1
    · exact absurd rfl (h2 _ _ _)
    · rfl

/-- The macro `FOLD_INTEGER_BIN` returns a tree that `optimizer_r` leaves
unchanged. -/
theorem fold_integer_bin_fixed {L : Type} (o : Int) (ho : o > 0) (f : Int → Int → Option Int)
    (a : Attr L) (op : Int) (hf : fold_case op = some f) (l r next t' : Ast L)
    (h : FOLD_INTEGER_BIN f a op l r next = some t')
    (il : optimizer_r o l = some l) (ir : optimizer_r o r = some r) :
    optimizer_r o t' = some t' := by
  by_cases e : FOLD_INTEGER_BIN f a op l r next = some (Ast.binary a op l r next)
  · rw [e] at h
    simp only [Option.some.injEq] at h
    subst h
    simp only [optimizer_r, il, ir, if_pos ho, hf]
    exact e
  · unfold FOLD_INTEGER_BIN at h e
    split at h
    · exact absurd h (by simp)
    · split at h
      · exact absurd h (by simp)
      · cases hv : f _ _ with
        | none => rw [hv] at h; exact absurd h (by simp)
        | some v =>
          rw [hv] at h
          simp only [Option.map_some', Option.some.injEq] at h
          subst h
          simp only [make_integer, optimizer_r]
      · refine absurd ?_ e
        split <;> simp_all
    · refine absurd ?_ e
      split <;> simp_all

/-- The macro `FOLD_INTEGER_UNI` returns a tree that `optimizer_r` leaves
unchanged. -/
theorem fold_integer_uni_fixed {L : Type} (o : Int) (ho : o > 0)
    (a : Attr L) (op : Int) (hop : op = chr '-') (x next t' : Ast L)
    (h : FOLD_INTEGER_UNI a op x next = some t')
    (ix : optimizer_r o x = some x) :
    optimizer_r o t' = some t' := by
  by_cases e : FOLD_INTEGER_UNI a op x next = some (Ast.unary a op x next)
  · rw [e] at h
    simp only [Option.some.injEq] at h
    subst h
    simp only [optimizer_r, ix, if_pos ho, if_pos hop]
    exact e
  · unfold FOLD_INTEGER_UNI at h e
    split at h
    · exact absurd h (by simp)
    · simp only [Option.some.injEq] at h
      subst h
      simp only [make_integer, optimizer_r]
    · refine absurd ?_ e
      split <;> simp_all

/-- A tree that `optimizer_r` returns is returned unchanged by `optimizer_r`. -/
theorem optimizer_r_fixed {L : Type} (o : Int) :
    ∀ (t t' : Ast L), optimizer_r o t = some t' → optimizer_r o t' = some t'
  | Ast.null, t', h => by
    simp only [optimizer_r, Option.some.injEq] at h
    subst h; simp only [optimizer_r]
  | Ast.block a val block_next next, t', h => by
    simp only [optimizer_r] at h
    cases hv : optimizer_r o val with
    | none => rw [hv] at h; exact absurd h (by simp)
    | some v =>
      cases hn : optimizer_r o block_next with
      | none => rw [hv, hn] at h; exact absurd h (by simp)
      | some n =>
        rw [hv, hn] at h
        simp only [Option.some.injEq] at h
        subst h
        simp only [optimizer_r, optimizer_r_fixed o val v hv,
          optimizer_r_fixed o block_next n hn]
  | Ast.function a name args body next, t', h => by
    simp only [optimizer_r] at h
    cases hb : optimizer_r o body with
    | none => rw [hb] at h; exact absurd h (by simp)
    | some b =>
      rw [hb] at h
      simp only [Option.some.injEq] at h
      subst h
      simp only [optimizer_r, optimizer_r_fixed o body b hb]
  | Ast.ret a val next, t', h => by
    simp only [optimizer_r] at h
    cases hv : optimizer_r o val with
    | none => rw [hv] at h; exact absurd h (by simp)
    | some v =>
      rw [hv] at h
      simp only [Option.some.injEq] at h
      subst h
      simp only [optimizer_r, optimizer_r_fixed o val v hv]
  | Ast.cond a cond body next, t', h => by
    simp only [optimizer_r] at h
    cases hc : optimizer_r o cond with
    | none => rw [hc] at h; exact absurd h (by simp)
    | some c =>
      cases hb : optimizer_r o body with
      | none => rw [hc, hb] at h; exact absurd h (by simp)
      | some b =>
        rw [hc, hb] at h
        dsimp only at h
        exact fold_cond_fixed o a c b next t' h (optimizer_r_fixed o cond c hc)
          (optimizer_r_fixed o body b hb)
  | Ast.label a name stuff next, t', h => by
    simp only [optimizer_r] at h
    cases hs : optimizer_r o stuff with
    | none => rw [hs] at h; exact absurd h (by simp)
    | some s =>
      rw [hs] at h
      simp only [Option.some.injEq] at h
      subst h
      simp only [optimizer_r, optimizer_r_fixed o stuff s hs]
  | Ast.jump a name next, t', h => by
    simp only [optimizer_r, Option.some.injEq] at h
    subst h; simp only [optimizer_r]
  | Ast.integer a i next, t', h => by
    simp only [optimizer_r, Option.some.injEq] at h
    subst h; simp only [optimizer_r]
  | Ast.variable a name type alloc next, t', h => by
    simp only [optimizer_r, Option.some.injEq] at h
    subst h; simp only [optimizer_r]
  | Ast.string a val next, t', h => by
    simp only [optimizer_r, Option.some.injEq] at h
    subst h; simp only [optimizer_r]
  | Ast.binary a op left right next, t', h => by
    simp only [optimizer_r] at h
    cases hl : optimizer_r o left with
    | none => rw [hl] at h; exact absurd h (by simp)
    | some l =>
      cases hr : optimizer_r o right with
      | none => rw [hl, hr] at h; exact absurd h (by simp)
      | some r =>
        rw [hl, hr] at h
        dsimp only at h
        have il := optimizer_r_fixed o left l hl
        have ir := optimizer_r_fixed o right r hr
        by_cases ho : o > 0
        · rw [if_pos ho] at h
          cases hf : fold_case op with
          | none =>
            rw [hf] at h
            simp only [Option.some.injEq] at h
            subst h
            simp only [optimizer_r, il, ir, if_pos ho, hf]
          | some f =>
            rw [hf] at h
            exact fold_integer_bin_fixed o ho f a op hf l r next t' h il ir
        · rw [if_neg ho] at h
          simp only [Option.some.injEq] at h
          subst h
          simp only [optimizer_r, il, ir, if_neg ho]
  | Ast.unary a op arg next, t', h => by
    simp only [optimizer_r] at h
    cases hx : optimizer_r o arg with
    | none => rw [hx] at h; exact absurd h (by simp)
    | some x =>
      rw [hx] at h
      dsimp only at h
      have ix := optimizer_r_fixed o arg x hx
      by_cases ho : o > 0
      · rw [if_pos ho] at h
        by_cases hop : op = chr '-'
        · rw [if_pos hop] at h
          exact fold_integer_uni_fixed o ho a op hop x next t' h ix
        · rw [if_neg hop] at h
          simp only [Option.some.injEq] at h
          subst h
          simp only [optimizer_r, ix, if_pos ho, if_neg hop]
      · rw [if_neg ho] at h
        simp only [Option.some.injEq] at h
        subst h
        simp only [optimizer_r, ix, if_neg ho]
  | Ast.crement a val next, t', h => by
    simp only [optimizer_r, Option.some.injEq] at h
    subst h; simp only [optimizer_r]
  | Ast.function_call a name args next, t', h => by
    simp only [optimizer_r, Option.some.injEq] at h
    subst h; simp only [optimizer_r]
  | Ast.statement a val next, t', h => by
    simp only [optimizer_r, Option.some.injEq] at h
    subst h; simp only [optimizer_r]
  | Ast.alloc a size next, t', h => by
    simp only [optimizer_r, Option.some.injEq] at h
    subst h; simp only [optimizer_r]

/-- Claim C19: the optimizer is idempotent.  For a fixed flag, a tree that the
optimizer returns is returned unchanged by a second run, so that running it
twice gives what running it once gives; an integer literal is returned
unchanged. -/
theorem optimizer_idempotent {L : Type} (o : Int) (t t' : Ast L)
    (h : optimizer o t = some t') :
    optimizer o t' = some t' ∧
    ((optimizer o t).bind (optimizer o)) = optimizer o t ∧
    ∀ (a : Attr L) (i : Int) (next : Ast L),
      optimizer o (Ast.integer a i next) = some (Ast.integer a i next) := by
  have h1 : optimizer o t' = some t' := optimizer_r_fixed o t t' h
  refine ⟨h1, ?_, ?_⟩
  · rw [h, Option.some_bind, h1]
  · intro a i next
    simp only [optimizer, optimizer_r]

/-- The tree `(1 + 2) * 3` is folded to `9`, and `9` stays `9`. -/
theorem optimizer_idempotent_witness :
    optimizer 1 (product_of_sum : Ast String) = some (make_integer 9) ∧
    optimizer 1 (make_integer 9 : Ast String) = some (make_integer 9) :=
  ⟨by decide,
    (optimizer_idempotent 1 (product_of_sum : Ast String) (make_integer 9) (by decide)).1⟩

/-- Every operator of `folded_operators` has a case in the switch of the
binary case. -/
theorem fold_case_of_folded (op : Int) (h : op ∈ folded_operators) :
    (fold_case op).isSome = true := by
  simp only [folded_operators, List.mem_cons, List.mem_singleton, List.not_mem_nil,
    or_false] at h
  rcases h with h | h | h | h | h | h | h | h | h | h | h | h | h <;> subst h <;> rfl

/-- The macro `FOLD_INTEGER_BIN` leaves no foldable node at the root. -/
theorem fold_integer_bin_reached {L : Type} (f : Int → Int → Option Int)
    (a : Attr L) (op : Int) (l r next t' : Ast L)
    (h : FOLD_INTEGER_BIN f a op l r next = some t')
    (il : reached_foldable l = false) (ir : reached_foldable r = false) :
    reached_foldable t' = false := by
  unfold FOLD_INTEGER_BIN at h
  split at h
  · exact absurd h (by simp)
  · split at h
    · exact absurd h (by simp)
    · cases hv : f _ _ with
      | none => rw [hv] at h; exact absurd h (by simp)
      | some v =>
        rw [hv] at h
        simp only [Option.map_some', Option.some.injEq] at h
        subst h
        simp only [make_integer, reached_foldable]
    · rename_i h1 h2
      simp only [Option.some.injEq] at h
      subst h
      have e : is_integer r = false := by
        cases r <;> first | rfl | exact absurd rfl (h2 _ _ _)
      simp only [reached_foldable, foldable, e, il, ir, Bool.and_false, Bool.or_false]
  · rename_i h1 h2
    simp only [Option.some.injEq] at h
    subst h
    have e : is_integer l = false := by
      cases l <;> first | rfl | exact absurd rfl (h2 _ _ _)
    simp only [reached_foldable, foldable, e, il, ir, Bool.and_false, Bool.false_and,
      Bool.or_false]

/-- With the flag set, `optimizer_r` leaves no foldable node at a place it
visits. -/
theorem optimizer_r_reached {L : Type} (o : Int) (ho : o > 0) :
    ∀ (t t' : Ast L), optimizer_r o t = some t' → reached_foldable t' = false
  | Ast.null, t', h => by
    simp only [optimizer_r, Option.some.injEq] at h
    subst h; simp only [reached_foldable]
  | Ast.block a val block_next next, t', h => by
    simp only [optimizer_r] at h
    cases hv : optimizer_r o val with
    | none => rw [hv] at h; exact absurd h (by simp)
    | some v =>
      cases hn : optimizer_r o block_next with
      | none => rw [hv, hn] at h; exact absurd h (by simp)
      | some n =>
        rw [hv, hn] at h
        simp only [Option.some.injEq] at h
        subst h
        simp only [reached_foldable, optimizer_r_reached o ho val v hv,
          optimizer_r_reached o ho block_next n hn, Bool.or_false]
  | Ast.function a name args body next, t', h => by
    simp only [optimizer_r] at h
    cases hb : optimizer_r o body with
    | none => rw [hb] at h; exact absurd h (by simp)
    | some b =>
      rw [hb] at h
      simp only [Option.some.injEq] at h
      subst h
      simp only [reached_foldable, optimizer_r_reached o ho body b hb]
  | Ast.ret a val next, t', h => by
    simp only [optimizer_r] at h
    cases hv : optimizer_r o val with
    | none => rw [hv] at h; exact absurd h (by simp)
    | some v =>
      rw [hv] at h
      simp only [Option.some.injEq] at h
      subst h
      simp only [reached_foldable, optimizer_r_reached o ho val v hv]
  | Ast.cond a cond body next, t', h => by
    simp only [optimizer_r] at h
    cases hc : optimizer_r o cond with
    | none => rw [hc] at h; exact absurd h (by simp)
    | some c =>
      cases hb : optimizer_r o body with
      | none => rw [hc, hb] at h; exact absurd h (by simp)
      | some b =>
        rw [hc, hb] at h
        dsimp only at h
        have ic := optimizer_r_reached o ho cond c hc
        have ib := optimizer_r_reached o ho body b hb
        unfold fold_cond at h
        split at h
        · exact absurd h (by simp)
        · split_ifs at h <;> simp only [Option.some.injEq] at h <;> subst h
          · exact ib
          · simp only [reached_foldable]
        · simp only [Option.some.injEq] at h
          subst h
          simp only [reached_foldable, ic, ib, Bool.or_false]
  | Ast.label a name stuff next, t', h => by
    simp only [optimizer_r] at h
    cases hs : optimizer_r o stuff with
    | none => rw [hs] at h; exact absurd h (by simp)
    | some s =>
      rw [hs] at h
      simp only [Option.some.injEq] at h
      subst h
      simp only [reached_foldable, optimizer_r_reached o ho stuff s hs]
  | Ast.jump a name next, t', h => by
    simp only [optimizer_r, Option.some.injEq] at h
    subst h; simp only [reached_foldable]
  | Ast.integer a i next, t', h => by
    simp only [optimizer_r, Option.some.injEq] at h
    subst h; simp only [reached_foldable]
  | Ast.variable a name type alloc next, t', h => by
    simp only [optimizer_r, Option.some.injEq] at h
    subst h; simp only [reached_foldable]
  | Ast.string a val next, t', h => by
    simp only [optimizer_r, Option.some.injEq] at h
    subst h; simp only [reached_foldable]
  | Ast.binary a op left right next, t', h => by
    simp only [optimizer_r] at h
    cases hl : optimizer_r o left with
    | none => rw [hl] at h; exact absurd h (by simp)
    | some l =>
      cases hr : optimizer_r o right with
      | none => rw [hl, hr] at h; exact absurd h (by simp)
      | some r =>
        rw [hl, hr] at h
        dsimp only at h
        have il := optimizer_r_reached o ho left l hl
        have ir := optimizer_r_reached o ho right r hr
        rw [if_pos ho] at h
        cases hf : fold_case op with
        | none =>
          rw [hf] at h
          simp only [Option.some.injEq] at h
          subst h
          have e : decide (op ∈ folded_operators) = false := by
            rw [decide_eq_false_iff_not]
            intro hm
            have := fold_case_of_folded op hm
            rw [hf] at this
            exact absurd this (by simp)
          simp only [reached_foldable, foldable, e, il, ir, Bool.false_and, Bool.or_false]
        | some f =>
          rw [hf] at h
          exact fold_integer_bin_reached f a op l r next t' h il ir
  | Ast.unary a op arg next, t', h => by
    simp only [optimizer_r] at h
    cases hx : optimizer_r o arg with
    | none => rw [hx] at h; exact absurd h (by simp)
    | some x =>
      rw [hx] at h
      dsimp only at h
      have ix := optimizer_r_reached o ho arg x hx
      rw [if_pos ho] at h
      by_cases hop : op = chr '-'
      · rw [if_pos hop] at h
        unfold FOLD_INTEGER_UNI at h
        split at h
        · exact absurd h (by simp)
        · simp only [Option.some.injEq] at h
          subst h
          simp only [make_integer, reached_foldable]
        · simp only [Option.some.injEq] at h
          subst h
          simp only [reached_foldable, ix]
      · rw [if_neg hop] at h
        simp only [Option.some.injEq] at h
        subst h
        simp only [reached_foldable, ix]
  | Ast.crement a val next, t', h => by
    simp only [optimizer_r, Option.some.injEq] at h
    subst h; simp only [reached_foldable]
  | Ast.function_call a name args next, t', h => by
    simp only [optimizer_r, Option.some.injEq] at h
    subst h; simp only [reached_foldable]
  | Ast.statement a val next, t', h => by
    simp only [optimizer_r, Option.some.injEq] at h
    subst h; simp only [reached_foldable]
  | Ast.alloc a size next, t', h => by
    simp only [optimizer_r, Option.some.injEq] at h
    subst h; simp only [reached_foldable]

/-- Claim C20 fails: with the flag set, the optimizer returns the statement
`1 + 2;`, the increment of `1 + 2`, the call `g (1 + 2)`, the function with
the parameter list `1 + 2` and the allocation of `1 + 2` cells as they are,
each with its foldable node still in place. -/
theorem optimizer_skips_wrapped_expressions :
    optimizer 1 (Ast.statement Attr.fresh one_plus_two Ast.null : Ast String) =
      some (Ast.statement Attr.fresh one_plus_two Ast.null) ∧
    has_foldable (Ast.statement Attr.fresh one_plus_two Ast.null : Ast String) = true ∧
    optimizer 1 (Ast.crement Attr.fresh one_plus_two Ast.null : Ast String) =
      some (Ast.crement Attr.fresh one_plus_two Ast.null) ∧
    has_foldable (Ast.crement Attr.fresh one_plus_two Ast.null : Ast String) = true ∧
    optimizer 1 (Ast.function_call Attr.fresh (ref_node "g") one_plus_two Ast.null) =
      some (Ast.function_call Attr.fresh (ref_node "g") one_plus_two Ast.null) ∧
    has_foldable (Ast.function_call Attr.fresh (ref_node "g") one_plus_two Ast.null) = true ∧
    optimizer 1 (Ast.function Attr.fresh "f" one_plus_two Ast.null Ast.null : Ast String) =
      some (Ast.function Attr.fresh "f" one_plus_two Ast.null Ast.null) ∧
    has_foldable (Ast.function Attr.fresh "f" one_plus_two Ast.null Ast.null : Ast String) =
      true ∧
    optimizer 1 (Ast.alloc Attr.fresh one_plus_two Ast.null : Ast String) =
      some (Ast.alloc Attr.fresh one_plus_two Ast.null) ∧
    has_foldable (Ast.alloc Attr.fresh one_plus_two Ast.null : Ast String) = true := by
  refine ⟨?_, ?_, ?_, ?_, ?_, ?_, ?_, ?_, ?_, ?_⟩ <;> decide

/-- Claim C20, amended: after a run of the optimizer that completes with the
flag set, no binary node with an operator among `+ - * / % > < >= <= == != >>
<<` and two integer-literal children stands at a place the optimizer visits:
the root, and from there through block values and successors, function bodies,
return values, conditions and bodies of conditionals, label contents and the
operands of binary and unary nodes. -/
theorem optimizer_folds_reached {L : Type} (o : Int) (t t' : Ast L) (ho : o > 0)
    (h : optimizer o t = some t') : reached_foldable t' = false :=
  optimizer_r_reached o ho t t' h

/-- The tree `return (1 + 2) * 3;` becomes `return 9;`, with nothing left to
fold. -/
theorem optimizer_folds_reached_witness :
    (1 : Int) > 0 ∧
    optimizer 1 (Ast.ret Attr.fresh product_of_sum Ast.null : Ast String) =
      some (Ast.ret Attr.fresh (make_integer 9) Ast.null) ∧
    reached_foldable (Ast.ret Attr.fresh (make_integer 9) Ast.null : Ast String) = false :=
  ⟨by decide, by decide,
    optimizer_folds_reached 1 (Ast.ret Attr.fresh product_of_sum Ast.null : Ast String)
      (Ast.ret Attr.fresh (make_integer 9) Ast.null) (by decide) (by decide)⟩

/-! ## The resolver: the places it visits and what it keeps between runs -/

/-- The resolver leaves a location at every variable, label and jump node it
visits. -/
theorem dealias_r_reached_resolved :
    ∀ (t t' : Ast String) (st st' : DState),
      dealias_r t st = some (t', st') → reached_resolved t' = true
  | Ast.null, t', st, st', h => by
    simp only [dealias_r, Option.some.injEq, Prod.mk.injEq] at h
    obtain ⟨rfl, _⟩ := h; rfl
  | Ast.block a val block_next next, t', st, st', h => by
    simp only [dealias_r] at h
    cases h1 : dealias_r val st with
    | none => rw [h1] at h; exact absurd h (by simp)
    | some p1 =>
      obtain ⟨v, s1⟩ := p1
      rw [h1] at h; dsimp only at h
      cases h2 : dealias_r block_next s1 with
      | none => rw [h2] at h; exact absurd h (by simp)
      | some p2 =>
        obtain ⟨n, s2⟩ := p2
        rw [h2] at h
        simp only [Option.some.injEq, Prod.mk.injEq] at h
        obtain ⟨rfl, _⟩ := h
        simp only [reached_resolved, dealias_r_reached_resolved val v st s1 h1,
          dealias_r_reached_resolved block_next n s1 s2 h2, Bool.and_self]
  | Ast.function a name args body next, t', st, st', h => by
    simp only [dealias_r] at h
    cases h1 : dealias_r args (clear_state st) with
    | none => rw [h1] at h; exact absurd h (by simp)
    | some p1 =>
      obtain ⟨v, s1⟩ := p1
      rw [h1] at h; dsimp only at h
      cases h2 : dealias_r body s1 with
      | none => rw [h2] at h; exact absurd h (by simp)
      | some p2 =>
        obtain ⟨n, s2⟩ := p2
        rw [h2] at h
        simp only [Option.some.injEq, Prod.mk.injEq] at h
        obtain ⟨rfl, _⟩ := h
        simp only [reached_resolved, dealias_r_reached_resolved args v _ s1 h1,
          dealias_r_reached_resolved body n s1 s2 h2, Bool.and_self]
  | Ast.ret a val next, t', st, st', h => by
    simp only [dealias_r] at h
    cases h1 : dealias_r val st with
    | none => rw [h1] at h; exact absurd h (by simp)
    | some p1 =>
      obtain ⟨v, s1⟩ := p1
      rw [h1] at h
      simp only [Option.some.injEq, Prod.mk.injEq] at h
      obtain ⟨rfl, _⟩ := h
      simp only [reached_resolved, dealias_r_reached_resolved val v st s1 h1]
  | Ast.cond a cond body next, t', st, st', h => by
    simp only [dealias_r] at h
    cases h1 : dealias_r cond st with
    | none => rw [h1] at h; exact absurd h (by simp)
    | some p1 =>
      obtain ⟨v, s1⟩ := p1
      rw [h1] at h; dsimp only at h
      cases h2 : dealias_r body s1 with
      | none => rw [h2] at h; exact absurd h (by simp)
      | some p2 =>
        obtain ⟨n, s2⟩ := p2
        rw [h2] at h
        simp only [Option.some.injEq, Prod.mk.injEq] at h
        obtain ⟨rfl, _⟩ := h
        simp only [reached_resolved, dealias_r_reached_resolved cond v st s1 h1,
          dealias_r_reached_resolved body n s1 s2 h2, Bool.and_self]
  | Ast.label a name stuff next, t', st, st', h => by
    simp only [dealias_r] at h
    cases h1 : get_label name st with
    | none => rw [h1] at h; exact absurd h (by simp)
    | some p1 =>
      obtain ⟨l, s1⟩ := p1
      rw [h1] at h; dsimp only at h
      cases h2 : dealias_r stuff s1 with
      | none => rw [h2] at h; exact absurd h (by simp)
      | some p2 =>
        obtain ⟨n, s2⟩ := p2
        rw [h2] at h
        simp only [Option.some.injEq, Prod.mk.injEq] at h
        obtain ⟨rfl, _⟩ := h
        simp only [reached_resolved, dealias_r_reached_resolved stuff n s1 s2 h2,
          Option.isSome_some, Bool.and_self]
  | Ast.jump a name next, t', st, st', h => by
    simp only [dealias_r] at h
    cases h1 : get_label name st with
    | none => rw [h1] at h; exact absurd h (by simp)
    | some p1 =>
      obtain ⟨l, s1⟩ := p1
      rw [h1] at h
      simp only [Option.some.injEq, Prod.mk.injEq] at h
      obtain ⟨rfl, _⟩ := h
      simp only [reached_resolved, Option.isSome_some]
  | Ast.integer a i next, t', st, st', h => by
    simp only [dealias_r, Option.some.injEq, Prod.mk.injEq] at h
    obtain ⟨rfl, _⟩ := h; rfl
  | Ast.variable a name type alloc next, t', st, st', h => by
    simp only [dealias_r] at h
    cases type with
    | none =>
      simp only [Option.some.injEq, Prod.mk.injEq] at h
      obtain ⟨rfl, _⟩ := h
      simp only [reached_resolved, Option.isSome_some]
    | some ty =>
      dsimp only at h
      cases h1 : add_to_state name 8 st with
      | none => rw [h1] at h; exact absurd h (by simp)
      | some s1 =>
        rw [h1] at h
        simp only [Option.some.injEq, Prod.mk.injEq] at h
        obtain ⟨rfl, _⟩ := h
        simp only [reached_resolved, Option.isSome_some]
  | Ast.string a val next, t', st, st', h => by
    simp only [dealias_r, Option.some.injEq, Prod.mk.injEq] at h
    obtain ⟨rfl, _⟩ := h; rfl
  | Ast.binary a op left right next, t', st, st', h => by
    simp only [dealias_r] at h
    cases h1 : dealias_r left st with
    | none => rw [h1] at h; exact absurd h (by simp)
    | some p1 =>
      obtain ⟨v, s1⟩ := p1
      rw [h1] at h; dsimp only at h
      cases h2 : dealias_r right s1 with
      | none => rw [h2] at h; exact absurd h (by simp)
      | some p2 =>
        obtain ⟨n, s2⟩ := p2
        rw [h2] at h
        simp only [Option.some.injEq, Prod.mk.injEq] at h
        obtain ⟨rfl, _⟩ := h
        simp only [reached_resolved, dealias_r_reached_resolved left v st s1 h1,
          dealias_r_reached_resolved right n s1 s2 h2, Bool.and_self]
  | Ast.unary a op arg next, t', st, st', h => by
    simp only [dealias_r] at h
    cases h1 : dealias_r arg st with
    | none => rw [h1] at h; exact absurd h (by simp)
    | some p1 =>
      obtain ⟨v, s1⟩ := p1
      rw [h1] at h
      simp only [Option.some.injEq, Prod.mk.injEq] at h
      obtain ⟨rfl, _⟩ := h
      simp only [reached_resolved, dealias_r_reached_resolved arg v st s1 h1]
  | Ast.crement a val next, t', st, st', h => by
    simp only [dealias_r] at h
    cases h1 : dealias_r val st with
    | none => rw [h1] at h; exact absurd h (by simp)
    | some p1 =>
      obtain ⟨v, s1⟩ := p1
      rw [h1] at h
      simp only [Option.some.injEq, Prod.mk.injEq] at h
      obtain ⟨rfl, _⟩ := h
      simp only [reached_resolved, dealias_r_reached_resolved val v st s1 h1]
  | Ast.function_call a name args next, t', st, st', h => by
    simp only [dealias_r] at h
    cases h1 : dealias_r args st with
    | none => rw [h1] at h; exact absurd h (by simp)
    | some p1 =>
      obtain ⟨v, s1⟩ := p1
      rw [h1] at h; dsimp only at h
      cases h2 : dealias_r name s1 with
      | none => rw [h2] at h; exact absurd h (by simp)
      | some p2 =>
        obtain ⟨n, s2⟩ := p2
        rw [h2] at h
        simp only [Option.some.injEq, Prod.mk.injEq] at h
        obtain ⟨rfl, _⟩ := h
        simp only [reached_resolved, dealias_r_reached_resolved args v st s1 h1,
          dealias_r_reached_resolved name n s1 s2 h2, Bool.and_self]
  | Ast.statement a val next, t', st, st', h => by
    simp only [dealias_r] at h
    cases h1 : dealias_r val st with
    | none => rw [h1] at h; exact absurd h (by simp)
    | some p1 =>
      obtain ⟨v, s1⟩ := p1
      rw [h1] at h
      simp only [Option.some.injEq, Prod.mk.injEq] at h
      obtain ⟨rfl, _⟩ := h
      simp only [reached_resolved, dealias_r_reached_resolved val v st s1 h1]
  | Ast.alloc a size next, t', st, st', h => by
    simp only [dealias_r, Option.some.injEq, Prod.mk.injEq] at h
    obtain ⟨rfl, _⟩ := h; rfl

/-- Claim C17 fails: the resolver has no case for an allocation node and never
follows `next`.  It returns the allocation of `n` cells as it is, the variable
`n` without a location; in the call `g (x, y)` and in the function
`f (int a, int b)` it gives a location to the first argument and to the first
parameter only, the second being reached through `next`.  The code generator
asserts that each parameter and each argument holds a location, and reads the
location of the size of an allocation: on these trees its run ends at the
assertion, or at the null location. -/
theorem dealias_leaves_unvisited_nodes :
    dealias alloc_of_variable DState.initial = some (alloc_of_variable, DState.initial) ∧
    all_resolved alloc_of_variable = false ∧
    dealias call_two_arguments DState.initial =
      some (call_two_arguments_resolved, DState.initial) ∧
    all_resolved call_two_arguments_resolved = false ∧
    dealias two_parameters_fn DState.initial =
      some (two_parameters_fn_resolved, DState.initial) ∧
    all_resolved two_parameters_fn_resolved = false ∧
    gen_code two_parameters_fn_located GState.start = Except.error Fatal.assertion ∧
    gen_code call_two_arguments_located GState.start = Except.error Fatal.assertion ∧
    gen_code (Ast.alloc Attr.fresh (Ast.variable Attr.fresh "n" none 0 Ast.null) Ast.null)
      GState.start = Except.error Fatal.null_pointer := by
  refine ⟨?_, ?_, ?_, ?_, ?_, ?_, rfl, rfl, rfl⟩ <;> decide

/-- After the resolver has returned, every variable, label and jump node it
has visited carries a location: the root, and below a visited node
the value and the successor of a block, the parameters and the body of a
function, the value of a return, the condition and the body of a conditional,
the content of a label, the operands of binary, unary and increment nodes, the
callee and the first argument of a call, the expression of a statement. -/
theorem dealias_resolves_visited_nodes (t t' : Ast String) (st st' : DState)
    (h : dealias t st = some (t', st')) : reached_resolved t' = true :=
  dealias_r_reached_resolved t t' st st' h

/-- The function `f (int a) { int x; int x; x; }` comes back with a location
at each of its four variable nodes. -/
theorem dealias_resolves_visited_nodes_witness :
    dealias shadow_fn DState.initial = some (shadow_fn_resolved, DState.initial) ∧
    reached_resolved shadow_fn_resolved = true :=
  ⟨by decide,
    dealias_resolves_visited_nodes shadow_fn shadow_fn_resolved DState.initial DState.initial
      (by decide)⟩

/-- The function `clear_state` keeps the label counter and nothing else. -/
theorem clear_state_of_label_counter (s1 s2 : DState)
    (h : s1.curr_labelno = s2.curr_labelno) : clear_state s1 = clear_state s2 := by
  simp only [clear_state, h]

/-- On a tree of functions, what `dealias_r` returns and the label counter it
ends with depend on the label counter it starts with alone. -/
theorem dealias_r_top_level :
    ∀ (t : Ast String) (s1 s2 : DState), top_level t = true →
      s1.curr_labelno = s2.curr_labelno →
      (dealias_r t s1).map (fun p => (p.1, p.2.curr_labelno)) =
        (dealias_r t s2).map (fun p => (p.1, p.2.curr_labelno))
  | Ast.null, s1, s2, _, h => by
    simp only [dealias_r, Option.map_some', h]
  | Ast.function a name args body next, s1, s2, _, h => by
    simp only [dealias_r, clear_state_of_label_counter s1 s2 h]
  | Ast.block a val block_next next, s1, s2, ht, h => by
    simp only [top_level, Bool.and_eq_true] at ht
    have i1 := dealias_r_top_level val s1 s2 ht.1 h
    simp only [dealias_r]
    cases h1 : dealias_r val s1 with
    | none =>
      rw [h1] at i1
      cases h2 : dealias_r val s2 with
      | none => rfl
      | some p2 => rw [h2] at i1; exact absurd i1 (by simp)
    | some p1 =>
      obtain ⟨v1, t1⟩ := p1
      rw [h1] at i1
      cases h2 : dealias_r val s2 with
      | none => rw [h2] at i1; exact absurd i1 (by simp)
      | some p2 =>
        obtain ⟨v2, t2⟩ := p2
        rw [h2] at i1
        simp only [Option.map_some', Option.some.injEq, Prod.mk.injEq] at i1
        obtain ⟨rfl, hl⟩ := i1
        have i2 := dealias_r_top_level block_next t1 t2 ht.2 hl
        dsimp only
        cases h3 : dealias_r block_next t1 with
        | none =>
          rw [h3] at i2
          cases h4 : dealias_r block_next t2 with
          | none => rfl
          | some p4 => rw [h4] at i2; exact absurd i2 (by simp)
        | some p3 =>
          obtain ⟨n1, u1⟩ := p3
          rw [h3] at i2
          cases h4 : dealias_r block_next t2 with
          | none => rw [h4] at i2; exact absurd i2 (by simp)
          | some p4 =>
            obtain ⟨n2, u2⟩ := p4
            rw [h4] at i2
            simp only [Option.map_some', Option.some.injEq, Prod.mk.injEq] at i2
            obtain ⟨rfl, hl2⟩ := i2
            simp only [Option.map_some', hl2]
  | Ast.ret _ _ _, _, _, ht, _ => by simp only [top_level] at ht; exact absurd ht (by decide)
  | Ast.cond _ _ _ _, _, _, ht, _ => by simp only [top_level] at ht; exact absurd ht (by decide)
  | Ast.label _ _ _ _, _, _, ht, _ => by simp only [top_level] at ht; exact absurd ht (by decide)
  | Ast.jump _ _ _, _, _, ht, _ => by simp only [top_level] at ht; exact absurd ht (by decide)
  | Ast.integer _ _ _, _, _, ht, _ => by simp only [top_level] at ht; exact absurd ht (by decide)
  | Ast.variable _ _ _ _ _, _, _, ht, _ => by
    simp only [top_level] at ht; exact absurd ht (by decide)
  | Ast.string _ _ _, _, _, ht, _ => by simp only [top_level] at ht; exact absurd ht (by decide)
  | Ast.binary _ _ _ _ _, _, _, ht, _ => by
    simp only [top_level] at ht; exact absurd ht (by decide)
  | Ast.unary _ _ _ _, _, _, ht, _ => by simp only [top_level] at ht; exact absurd ht (by decide)
  | Ast.crement _ _ _, _, _, ht, _ => by simp only [top_level] at ht; exact absurd ht (by decide)
  | Ast.function_call _ _ _ _, _, _, ht, _ => by
    simp only [top_level] at ht; exact absurd ht (by decide)
  | Ast.statement _ _ _, _, _, ht, _ => by
    simp only [top_level] at ht; exact absurd ht (by decide)
  | Ast.alloc _ _ _, _, _, ht, _ => by simp only [top_level] at ht; exact absurd ht (by decide)

/-- Claim C18 fails: the entry point clears nothing, and the label counter is
never set back.  Three runs on the function `f () { L: ; }`, each from the
globals the run before left, give the label the texts `.LJ1`, `.LJ2` and
`.LJ3`; two runs on the declaration `int x;` outside a function give it the
slots `-8(%rbp)` and `-16(%rbp)`, the binding and the frame counter of the
first run being still there. -/
theorem dealias_depends_on_earlier_run :
    dealias label_fn DState.initial =
      some (label_fn_resolved ".LJ1", { DState.initial with curr_labelno := 2 }) ∧
    dealias label_fn { DState.initial with curr_labelno := 2 } =
      some (label_fn_resolved ".LJ2", { DState.initial with curr_labelno := 3 }) ∧
    dealias label_fn { DState.initial with curr_labelno := 3 } =
      some (label_fn_resolved ".LJ3", { DState.initial with curr_labelno := 4 }) ∧
    dealias (decl_node "x") DState.initial =
      some (resolved_node "x" (some "int") 8 "-8(%rbp)", after_declaration) ∧
    dealias (decl_node "x") after_declaration =
      some (resolved_node "x" (some "int") 8 "-16(%rbp)", after_two_declarations) := by
  refine ⟨?_, ?_, ?_, ?_, ?_⟩ <;> decide

/-- Claim C18, amended: on a tree made of functions (function nodes as the
values and successors of blocks, no code outside a function), the locations and
allocation sizes that dealias assigns do not depend on the binding table and
the frame counter that an earlier run left, every function clearing both as it
is entered; they depend on the label counter, which is set at the start of the
program only: two runs from states with one label counter return one tree and
end with one label counter. -/
theorem dealias_independent_of_table (t : Ast String) (s1 s2 : DState)
    (ht : top_level t = true) (hl : s1.curr_labelno = s2.curr_labelno) :
    (dealias t s1).map (fun p => (p.1, p.2.curr_labelno)) =
      (dealias t s2).map (fun p => (p.1, p.2.curr_labelno)) :=
  dealias_r_top_level t s1 s2 ht hl

/-- The function `f (int a) { int x; int x; x; }` is resolved from a table that
holds a binding of `x` and a frame counter of 8 as it is from the empty
table. -/
theorem dealias_independent_of_table_witness :
    top_level shadow_fn = true ∧
    after_declaration.curr_labelno = DState.initial.curr_labelno ∧
    (dealias shadow_fn after_declaration).map (fun p => (p.1, p.2.curr_labelno)) =
      (dealias shadow_fn DState.initial).map (fun p => (p.1, p.2.curr_labelno)) :=
  ⟨by decide, by decide,
    dealias_independent_of_table shadow_fn after_declaration DState.initial
      (by decide) (by decide)⟩

/-! ## The code generator: the walk over the tree -/

/-- Claim C14: for the function `f` with the parameters `a` at `-8(%rbp)` and
`b` at `-16(%rbp)`, of allocation size 8 each, and the body `return a % b`,
`gen_code` writes the symbol and the prologue, the two stores of the parameters
from `%rdi` and `%rsi`, the modulo sequence through `%rax` and `%rdx`, the move
of the result to `%rax`, the epilogue and the `.data` directive, in this order,
and ends with the depth 0. -/
theorem gen_code_modulo_function :
    gen_code_output modulo_fn =
      some ("\t.global\tf\nf:\n\tpush\t%rbp\n\tmov\t%rsp, %rbp\n" ++
        "\tsub\t$8, %rsp\n\tmov\t%rdi, -8(%rbp)\n" ++
        "\tsub\t$8, %rsp\n\tmov\t%rsi, -16(%rbp)\n" ++
        "\tmov\t-8(%rbp), %rax\n\tmov\t$0, %rdx\n\tidivq\t-16(%rbp)\n\tmov\t%rdx, %rbx\n" ++
        "\tmov\t%rbx, %rax\n\tmov\t%rbp, %rsp\n\tpop\t%rbp\n\tret\n" ++
        "\t.data\n", 0) := by
  decide

/-- What `finish_node` returns for a node with the discard-registers flag:
the sibling is generated from the globals of the node with the depth 0. -/
theorem finish_node_discard {α : Type} (r : Except Fatal (α × GState))
    (k : GState → Except Fatal (Ast Loc × GState)) (node : α → Ast Loc → Ast Loc)
    (t' : Ast Loc) (g' : GState)
    (h : finish_node true r k node = Except.ok (t', g')) :
    ∃ x g1 n, r = Except.ok (x, g1) ∧ k { g1 with avail := 0 } = Except.ok (n, g') ∧
      t' = node x n := by
  unfold finish_node at h
  cases r with
  | error e => exact absurd h (by simp)
  | ok p =>
    obtain ⟨x, g1⟩ := p
    simp only [if_true] at h
    cases hk : k { g1 with avail := 0 } with
    | error e => rw [hk] at h; exact absurd h (by simp)
    | ok q =>
      obtain ⟨n, g2⟩ := q
      rw [hk] at h
      simp only [Except.ok.injEq, Prod.mk.injEq] at h
      obtain ⟨rfl, rfl⟩ := h
      exact ⟨x, g1, n, rfl, hk, rfl⟩

/-- What `finish_node` returns for a node without flag and without sibling. -/
theorem finish_node_detached {α : Type} (r : Except Fatal (α × GState))
    (node : α → Ast Loc → Ast Loc) (x : α) (g1 : GState) (hr : r = Except.ok (x, g1)) :
    finish_node false r (gen_code_r Ast.null) node = Except.ok (node x Ast.null, g1) := by
  subst hr
  simp [finish_node, gen_code_r]

/-! ## The flag of a node that `gen_code_r` is not called on -/

/-- Claim C13 fails for a flagged node whose code is written without a call of
`gen_code_r` on it.  The condition `a < b` of a conditional is written by
`gen_code_cond`, which calls `gen_code_r` on its two operands only; a parameter
is written by the loop of `gen_code_function`.  Neither reads the flag: entered
at the depth 5, the conditional with the flagged condition and the function
with the flagged parameter both complete with the depth 5. -/
theorem flagged_condition_keeps_depth :
    node_attr flagged_compare = some flagged ∧ flagged.throw_away = true ∧
    gen_code_r_output if_flagged_compare (at_depth 5) =
      some ("\tmov\t-8(%rbp), %r14\n\tcmp\t-16(%rbp), %r14\n\tjl\t.LJ1\n", 5) ∧
    node_attr flagged_parameter = some flagged_slot ∧ flagged_slot.throw_away = true ∧
    gen_code_r_output fn_flagged_parameter (at_depth 5) =
      some ("\t.global\tf\nf:\n\tpush\t%rbp\n\tmov\t%rsp, %rbp\n\tsub\t$8, %rsp\n" ++
        "\tmov\t%rdi, -8(%rbp)\n", 5) := by
  refine ⟨rfl, rfl, ?_, rfl, rfl, ?_⟩ <;> decide

/-- Claim C13, amended: a node with the discard-registers flag on which
`gen_code_r` is called, and whose code generation completes, leaves the depth 0
right after its own code, whatever the depth on entry and whatever its own
code left: the run of `gen_code_r` on the node is the run on the node alone, a
reset of the depth to 0 and the run on the sibling from there; without a
sibling, `gen_code_r` returns with the depth 0. -/
theorem gen_code_r_discardable :
    ∀ (t t' : Ast Loc) (g g' : GState) (a : Attr Loc), node_attr t = some a →
      a.throw_away = true → gen_code_r t g = Except.ok (t', g') →
      ∃ t1 g1, gen_code_r (detached t) g = Except.ok (t1, g1) ∧
        gen_code_r (node_next t) { g1 with avail := 0 } = Except.ok (node_next t', g') ∧
        (node_next t = Ast.null → g'.avail = 0)
  | Ast.null, _, _, _, _, ha, _, _ => by
    simp only [node_attr] at ha
    exact absurd ha (by simp)
  | Ast.block a val block_next next, t', g, g', a', ha, hd, h => by
    simp only [node_attr, Option.some.injEq] at ha
    subst ha
    simp only [gen_code_r, hd] at h
    obtain ⟨x, g1, n, hr, hk, rfl⟩ := finish_node_discard _ _ _ _ _ h
    have e1 : ∃ t1, gen_code_r (detached (Ast.block a val block_next next)) g = Except.ok (t1, g1) :=
      ⟨_, by simp only [detached, gen_code_r]; exact finish_node_detached _ _ _ _ hr⟩
    obtain ⟨t1, e1⟩ := e1
    refine ⟨t1, g1, e1, ?_, ?_⟩
    · simpa only [node_next] using hk
    · intro hn
      simp only [node_next] at hn
      subst hn
      simp only [gen_code_r, Except.ok.injEq, Prod.mk.injEq] at hk
      rw [← hk.2]
  | Ast.function a name args body next, t', g, g', a', ha, hd, h => by
    simp only [node_attr, Option.some.injEq] at ha
    subst ha
    simp only [gen_code_r, hd] at h
    obtain ⟨x, g1, n, hr, hk, rfl⟩ := finish_node_discard _ _ _ _ _ h
    have e1 : ∃ t1, gen_code_r (detached (Ast.function a name args body next)) g = Except.ok (t1, g1) :=
      ⟨_, by simp only [detached, gen_code_r]; exact finish_node_detached _ _ _ _ hr⟩
    obtain ⟨t1, e1⟩ := e1
    refine ⟨t1, g1, e1, ?_, ?_⟩
    · simpa only [node_next] using hk
    · intro hn
      simp only [node_next] at hn
      subst hn
      simp only [gen_code_r, Except.ok.injEq, Prod.mk.injEq] at hk
      rw [← hk.2]
  | Ast.ret a val next, t', g, g', a', ha, hd, h => by
    simp only [node_attr, Option.some.injEq] at ha
    subst ha
    simp only [gen_code_r, hd] at h
    obtain ⟨x, g1, n, hr, hk, rfl⟩ := finish_node_discard _ _ _ _ _ h
    have e1 : ∃ t1, gen_code_r (detached (Ast.ret a val next)) g = Except.ok (t1, g1) :=
      ⟨_, by simp only [detached, gen_code_r]; exact finish_node_detached _ _ _ _ hr⟩
    obtain ⟨t1, e1⟩ := e1
    refine ⟨t1, g1, e1, ?_, ?_⟩
    · simpa only [node_next] using hk
    · intro hn
      simp only [node_next] at hn
      subst hn
      simp only [gen_code_r, Except.ok.injEq, Prod.mk.injEq] at hk
      rw [← hk.2]
  | Ast.label a name stuff next, t', g, g', a', ha, hd, h => by
    simp only [node_attr, Option.some.injEq] at ha
    subst ha
    simp only [gen_code_r, hd] at h
    obtain ⟨x, g1, n, hr, hk, rfl⟩ := finish_node_discard _ _ _ _ _ h
    have e1 : ∃ t1, gen_code_r (detached (Ast.label a name stuff next)) g = Except.ok (t1, g1) :=
      ⟨_, by simp only [detached, gen_code_r]; exact finish_node_detached _ _ _ _ hr⟩
    obtain ⟨t1, e1⟩ := e1
    refine ⟨t1, g1, e1, ?_, ?_⟩
    · simpa only [node_next] using hk
    · intro hn
      simp only [node_next] at hn
      subst hn
      simp only [gen_code_r, Except.ok.injEq, Prod.mk.injEq] at hk
      rw [← hk.2]
  | Ast.jump a name next, t', g, g', a', ha, hd, h => by
    simp only [node_attr, Option.some.injEq] at ha
    subst ha
    simp only [gen_code_r, hd] at h
    obtain ⟨x, g1, n, hr, hk, rfl⟩ := finish_node_discard _ _ _ _ _ h
    have e1 : ∃ t1, gen_code_r (detached (Ast.jump a name next)) g = Except.ok (t1, g1) :=
      ⟨_, by simp only [detached, gen_code_r]; exact finish_node_detached _ _ _ _ hr⟩
    obtain ⟨t1, e1⟩ := e1
    refine ⟨t1, g1, e1, ?_, ?_⟩
    · simpa only [node_next] using hk
    · intro hn
      simp only [node_next] at hn
      subst hn
      simp only [gen_code_r, Except.ok.injEq, Prod.mk.injEq] at hk
      rw [← hk.2]
  | Ast.integer a i next, t', g, g', a', ha, hd, h => by
    simp only [node_attr, Option.some.injEq] at ha
    subst ha
    simp only [gen_code_r, hd] at h
    obtain ⟨x, g1, n, hr, hk, rfl⟩ := finish_node_discard _ _ _ _ _ h
    have e1 : ∃ t1, gen_code_r (detached (Ast.integer a i next)) g = Except.ok (t1, g1) :=
      ⟨_, by simp only [detached, gen_code_r]; exact finish_node_detached _ _ _ _ hr⟩
    obtain ⟨t1, e1⟩ := e1
    refine ⟨t1, g1, e1, ?_, ?_⟩
    · simpa only [node_next] using hk
    · intro hn
      simp only [node_next] at hn
      subst hn
      simp only [gen_code_r, Except.ok.injEq, Prod.mk.injEq] at hk
      rw [← hk.2]
  | Ast.variable a name type alloc next, t', g, g', a', ha, hd, h => by
    simp only [node_attr, Option.some.injEq] at ha
    subst ha
    simp only [gen_code_r, hd] at h
    obtain ⟨x, g1, n, hr, hk, rfl⟩ := finish_node_discard _ _ _ _ _ h
    have e1 : ∃ t1, gen_code_r (detached (Ast.variable a name type alloc next)) g = Except.ok (t1, g1) :=
      ⟨_, by simp only [detached, gen_code_r]; exact finish_node_detached _ _ _ _ hr⟩
    obtain ⟨t1, e1⟩ := e1
    refine ⟨t1, g1, e1, ?_, ?_⟩
    · simpa only [node_next] using hk
    · intro hn
      simp only [node_next] at hn
      subst hn
      simp only [gen_code_r, Except.ok.injEq, Prod.mk.injEq] at hk
      rw [← hk.2]
  | Ast.string a val next, t', g, g', a', ha, hd, h => by
    simp only [node_attr, Option.some.injEq] at ha
    subst ha
    simp only [gen_code_r, hd] at h
    obtain ⟨x, g1, n, hr, hk, rfl⟩ := finish_node_discard _ _ _ _ _ h
    have e1 : ∃ t1, gen_code_r (detached (Ast.string a val next)) g = Except.ok (t1, g1) :=
      ⟨_, by simp only [detached, gen_code_r]; exact finish_node_detached _ _ _ _ hr⟩
    obtain ⟨t1, e1⟩ := e1
    refine ⟨t1, g1, e1, ?_, ?_⟩
    · simpa only [node_next] using hk
    · intro hn
      simp only [node_next] at hn
      subst hn
      simp only [gen_code_r, Except.ok.injEq, Prod.mk.injEq] at hk
      rw [← hk.2]
  | Ast.binary a op left right next, t', g, g', a', ha, hd, h => by
    simp only [node_attr, Option.some.injEq] at ha
    subst ha
    simp only [gen_code_r, hd] at h
    obtain ⟨x, g1, n, hr, hk, rfl⟩ := finish_node_discard _ _ _ _ _ h
    have e1 : ∃ t1, gen_code_r (detached (Ast.binary a op left right next)) g = Except.ok (t1, g1) :=
      ⟨_, by simp only [detached, gen_code_r]; exact finish_node_detached _ _ _ _ hr⟩
    obtain ⟨t1, e1⟩ := e1
    refine ⟨t1, g1, e1, ?_, ?_⟩
    · simpa only [node_next] using hk
    · intro hn
      simp only [node_next] at hn
      subst hn
      simp only [gen_code_r, Except.ok.injEq, Prod.mk.injEq] at hk
      rw [← hk.2]
  | Ast.unary a op arg next, t', g, g', a', ha, hd, h => by
    simp only [node_attr, Option.some.injEq] at ha
    subst ha
    simp only [gen_code_r, hd] at h
    obtain ⟨x, g1, n, hr, hk, rfl⟩ := finish_node_discard _ _ _ _ _ h
    have e1 : ∃ t1, gen_code_r (detached (Ast.unary a op arg next)) g = Except.ok (t1, g1) :=
      ⟨_, by simp only [detached, gen_code_r]; exact finish_node_detached _ _ _ _ hr⟩
    obtain ⟨t1, e1⟩ := e1
    refine ⟨t1, g1, e1, ?_, ?_⟩
    · simpa only [node_next] using hk
    · intro hn
      simp only [node_next] at hn
      subst hn
      simp only [gen_code_r, Except.ok.injEq, Prod.mk.injEq] at hk
      rw [← hk.2]
  | Ast.crement a val next, t', g, g', a', ha, hd, h => by
    simp only [node_attr, Option.some.injEq] at ha
    subst ha
    simp only [gen_code_r, hd] at h
    obtain ⟨x, g1, n, hr, hk, rfl⟩ := finish_node_discard _ _ _ _ _ h
    have e1 : ∃ t1, gen_code_r (detached (Ast.crement a val next)) g = Except.ok (t1, g1) :=
      ⟨_, by simp only [detached, gen_code_r]; exact finish_node_detached _ _ _ _ hr⟩
    obtain ⟨t1, e1⟩ := e1
    refine ⟨t1, g1, e1, ?_, ?_⟩
    · simpa only [node_next] using hk
    · intro hn
      simp only [node_next] at hn
      subst hn
      simp only [gen_code_r, Except.ok.injEq, Prod.mk.injEq] at hk
      rw [← hk.2]
  | Ast.function_call a name args next, t', g, g', a', ha, hd, h => by
    simp only [node_attr, Option.some.injEq] at ha
    subst ha
    simp only [gen_code_r, hd] at h
    obtain ⟨x, g1, n, hr, hk, rfl⟩ := finish_node_discard _ _ _ _ _ h
    have e1 : ∃ t1, gen_code_r (detached (Ast.function_call a name args next)) g = Except.ok (t1, g1) :=
      ⟨_, by simp only [detached, gen_code_r]; exact finish_node_detached _ _ _ _ hr⟩
    obtain ⟨t1, e1⟩ := e1
    refine ⟨t1, g1, e1, ?_, ?_⟩
    · simpa only [node_next] using hk
    · intro hn
      simp only [node_next] at hn
      subst hn
      simp only [gen_code_r, Except.ok.injEq, Prod.mk.injEq] at hk
      rw [← hk.2]
  | Ast.statement a val next, t', g, g', a', ha, hd, h => by
    simp only [node_attr, Option.some.injEq] at ha
    subst ha
    simp only [gen_code_r, hd] at h
    obtain ⟨x, g1, n, hr, hk, rfl⟩ := finish_node_discard _ _ _ _ _ h
    have e1 : ∃ t1, gen_code_r (detached (Ast.statement a val next)) g = Except.ok (t1, g1) :=
      ⟨_, by simp only [detached, gen_code_r]; exact finish_node_detached _ _ _ _ hr⟩
    obtain ⟨t1, e1⟩ := e1
    refine ⟨t1, g1, e1, ?_, ?_⟩
    · simpa only [node_next] using hk
    · intro hn
      simp only [node_next] at hn
      subst hn
      simp only [gen_code_r, Except.ok.injEq, Prod.mk.injEq] at hk
      rw [← hk.2]
  | Ast.alloc a size next, t', g, g', a', ha, hd, h => by
    simp only [node_attr, Option.some.injEq] at ha
    subst ha
    simp only [gen_code_r, hd] at h
    obtain ⟨x, g1, n, hr, hk, rfl⟩ := finish_node_discard _ _ _ _ _ h
    have e1 : ∃ t1, gen_code_r (detached (Ast.alloc a size next)) g = Except.ok (t1, g1) :=
      ⟨_, by simp only [detached, gen_code_r]; exact finish_node_detached _ _ _ _ hr⟩
    obtain ⟨t1, e1⟩ := e1
    refine ⟨t1, g1, e1, ?_, ?_⟩
    · simpa only [node_next] using hk
    · intro hn
      simp only [node_next] at hn
      subst hn
      simp only [gen_code_r, Except.ok.injEq, Prod.mk.injEq] at hk
      rw [← hk.2]
  | Ast.cond a Ast.null body next, _, _, _, _, _, _, h => by
    simp only [gen_code_r] at h
    exact absurd h (by simp)
  | Ast.cond a (Ast.binary ca cop cleft cright cnext) body next, t', g, g', a', ha, hd, h => by
    simp only [node_attr, Option.some.injEq] at ha
    subst ha
    cases hb : branch_code cop with
    | none =>
      simp only [gen_code_r, hd, hb] at h
      obtain ⟨x, g1, n, hr, hk, rfl⟩ := finish_node_discard _ _ _ _ _ h
      have e1 : ∃ t1, gen_code_r (detached (Ast.cond a (Ast.binary ca cop cleft cright cnext) body next)) g = Except.ok (t1, g1) :=
        ⟨_, by simp only [detached, gen_code_r, hb]; exact finish_node_detached _ _ _ _ hr⟩
      obtain ⟨t1, e1⟩ := e1
      refine ⟨t1, g1, e1, ?_, ?_⟩
      · simpa only [node_next] using hk
      · intro hn
        simp only [node_next] at hn
        subst hn
        simp only [gen_code_r, Except.ok.injEq, Prod.mk.injEq] at hk
        rw [← hk.2]
    | some code =>
      simp only [gen_code_r, hd, hb] at h
      obtain ⟨x, g1, n, hr, hk, rfl⟩ := finish_node_discard _ _ _ _ _ h
      have e1 : ∃ t1, gen_code_r (detached (Ast.cond a (Ast.binary ca cop cleft cright cnext) body next)) g = Except.ok (t1, g1) :=
        ⟨_, by simp only [detached, gen_code_r, hb]; exact finish_node_detached _ _ _ _ hr⟩
      obtain ⟨t1, e1⟩ := e1
      refine ⟨t1, g1, e1, ?_, ?_⟩
      · simpa only [node_next] using hk
      · intro hn
        simp only [node_next] at hn
        subst hn
        simp only [gen_code_r, Except.ok.injEq, Prod.mk.injEq] at hk
        rw [← hk.2]
  | Ast.cond a (Ast.block ca cval cblock_next cnext) body next, t', g, g', a', ha, hd, h => by
    simp only [node_attr, Option.some.injEq] at ha
    subst ha
    simp only [gen_code_r, hd] at h
    obtain ⟨x, g1, n, hr, hk, rfl⟩ := finish_node_discard _ _ _ _ _ h
    have e1 : ∃ t1, gen_code_r (detached (Ast.cond a (Ast.block ca cval cblock_next cnext) body next)) g = Except.ok (t1, g1) :=
      ⟨_, by simp only [detached, gen_code_r]; exact finish_node_detached _ _ _ _ hr⟩
    obtain ⟨t1, e1⟩ := e1
    refine ⟨t1, g1, e1, ?_, ?_⟩
    · simpa only [node_next] using hk
    · intro hn
      simp only [node_next] at hn
      subst hn
      simp only [gen_code_r, Except.ok.injEq, Prod.mk.injEq] at hk
      rw [← hk.2]
  | Ast.cond a (Ast.function ca cname cargs cbody cnext) body next, t', g, g', a', ha, hd, h => by
    simp only [node_attr, Option.some.injEq] at ha
    subst ha
    simp only [gen_code_r, hd] at h
    obtain ⟨x, g1, n, hr, hk, rfl⟩ := finish_node_discard _ _ _ _ _ h
    have e1 : ∃ t1, gen_code_r (detached (Ast.cond a (Ast.function ca cname cargs cbody cnext) body next)) g = Except.ok (t1, g1) :=
      ⟨_, by simp only [detached, gen_code_r]; exact finish_node_detached _ _ _ _ hr⟩
    obtain ⟨t1, e1⟩ := e1
    refine ⟨t1, g1, e1, ?_, ?_⟩
    · simpa only [node_next] using hk
    · intro hn
      simp only [node_next] at hn
      subst hn
      simp only [gen_code_r, Except.ok.injEq, Prod.mk.injEq] at hk
      rw [← hk.2]
  | Ast.cond a (Ast.ret ca cval cnext) body next, t', g, g', a', ha, hd, h => by
    simp only [node_attr, Option.some.injEq] at ha
    subst ha
    simp only [gen_code_r, hd] at h
    obtain ⟨x, g1, n, hr, hk, rfl⟩ := finish_node_discard _ _ _ _ _ h
    have e1 : ∃ t1, gen_code_r (detached (Ast.cond a (Ast.ret ca cval cnext) body next)) g = Except.ok (t1, g1) :=
      ⟨_, by simp only [detached, gen_code_r]; exact finish_node_detached _ _ _ _ hr⟩
    obtain ⟨t1, e1⟩ := e1
    refine ⟨t1, g1, e1, ?_, ?_⟩
    · simpa only [node_next] using hk
    · intro hn
      simp only [node_next] at hn
      subst hn
      simp only [gen_code_r, Except.ok.injEq, Prod.mk.injEq] at hk
      rw [← hk.2]
  | Ast.cond a (Ast.cond ca ccond cbody cnext) body next, t', g, g', a', ha, hd, h => by
    simp only [node_attr, Option.some.injEq] at ha
    subst ha
    simp only [gen_code_r, hd] at h
    obtain ⟨x, g1, n, hr, hk, rfl⟩ := finish_node_discard _ _ _ _ _ h
    have e1 : ∃ t1, gen_code_r (detached (Ast.cond a (Ast.cond ca ccond cbody cnext) body next)) g = Except.ok (t1, g1) :=
      ⟨_, by simp only [detached, gen_code_r]; exact finish_node_detached _ _ _ _ hr⟩
    obtain ⟨t1, e1⟩ := e1
    refine ⟨t1, g1, e1, ?_, ?_⟩
    · simpa only [node_next] using hk
    · intro hn
      simp only [node_next] at hn
      subst hn
      simp only [gen_code_r, Except.ok.injEq, Prod.mk.injEq] at hk
      rw [← hk.2]
  | Ast.cond a (Ast.label ca cname cstuff cnext) body next, t', g, g', a', ha, hd, h => by
    simp only [node_attr, Option.some.injEq] at ha
    subst ha
    simp only [gen_code_r, hd] at h
    obtain ⟨x, g1, n, hr, hk, rfl⟩ := finish_node_discard _ _ _ _ _ h
    have e1 : ∃ t1, gen_code_r (detached (Ast.cond a (Ast.label ca cname cstuff cnext) body next)) g = Except.ok (t1, g1) :=
      ⟨_, by simp only [detached, gen_code_r]; exact finish_node_detached _ _ _ _ hr⟩
    obtain ⟨t1, e1⟩ := e1
    refine ⟨t1, g1, e1, ?_, ?_⟩
    · simpa only [node_next] using hk
    · intro hn
      simp only [node_next] at hn
      subst hn
      simp only [gen_code_r, Except.ok.injEq, Prod.mk.injEq] at hk
      rw [← hk.2]
  | Ast.cond a (Ast.jump ca cname cnext) body next, t', g, g', a', ha, hd, h => by
    simp only [node_attr, Option.some.injEq] at ha
    subst ha
    simp only [gen_code_r, hd] at h
    obtain ⟨x, g1, n, hr, hk, rfl⟩ := finish_node_discard _ _ _ _ _ h
    have e1 : ∃ t1, gen_code_r (detached (Ast.cond a (Ast.jump ca cname cnext) body next)) g = Except.ok (t1, g1) :=
      ⟨_, by simp only [detached, gen_code_r]; exact finish_node_detached _ _ _ _ hr⟩
    obtain ⟨t1, e1⟩ := e1
    refine ⟨t1, g1, e1, ?_, ?_⟩
    · simpa only [node_next] using hk
    · intro hn
      simp only [node_next] at hn
      subst hn
      simp only [gen_code_r, Except.ok.injEq, Prod.mk.injEq] at hk
      rw [← hk.2]
  | Ast.cond a (Ast.integer ca ci cnext) body next, t', g, g', a', ha, hd, h => by
    simp only [node_attr, Option.some.injEq] at ha
    subst ha
    simp only [gen_code_r, hd] at h
    obtain ⟨x, g1, n, hr, hk, rfl⟩ := finish_node_discard _ _ _ _ _ h
    have e1 : ∃ t1, gen_code_r (detached (Ast.cond a (Ast.integer ca ci cnext) body next)) g = Except.ok (t1, g1) :=
      ⟨_, by simp only [detached, gen_code_r]; exact finish_node_detached _ _ _ _ hr⟩
    obtain ⟨t1, e1⟩ := e1
    refine ⟨t1, g1, e1, ?_, ?_⟩
    · simpa only [node_next] using hk
    · intro hn
      simp only [node_next] at hn
      subst hn
      simp only [gen_code_r, Except.ok.injEq, Prod.mk.injEq] at hk
      rw [← hk.2]
  | Ast.cond a (Ast.variable ca cname ctype calloc cnext) body next, t', g, g', a', ha, hd, h => by
    simp only [node_attr, Option.some.injEq] at ha
    subst ha
    simp only [gen_code_r, hd] at h
    obtain ⟨x, g1, n, hr, hk, rfl⟩ := finish_node_discard _ _ _ _ _ h
    have e1 : ∃ t1, gen_code_r (detached (Ast.cond a (Ast.variable ca cname ctype calloc cnext) body next)) g = Except.ok (t1, g1) :=
      ⟨_, by simp only [detached, gen_code_r]; exact finish_node_detached _ _ _ _ hr⟩
    obtain ⟨t1, e1⟩ := e1
    refine ⟨t1, g1, e1, ?_, ?_⟩
    · simpa only [node_next] using hk
    · intro hn
      simp only [node_next] at hn
      subst hn
      simp only [gen_code_r, Except.ok.injEq, Prod.mk.injEq] at hk
      rw [← hk.2]
  | Ast.cond a (Ast.string ca cval cnext) body next, t', g, g', a', ha, hd, h => by
    simp only [node_attr, Option.some.injEq] at ha
    subst ha
    simp only [gen_code_r, hd] at h
    obtain ⟨x, g1, n, hr, hk, rfl⟩ := finish_node_discard _ _ _ _ _ h
    have e1 : ∃ t1, gen_code_r (detached (Ast.cond a (Ast.string ca cval cnext) body next)) g = Except.ok (t1, g1) :=
      ⟨_, by simp only [detached, gen_code_r]; exact finish_node_detached _ _ _ _ hr⟩
    obtain ⟨t1, e1⟩ := e1
    refine ⟨t1, g1, e1, ?_, ?_⟩
    · simpa only [node_next] using hk
    · intro hn
      simp only [node_next] at hn
      subst hn
      simp only [gen_code_r, Except.ok.injEq, Prod.mk.injEq] at hk
      rw [← hk.2]
  | Ast.cond a (Ast.unary ca cop carg cnext) body next, t', g, g', a', ha, hd, h => by
    simp only [node_attr, Option.some.injEq] at ha
    subst ha
    simp only [gen_code_r, hd] at h
    obtain ⟨x, g1, n, hr, hk, rfl⟩ := finish_node_discard _ _ _ _ _ h
    have e1 : ∃ t1, gen_code_r (detached (Ast.cond a (Ast.unary ca cop carg cnext) body next)) g = Except.ok (t1, g1) :=
      ⟨_, by simp only [detached, gen_code_r]; exact finish_node_detached _ _ _ _ hr⟩
    obtain ⟨t1, e1⟩ := e1
    refine ⟨t1, g1, e1, ?_, ?_⟩
    · simpa only [node_next] using hk
    · intro hn
      simp only [node_next] at hn
      subst hn
      simp only [gen_code_r, Except.ok.injEq, Prod.mk.injEq] at hk
      rw [← hk.2]
  | Ast.cond a (Ast.crement ca cval cnext) body next, t', g, g', a', ha, hd, h => by
    simp only [node_attr, Option.some.injEq] at ha
    subst ha
    simp only [gen_code_r, hd] at h
    obtain ⟨x, g1, n, hr, hk, rfl⟩ := finish_node_discard _ _ _ _ _ h
    have e1 : ∃ t1, gen_code_r (detached (Ast.cond a (Ast.crement ca cval cnext) body next)) g = Except.ok (t1, g1) :=
      ⟨_, by simp only [detached, gen_code_r]; exact finish_node_detached _ _ _ _ hr⟩
    obtain ⟨t1, e1⟩ := e1
    refine ⟨t1, g1, e1, ?_, ?_⟩
    · simpa only [node_next] using hk
    · intro hn
      simp only [node_next] at hn
      subst hn
      simp only [gen_code_r, Except.ok.injEq, Prod.mk.injEq] at hk
      rw [← hk.2]
  | Ast.cond a (Ast.function_call ca cname cargs cnext) body next, t', g, g', a', ha, hd, h => by
    simp only [node_attr, Option.some.injEq] at ha
    subst ha
    simp only [gen_code_r, hd] at h
    obtain ⟨x, g1, n, hr, hk, rfl⟩ := finish_node_discard _ _ _ _ _ h
    have e1 : ∃ t1, gen_code_r (detached (Ast.cond a (Ast.function_call ca cname cargs cnext) body next)) g = Except.ok (t1, g1) :=
      ⟨_, by simp only [detached, gen_code_r]; exact finish_node_detached _ _ _ _ hr⟩
    obtain ⟨t1, e1⟩ := e1
    refine ⟨t1, g1, e1, ?_, ?_⟩
    · simpa only [node_next] using hk
    · intro hn
      simp only [node_next] at hn
      subst hn
      simp only [gen_code_r, Except.ok.injEq, Prod.mk.injEq] at hk
      rw [← hk.2]
  | Ast.cond a (Ast.statement ca cval cnext) body next, t', g, g', a', ha, hd, h => by
    simp only [node_attr, Option.some.injEq] at ha
    subst ha
    simp only [gen_code_r, hd] at h
    obtain ⟨x, g1, n, hr, hk, rfl⟩ := finish_node_discard _ _ _ _ _ h
    have e1 : ∃ t1, gen_code_r (detached (Ast.cond a (Ast.statement ca cval cnext) body next)) g = Except.ok (t1, g1) :=
      ⟨_, by simp only [detached, gen_code_r]; exact finish_node_detached _ _ _ _ hr⟩
    obtain ⟨t1, e1⟩ := e1
    refine ⟨t1, g1, e1, ?_, ?_⟩
    · simpa only [node_next] using hk
    · intro hn
      simp only [node_next] at hn
      subst hn
      simp only [gen_code_r, Except.ok.injEq, Prod.mk.injEq] at hk
      rw [← hk.2]
  | Ast.cond a (Ast.alloc ca csize cnext) body next, t', g, g', a', ha, hd, h => by
    simp only [node_attr, Option.some.injEq] at ha
    subst ha
    simp only [gen_code_r, hd] at h
    obtain ⟨x, g1, n, hr, hk, rfl⟩ := finish_node_discard _ _ _ _ _ h
    have e1 : ∃ t1, gen_code_r (detached (Ast.cond a (Ast.alloc ca csize cnext) body next)) g = Except.ok (t1, g1) :=
      ⟨_, by simp only [detached, gen_code_r]; exact finish_node_detached _ _ _ _ hr⟩
    obtain ⟨t1, e1⟩ := e1
    refine ⟨t1, g1, e1, ?_, ?_⟩
    · simpa only [node_next] using hk
    · intro hn
      simp only [node_next] at hn
      subst hn
      simp only [gen_code_r, Except.ok.injEq, Prod.mk.injEq] at hk
      rw [← hk.2]

/-- The statement `1 + 2;` entered at the depth 5: its own code takes a
register and leaves the depth 6, and the run returns with the depth 0. -/
theorem gen_code_r_discardable_witness :
    node_attr discarded_sum = some discarded_sum_attr ∧
    discarded_sum_attr.throw_away = true ∧
    (∃ t1, gen_code_r (detached discarded_sum) { GState.start with avail := 5 } =
      Except.ok (t1, discarded_sum_state)) ∧
    discarded_sum_state.avail = 6 ∧
    ∃ t' g', gen_code_r discarded_sum { GState.start with avail := 5 } = Except.ok (t', g') ∧
      g'.avail = 0 :=
  ⟨rfl, rfl, ⟨_, rfl⟩, rfl, _, _, rfl,
    (gen_code_r_discardable discarded_sum _ { GState.start with avail := 5 } _
      discarded_sum_attr rfl rfl rfl).choose_spec.choose_spec.2.2 rfl⟩

/-! ## The code generator: the operator switches -/

set_option linter.unusedTactic false
set_option linter.unreachableTactic false
set_option linter.unnecessarySeqFocus false

/-- No run of `CHECK_BOUNDS` ends at the `default` case of an operator switch. -/
theorem plain_check_bounds (len : Nat) (a : Int) : plain (CHECK_BOUNDS len a) := by
  intro e h
  unfold CHECK_BOUNDS at h
  (repeat' split at h) <;>
  first
  | (cases h <;> first | rfl)

/-- No run of `regis` ends at the `default` case of an operator switch. -/
theorem plain_regis (a : Int) : plain (regis a) := by
  intro e h
  unfold regis at h
  (repeat' split at h) <;>
  first
  | exact plain_check_bounds _ _ _ h
  | (cases h <;> first | rfl | exact plain_check_bounds _ _ _ (by assumption))

/-- No run of `general_regis` ends at the `default` case of an operator switch. -/
theorem plain_general_regis (a : Int) : plain (general_regis a) := by
  intro e h
  unfold general_regis at h
  (repeat' split at h) <;>
  first
  | exact plain_check_bounds _ _ _ h
  | (cases h <;> first | rfl | exact plain_check_bounds _ _ _ (by assumption))

/-- No run of `call_regis` ends at the `default` case of an operator switch. -/
theorem plain_call_regis (a : Int) : plain (call_regis a) := by
  intro e h
  unfold call_regis at h
  (repeat' split at h) <;>
  first
  | exact plain_check_bounds _ _ _ h
  | (cases h <;> first | rfl | exact plain_check_bounds _ _ _ (by assumption))

/-- No run of `ALLOC_REGISTER` ends at the `default` case of an operator switch. -/
theorem plain_alloc_register (g : GState) : plain (ALLOC_REGISTER g) := by
  intro e h
  unfold ALLOC_REGISTER at h
  (repeat' split at h) <;>
  first
  | exact plain_general_regis _ _ h
  | exact plain_regis _ _ h
  | (cases h <;> first | rfl | exact plain_general_regis _ _ (by assumption) | exact plain_regis _ _ (by assumption))

/-- No run of `VALID_REGISTER_CHECK` ends at the `default` case of an operator switch. -/
theorem plain_valid_register_check (s : Option String) (g : GState) : plain (VALID_REGISTER_CHECK s g) := by
  intro e h
  unfold VALID_REGISTER_CHECK at h
  (repeat' split at h) <;>
  first
  | exact plain_general_regis _ _ h
  | exact plain_regis _ _ h
  | (cases h <;> first | rfl | exact plain_general_regis _ _ (by assumption) | exact plain_regis _ _ (by assumption))

/-- No run of `FREE_LOC_HOOK` ends at the `default` case of an operator switch. -/
theorem plain_free_loc_hook (x : Loc) (g : GState) : plain (FREE_LOC_HOOK x g) := by
  intro e h
  unfold FREE_LOC_HOOK at h
  by_cases c1 : (IS_REGISTER x || IS_MEMORY x) = true
  · rw [if_pos c1] at h
    have key : ∀ g1 : GState,
        (match VALID_REGISTER_CHECK x.base g1 with
          | Except.error e => Except.error e
          | Except.ok true => Except.ok { g1 with avail := g1.avail - 1 }
          | Except.ok false => Except.ok g1) = Except.error e → operator_fatal e = false := by
      intro g1 h1
      cases hv : VALID_REGISTER_CHECK x.base g1 with
      | error e1 =>
        rw [hv] at h1
        cases h1
        exact plain_valid_register_check _ _ _ hv
      | ok b =>
        rw [hv] at h1
        cases b <;> cases h1
    by_cases c2 : IS_MEMORY x = true
    · rw [if_pos c2] at h
      cases hv : VALID_REGISTER_CHECK x.index g with
      | error e1 =>
        rw [hv] at h
        cases h
        exact plain_valid_register_check _ _ _ hv
      | ok b =>
        rw [hv] at h
        cases b
        · exact key _ h
        · exact key _ h
    · rw [if_neg c2] at h
      exact key _ h
  · rw [if_neg c1] at h
    cases h

/-- No run of `FREE_LOC` ends at the `default` case of an operator switch. -/
theorem plain_free_loc (x : Option Loc) (g : GState) : plain (FREE_LOC x g) := by
  intro e h
  unfold FREE_LOC at h
  (repeat' split at h) <;>
  first
  | exact plain_free_loc_hook _ _ _ h
  | (cases h <;> first | rfl | exact plain_free_loc_hook _ _ _ (by assumption))

/-- No run of `MOVE_LOC_WITH` ends at the `default` case of an operator switch. -/
theorem plain_move_loc_with (op : String) (x : Option Loc) (y : Loc) (g : GState) : plain (MOVE_LOC_WITH op x y g) := by
  intro e h
  unfold MOVE_LOC_WITH at h
  (repeat' split at h) <;>
  first
  | exact plain_free_loc _ _ _ h
  | (cases h <;> first | rfl | exact plain_free_loc _ _ _ (by assumption))

/-- No run of `GIVE_REGISTER_HOW` ends at the `default` case of an operator switch. -/
theorem plain_give_register_how (i : String) (s : Loc) (g : GState) :
    plain (GIVE_REGISTER_HOW i s g) := by
  intro e h
  unfold GIVE_REGISTER_HOW at h
  dsimp only at h
  split at h
  · rename_i e1 hp
    cases h
    (repeat' split at hp) <;> cases hp <;> rfl
  · split at h
    · rename_i e1 hq
      cases h
      split at hq
      · cases hq
      · exact plain_alloc_register _ _ hq
    · split at h
      · cases h
        exact plain_move_loc_with _ _ _ _ _ (by assumption)
      · cases h

/-- No run of `GIVE_REGISTER` ends at the `default` case of an operator switch. -/
theorem plain_give_register (s : Loc) (g : GState) : plain (GIVE_REGISTER s g) :=
  plain_give_register_how "mov" s g

/-- No run of `ENSURE_DESTINATION_REGISTER1` ends at the `default` case of an operator switch. -/
theorem plain_ensure1 (x y : Loc) (g : GState) : plain (ENSURE_DESTINATION_REGISTER1 x y g) := by
  intro e h
  unfold ENSURE_DESTINATION_REGISTER1 at h
  (repeat' split at h) <;>
  first
  | exact plain_give_register _ _ _ h
  | (cases h <;> first | rfl | exact plain_give_register _ _ _ (by assumption))

/-- No run of `ENSURE_DESTINATION_REGISTER2` ends at the `default` case of an operator switch. -/
theorem plain_ensure2 (x y : Loc) (g : GState) : plain (ENSURE_DESTINATION_REGISTER2 x y g) := by
  intro e h
  unfold ENSURE_DESTINATION_REGISTER2 at h
  (repeat' split at h) <;>
  first
  | exact plain_give_register _ _ _ h
  | exact plain_move_loc_with _ _ _ _ _ h
  | (cases h <;> first | rfl | exact plain_give_register _ _ _ (by assumption) | exact plain_move_loc_with _ _ _ _ _ (by assumption))

/-- No run of `ENSURE_DESTINATION_REGISTER3` ends at the `default` case of an operator switch. -/
theorem plain_ensure3 (x y : Loc) (g : GState) : plain (ENSURE_DESTINATION_REGISTER3 x y g) := by
  intro e h
  unfold ENSURE_DESTINATION_REGISTER3 at h
  try dsimp only at h
  (repeat' split at h) <;>
  first
  | exact plain_give_register _ _ _ h
  | exact plain_move_loc_with _ _ _ _ _ h
  | (cases h <;>
      first
      | rfl
      | exact plain_give_register _ _ _ (by assumption)
      | exact plain_move_loc_with _ _ _ _ _ (by assumption)
      | (rename_i hq
         (repeat' split at hq) <;>
         first
         | exact plain_give_register _ _ _ hq
         | exact plain_move_loc_with _ _ _ _ _ hq
         | (cases hq <;>
             first
             | rfl
             | exact plain_give_register _ _ _ (by assumption)
             | exact plain_move_loc_with _ _ _ _ _ (by assumption))))

/-- No run of `ENSURE_DESTINATION_REGISTER4` ends at the `default` case of an operator switch. -/
theorem plain_ensure4 (x y : Loc) (g : GState) : plain (ENSURE_DESTINATION_REGISTER4 x y g) := by
  intro e h
  unfold ENSURE_DESTINATION_REGISTER4 at h
  (repeat' split at h) <;>
  first
  | exact plain_give_register _ _ _ h
  | exact plain_ensure2 _ _ _ _ h
  | (cases h <;> first | rfl | exact plain_give_register _ _ _ (by assumption) | exact plain_ensure2 _ _ _ _ (by assumption))

/-- No run of `ENSURE_DESTINATION_REGISTER_UNI` ends at the `default` case of an operator switch. -/
theorem plain_ensure_uni (x : Loc) (g : GState) : plain (ENSURE_DESTINATION_REGISTER_UNI x g) := by
  intro e h
  unfold ENSURE_DESTINATION_REGISTER_UNI at h
  (repeat' split at h) <;>
  first
  | exact plain_give_register _ _ _ h
  | (cases h <;> first | rfl | exact plain_give_register _ _ _ (by assumption))

/-- No run of `binary_mul_div` ends at the `default` case of an operator switch. -/
theorem plain_binary_mul_div (op result : String) (sloc from_loc : Loc) (g : GState) : plain (binary_mul_div op result sloc from_loc g) := by
  intro e h
  unfold binary_mul_div at h
  try dsimp only at h
  (repeat' split at h) <;>
  first
  | exact plain_give_register _ _ _ h
  | exact plain_move_loc_with _ _ _ _ _ h
  | exact plain_free_loc _ _ _ h
  | (cases h <;>
      first
      | rfl
      | exact plain_give_register _ _ _ (by assumption)
      | exact plain_move_loc_with _ _ _ _ _ (by assumption)
      | exact plain_free_loc _ _ _ (by assumption)
      | (rename_i hq
         (repeat' split at hq) <;>
         first
         | exact plain_give_register _ _ _ hq
         | exact plain_move_loc_with _ _ _ _ _ hq
         | exact plain_free_loc _ _ _ hq
         | (cases hq <;>
             first
             | rfl
             | exact plain_give_register _ _ _ (by assumption)
             | exact plain_move_loc_with _ _ _ _ _ (by assumption)
             | exact plain_free_loc _ _ _ (by assumption))))

/-- No run of `unary_crement` ends at the `default` case of an operator switch. -/
theorem plain_unary_crement (op : String) (keep_old : Bool) (sloc arg : Loc) (g : GState) : plain (unary_crement op keep_old sloc arg g) := by
  intro e h
  unfold unary_crement at h
  try dsimp only at h
  (repeat' split at h) <;>
  first
  | exact plain_give_register _ _ _ h
  | (cases h <;>
      first
      | rfl
      | exact plain_give_register _ _ _ (by assumption)
      | (rename_i hq
         (repeat' split at hq) <;>
         first
         | exact plain_give_register _ _ _ hq
         | (cases hq <;>
             first
             | rfl
             | exact plain_give_register _ _ _ (by assumption))))


/-- No run of `binary_two_operand` ends at the `default` case of an operator
switch, when none of `ensure` does. -/
theorem plain_binary_two_operand
    (ensure : Loc → Loc → GState → Except Fatal (Loc × Loc × GState))
    (hens : ∀ x y g, plain (ensure x y g)) (op : String) (sloc from_loc : Loc) (g : GState) :
    plain (binary_two_operand ensure op sloc from_loc g) := by
  intro e h
  unfold binary_two_operand at h
  split at h
  · cases h
    exact hens _ _ _ _ (by assumption)
  · cases h

/-- The case of `&`, `|`, `^` and `+` does not end at a `default` case. -/
theorem plain_two_operand1 (op : String) (sloc from_loc : Loc) (g : GState) :
    plain (binary_two_operand ENSURE_DESTINATION_REGISTER1 op sloc from_loc g) :=
  plain_binary_two_operand _ plain_ensure1 op sloc from_loc g

/-- The case of `-` does not end at a `default` case. -/
theorem plain_two_operand2 (op : String) (sloc from_loc : Loc) (g : GState) :
    plain (binary_two_operand ENSURE_DESTINATION_REGISTER2 op sloc from_loc g) :=
  plain_binary_two_operand _ plain_ensure2 op sloc from_loc g

/-- The case of `>>` and `<<` does not end at a `default` case. -/
theorem plain_two_operand3 (op : String) (sloc from_loc : Loc) (g : GState) :
    plain (binary_two_operand ENSURE_DESTINATION_REGISTER3 op sloc from_loc g) :=
  plain_binary_two_operand _ plain_ensure3 op sloc from_loc g

/-- A run of `gen_code_binary` that ends early ends at an assertion, a bound
or a null pointer, or at the `default` case with the operator of the node, which
is then none of `binary_operators`. -/
theorem gen_code_binary_fatal (op : Int) (l r : Loc) (g : GState) (e : Fatal)
    (h : gen_code_binary op (some l) (some r) g = Except.error e) :
    operator_fatal e = false ∨ (e = Fatal.invalid_binary op g.out ∧ op ∉ binary_operators) := by
  unfold gen_code_binary at h
  dsimp only at h
  by_cases h1 : op = chr '='
  · left
    rw [if_pos h1] at h
    split at h
    · rename_i e1 hq
      cases h
      split at hq
      · rename_i e2 hq2
        cases hq
        split at hq2
        · exact plain_give_register _ _ _ hq2
        · cases hq2
      · split at hq
        · cases hq
        · cases hq
          rfl
    · split at h
      · cases h
        exact plain_free_loc _ _ _ (by assumption)
      · cases h
  · rw [if_neg h1] at h
    by_cases h2 : op = chr '&'
    · left
      rw [if_pos h2] at h
      split at h
      · cases h
        first
        | exact plain_two_operand1 _ _ _ _ _ (by assumption)
        | exact plain_two_operand2 _ _ _ _ _ (by assumption)
        | exact plain_two_operand3 _ _ _ _ _ (by assumption)
        | exact plain_binary_mul_div _ _ _ _ _ _ (by assumption)
      · split at h
        · cases h
          exact plain_free_loc _ _ _ (by assumption)
        · cases h
    · rw [if_neg h2] at h
      by_cases h3 : op = chr '|'
      · left
        rw [if_pos h3] at h
        split at h
        · cases h
          first
          | exact plain_two_operand1 _ _ _ _ _ (by assumption)
          | exact plain_two_operand2 _ _ _ _ _ (by assumption)
          | exact plain_two_operand3 _ _ _ _ _ (by assumption)
          | exact plain_binary_mul_div _ _ _ _ _ _ (by assumption)
        · split at h
          · cases h
            exact plain_free_loc _ _ _ (by assumption)
          · cases h
      · rw [if_neg h3] at h
        by_cases h4 : op = chr '^'
        · left
          rw [if_pos h4] at h
          split at h
          · cases h
            first
            | exact plain_two_operand1 _ _ _ _ _ (by assumption)
            | exact plain_two_operand2 _ _ _ _ _ (by assumption)
            | exact plain_two_operand3 _ _ _ _ _ (by assumption)
            | exact plain_binary_mul_div _ _ _ _ _ _ (by assumption)
          · split at h
            · cases h
              exact plain_free_loc _ _ _ (by assumption)
            · cases h
        · rw [if_neg h4] at h
          by_cases h5 : op = chr '+'
          · left
            rw [if_pos h5] at h
            split at h
            · cases h
              first
              | exact plain_two_operand1 _ _ _ _ _ (by assumption)
              | exact plain_two_operand2 _ _ _ _ _ (by assumption)
              | exact plain_two_operand3 _ _ _ _ _ (by assumption)
              | exact plain_binary_mul_div _ _ _ _ _ _ (by assumption)
            · split at h
              · cases h
                exact plain_free_loc _ _ _ (by assumption)
              · cases h
          · rw [if_neg h5] at h
            by_cases h6 : op = chr '-'
            · left
              rw [if_pos h6] at h
              split at h
              · cases h
                first
                | exact plain_two_operand1 _ _ _ _ _ (by assumption)
                | exact plain_two_operand2 _ _ _ _ _ (by assumption)
                | exact plain_two_operand3 _ _ _ _ _ (by assumption)
                | exact plain_binary_mul_div _ _ _ _ _ _ (by assumption)
              · split at h
                · cases h
                  exact plain_free_loc _ _ _ (by assumption)
                · cases h
            · rw [if_neg h6] at h
              by_cases h7 : op = chr '*'
              · left
                rw [if_pos h7] at h
                split at h
                · cases h
                  first
                  | exact plain_two_operand1 _ _ _ _ _ (by assumption)
                  | exact plain_two_operand2 _ _ _ _ _ (by assumption)
                  | exact plain_two_operand3 _ _ _ _ _ (by assumption)
                  | exact plain_binary_mul_div _ _ _ _ _ _ (by assumption)
                · split at h
                  · cases h
                    exact plain_free_loc _ _ _ (by assumption)
                  · cases h
              · rw [if_neg h7] at h
                by_cases h8 : op = chr '/'
                · left
                  rw [if_pos h8] at h
                  split at h
                  · cases h
                    first
                    | exact plain_two_operand1 _ _ _ _ _ (by assumption)
                    | exact plain_two_operand2 _ _ _ _ _ (by assumption)
                    | exact plain_two_operand3 _ _ _ _ _ (by assumption)
                    | exact plain_binary_mul_div _ _ _ _ _ _ (by assumption)
                  · split at h
                    · cases h
                      exact plain_free_loc _ _ _ (by assumption)
                    · cases h
                · rw [if_neg h8] at h
                  by_cases h9 : op = chr '%'
                  · left
                    rw [if_pos h9] at h
                    split at h
                    · cases h
                      first
                      | exact plain_two_operand1 _ _ _ _ _ (by assumption)
                      | exact plain_two_operand2 _ _ _ _ _ (by assumption)
                      | exact plain_two_operand3 _ _ _ _ _ (by assumption)
                      | exact plain_binary_mul_div _ _ _ _ _ _ (by assumption)
                    · split at h
                      · cases h
                        exact plain_free_loc _ _ _ (by assumption)
                      · cases h
                  · rw [if_neg h9] at h
                    by_cases h10 : op = RS
                    · left
                      rw [if_pos h10] at h
                      split at h
                      · cases h
                        first
                        | exact plain_two_operand1 _ _ _ _ _ (by assumption)
                        | exact plain_two_operand2 _ _ _ _ _ (by assumption)
                        | exact plain_two_operand3 _ _ _ _ _ (by assumption)
                        | exact plain_binary_mul_div _ _ _ _ _ _ (by assumption)
                      · split at h
                        · cases h
                          exact plain_free_loc _ _ _ (by assumption)
                        · cases h
                    · rw [if_neg h10] at h
                      by_cases h11 : op = LS
                      · left
                        rw [if_pos h11] at h
                        split at h
                        · cases h
                          first
                          | exact plain_two_operand1 _ _ _ _ _ (by assumption)
                          | exact plain_two_operand2 _ _ _ _ _ (by assumption)
                          | exact plain_two_operand3 _ _ _ _ _ (by assumption)
                          | exact plain_binary_mul_div _ _ _ _ _ _ (by assumption)
                        · split at h
                          · cases h
                            exact plain_free_loc _ _ _ (by assumption)
                          · cases h
                      · rw [if_neg h11] at h
                        by_cases h12 : op = chr '['
                        · left
                          rw [if_pos h12] at h
                          split at h
                          · rename_i e1 hq
                            cases h
                            split at hq
                            · cases hq
                              rfl
                            · split at hq
                              · cases hq
                                exact plain_ensure4 _ _ _ _ (by assumption)
                              · cases hq
                          · split at h
                            · cases h
                              exact plain_free_loc _ _ _ (by assumption)
                            · cases h
                        · rw [if_neg h12] at h
                          cases h
                          right
                          refine ⟨rfl, ?_⟩
                          simp only [binary_operators, List.mem_cons, List.mem_singleton, List.not_mem_nil, or_false,
                            not_or]
                          exact ⟨h1, h2, h3, h4, h5, h6, h7, h8, h9, h10, h11, h12⟩

/-- With an operator that is none of `binary_operators`, `gen_code_binary` ends
at the `default` case. -/
theorem gen_code_binary_default (op : Int) (l r : Loc) (g : GState)
    (h : op ∉ binary_operators) :
    gen_code_binary op (some l) (some r) g = Except.error (Fatal.invalid_binary op g.out) := by
  simp only [binary_operators, List.mem_cons, List.mem_singleton, List.not_mem_nil, or_false,
    not_or] at h
  obtain ⟨h1, h2, h3, h4, h5, h6, h7, h8, h9, h10, h11, h12⟩ := h
  unfold gen_code_binary
  dsimp only
  rw [if_neg h1, if_neg h2, if_neg h3, if_neg h4, if_neg h5, if_neg h6, if_neg h7, if_neg h8,
    if_neg h9, if_neg h10, if_neg h11, if_neg h12]

/-- A run of `gen_code_unary` that ends early ends at an assertion, a bound or
a null pointer, or at the `default` case with the operator of the node, which
is then none of `unary_operators`. -/
theorem gen_code_unary_fatal (op : Int) (keep_old : Bool) (l : Loc) (g : GState) (e : Fatal)
    (h : gen_code_unary op keep_old l g = Except.error e) :
    operator_fatal e = false ∨ (e = Fatal.invalid_unary op g.out ∧ op ∉ unary_operators) := by
  unfold gen_code_unary at h
  by_cases h1 : op = chr '*'
  · left
    rw [if_pos h1] at h
    split at h
    · cases h
      exact plain_ensure_uni _ _ _ (by assumption)
    · cases h
  · rw [if_neg h1] at h
    by_cases h2 : op = chr '&'
    · left
      rw [if_pos h2] at h
      split at h
      · exact plain_give_register_how _ _ _ _ h
      · split at h
        · cases h
        · cases h
          rfl
    · rw [if_neg h2] at h
      by_cases h3 : op = chr '-'
      · left
        rw [if_pos h3] at h
        split at h
        · cases h
          exact plain_ensure_uni _ _ _ (by assumption)
        · cases h
      · rw [if_neg h3] at h
        by_cases h4 : op = INC
        · left
          rw [if_pos h4] at h
          exact plain_unary_crement _ _ _ _ _ _ h
        · rw [if_neg h4] at h
          by_cases h5 : op = DEC
          · left
            rw [if_pos h5] at h
            exact plain_unary_crement _ _ _ _ _ _ h
          · rw [if_neg h5] at h
            cases h
            right
            refine ⟨rfl, ?_⟩
            simp only [unary_operators, List.mem_cons, List.mem_singleton, List.not_mem_nil,
              or_false, not_or]
            exact ⟨h1, h2, h3, h4, h5⟩

/-- With an operator that is none of `unary_operators`, `gen_code_unary` ends at
the `default` case. -/
theorem gen_code_unary_default (op : Int) (keep_old : Bool) (l : Loc) (g : GState)
    (h : op ∉ unary_operators) :
    gen_code_unary op keep_old l g = Except.error (Fatal.invalid_unary op g.out) := by
  simp only [unary_operators, List.mem_cons, List.mem_singleton, List.not_mem_nil, or_false,
    not_or] at h
  obtain ⟨h1, h2, h3, h4, h5⟩ := h
  unfold gen_code_unary
  rw [if_neg h1, if_neg h2, if_neg h3, if_neg h4, if_neg h5]

/-- Claim C16: once both operands have been generated and hold a location,
`gen_code_binary` ends the run at its `default` case, with the operator code
in the error, exactly when the operator is none of `= & | ^ + - * / % >> << [`,
so that a comparison operator does so; once the operand has been generated and
holds a location, `gen_code_unary` ends the run at its `default` case exactly
when the operator is none of `* & - ++ --`.  The lines on `outfile` are then
those that stood there when the operands had been generated: none is written
for the node.  Either function, from its entry on, ends so when the operands
are generated without an early end and hold a location. -/
theorem invalid_operator_is_fatal (op : Int) (keep_old : Bool) (l r : Loc) (g : GState) :
    ((∃ c w, gen_code_binary op (some l) (some r) g =
        Except.error (Fatal.invalid_binary c w)) ↔ op ∉ binary_operators) ∧
    (op ∉ binary_operators →
      gen_code_binary op (some l) (some r) g = Except.error (Fatal.invalid_binary op g.out)) ∧
    (op ∈ [chr '<', chr '>', GE, LE, EQ, NE] →
      gen_code_binary op (some l) (some r) g = Except.error (Fatal.invalid_binary op g.out)) ∧
    ((∃ c w, gen_code_unary op keep_old l g = Except.error (Fatal.invalid_unary c w)) ↔
      op ∉ unary_operators) ∧
    (op ∉ unary_operators →
      gen_code_unary op keep_old l g = Except.error (Fatal.invalid_unary op g.out)) ∧
    (∀ (gen_left gen_right : GState → Except Fatal (Ast Loc × GState)) (x y : Ast Loc)
        (g1 g2 : GState),
      gen_left g = Except.ok (x, g1) → assert_loc x = Except.ok l →
      gen_right g1 = Except.ok (y, g2) → assert_loc y = Except.ok r →
      op ∉ binary_operators →
      binary_node op gen_left gen_right g = Except.error (Fatal.invalid_binary op g2.out)) ∧
    (∀ (gen_arg : GState → Except Fatal (Ast Loc × GState)) (x : Ast Loc) (g1 : GState),
      gen_arg g = Except.ok (x, g1) → deref_loc x = Except.ok l →
      op ∉ unary_operators →
      unary_node op keep_old gen_arg g = Except.error (Fatal.invalid_unary op g1.out)) := by
  refine ⟨⟨?_, ?_⟩, ?_, ?_, ⟨?_, ?_⟩, ?_, ?_, ?_⟩
  · rintro ⟨c, w, hc⟩
    rcases gen_code_binary_fatal op l r g _ hc with h | h
    · exact absurd h (by simp [operator_fatal])
    · exact h.2
  · intro h
    exact ⟨op, g.out, gen_code_binary_default op l r g h⟩
  · exact gen_code_binary_default op l r g
  · intro h
    apply gen_code_binary_default
    simp only [List.mem_cons, List.mem_singleton, List.not_mem_nil, or_false] at h
    rcases h with h | h | h | h | h | h <;> subst h <;> decide
  · rintro ⟨c, w, hc⟩
    rcases gen_code_unary_fatal op keep_old l g _ hc with h | h
    · exact absurd h (by simp [operator_fatal])
    · exact h.2
  · intro h
    exact ⟨op, g.out, gen_code_unary_default op keep_old l g h⟩
  · exact gen_code_unary_default op keep_old l g
  · intro gen_left gen_right x y g1 g2 h1 h2 h3 h4 h5
    simp only [binary_node, h1, h2, h3, h4, gen_code_binary_default op l r g2 h5]
  · intro gen_arg x g1 h1 h2 h3
    simp only [unary_node, h1, h2, gen_code_unary_default op keep_old l g1 h3]

/-- The comparison `1 < 2` as a value and the unary `!` on `1`: both end the
run at the `default` case, with the codes 60 and 33 and nothing written. -/
theorem invalid_operator_is_fatal_witness :
    chr '<' ∉ binary_operators ∧ chr '!' ∉ unary_operators ∧
    gen_code_binary (chr '<') (some (integer_loc 1)) (some (integer_loc 2)) GState.start =
      Except.error (Fatal.invalid_binary 60 []) ∧
    gen_code_unary (chr '!') false (integer_loc 1) GState.start =
      Except.error (Fatal.invalid_unary 33 []) :=
  ⟨by decide, by decide,
    (invalid_operator_is_fatal (chr '<') false (integer_loc 1) (integer_loc 2)
      GState.start).2.1 (by decide),
    (invalid_operator_is_fatal (chr '!') false (integer_loc 1) (integer_loc 2)
      GState.start).2.2.2.2.1 (by decide)⟩

/-! ## The depth at zero, the shifts and the entry point of the code generator -/

/-- Claim C26 fails: at the depth 0, `VALID_REGISTER_CHECK` compares with the
first register of the pool, so that freeing the register `%rbx` or the memory
operand `(%rbx)` leaves the depth -1, at which the next allocation ends the run.
A sequence of one allocation, the reset at a discardable node and one free does
it: the run of `gen_code` on `return a + b;`, the sum carrying the
discard-registers flag, completes with the depth -1. -/
theorem free_at_depth_zero_goes_negative :
    FREE_LOC_HOOK (MAKE_BASE_LOC loc_kind.register_loc "%rbx") GState.start =
      Except.ok { GState.start with avail := -1 } ∧
    FREE_LOC_HOOK (indirect_loc "%rbx") GState.start =
      Except.ok { GState.start with avail := -1 } ∧
    ALLOC_REGISTER { GState.start with avail := -1 } = Except.error Fatal.bounds ∧
    gen_code_output return_flagged_sum =
      some ("\tmov\t-8(%rbp), %rbx\n\tadd\t-16(%rbp), %rbx\n\tmov\t%rbx, %rax\n" ++
        "\tmov\t%rbp, %rsp\n\tpop\t%rbp\n\tret\n\t.data\n", -1) := by
  refine ⟨?_, ?_, ?_, ?_⟩
  · rfl
  · rfl
  · rfl
  · decide

/-- Claim C27 fails for the shifts: `ENSURE_DESTINATION_REGISTER3` moves the
left operand into a register only when it is a literal, so that for a variable
in its stack slot the shift instruction has the slot as its destination:
`a >> 1` writes `shr $1, -8(%rbp)`, `a << b` writes `mov -16(%rbp), %rcx` and
`shl %cl, -8(%rbp)`, and `return a >> 1;` returns the slot it has just
changed. -/
theorem shift_writes_memory :
    gen_code_binary RS (some (slot_loc 8)) (some (integer_loc 1)) GState.start =
      Except.ok (slot_loc 8,
        { GState.start with out := [Instr.two "shr" (integer_loc 1) (slot_loc 8)] }) ∧
    writes_memory (Instr.two "shr" (integer_loc 1) (slot_loc 8)) = true ∧
    gen_code_output shift_by_variable =
      some ("\tmov\t-16(%rbp), %rcx\n\tshl\t%cl, -8(%rbp)\n\t.data\n", 0) ∧
    gen_code_output return_shifted =
      some ("\tshr\t$1, -8(%rbp)\n\tmov\t-8(%rbp), %rax\n" ++
        "\tmov\t%rbp, %rsp\n\tpop\t%rbp\n\tret\n\t.data\n", 0) := by
  refine ⟨?_, ?_, ?_, ?_⟩
  · rfl
  · rfl
  · decide
  · decide

/-- Claim C23: `gen_code` sets the register depth, the counter of string labels
and the branch counter to 0 and the data buffer to the `.data` directive before
it walks the tree, so that what it returns and writes after the lines already
on `outfile` is the same whatever these four globals held: it is the walk from
the depth 0 and the counter 0, followed by the data buffer.  A string literal
met with the counter 0 is given the label `.LS0`. -/
theorem gen_code_forgets_earlier_run (s : Ast Loc) (avail str_labelno branch_labelno : Int)
    (data_section : String) (out : List Instr) :
    gen_code s (left_behind avail str_labelno branch_labelno data_section out) =
      gen_code s { GState.start with out := out } ∧
    gen_code s (left_behind avail str_labelno branch_labelno data_section out) =
      (match gen_code_r s { GState.start with out := out } with
        | Except.error e => Except.error e
        | Except.ok (t, g1) => Except.ok (t, PUT (Instr.text g1.data_section) g1)) ∧
    ({ GState.start with out := out } : GState).avail = 0 ∧
    ({ GState.start with out := out } : GState).str_labelno = 0 ∧
    (∀ val : Option String,
      (string_node none val { GState.start with out := out }).1 =
        MAKE_BASE_LOC loc_kind.symbol_loc ".LS0") ∧
    (match gen_code string_hi (left_behind avail str_labelno branch_labelno data_section []) with
      | Except.error _ => none
      | Except.ok (_, g) => some (String.join (g.out.map Instr.render))) =
      some "\t.data\n.LS0:\n\t.string\t\"hi\"\n" := by
  refine ⟨rfl, rfl, rfl, rfl, ?_, ?_⟩
  · intro val
    cases val <;> rfl
  · show (match gen_code string_hi { GState.start with out := [] } with
      | Except.error _ => none
      | Except.ok (_, g) => some (String.join (g.out.map Instr.render))) = _
    decide

/-! ## The optimizer leaves non-literal operands alone -/

/-- A tree without integer literal is no integer literal. -/
theorem no_integer_not_integer {L : Type} (t : Ast L) (h : no_integer t = true) :
    is_integer t = false := by
  cases t <;> first | rfl | (simp only [no_integer] at h; exact absurd h (by decide))

/-- The conditional case keeps a conditional whose condition is no literal. -/
theorem fold_cond_keeps {L : Type} (a : Attr L) (c b next : Ast L)
    (h1 : is_null c = false) (h2 : is_integer c = false) :
    fold_cond a c b next = some (Ast.cond a c b next) := by
  cases c <;> first | rfl | (simp [is_null] at h1; done) | (simp [is_integer] at h2; done)

/-- The macro `FOLD_INTEGER_BIN` keeps a node whose left operand is no literal. -/
theorem fold_integer_bin_keeps {L : Type} (f : Int → Int → Option Int) (a : Attr L) (op : Int)
    (l r next : Ast L) (h1 : is_null l = false) (h2 : is_integer l = false) :
    FOLD_INTEGER_BIN f a op l r next = some (Ast.binary a op l r next) := by
  cases l <;> first | rfl | (simp [is_null] at h1; done) | (simp [is_integer] at h2; done)

/-- The macro `FOLD_INTEGER_UNI` keeps a node whose operand is no literal. -/
theorem fold_integer_uni_keeps {L : Type} (a : Attr L) (op : Int)
    (x next : Ast L) (h1 : is_null x = false) (h2 : is_integer x = false) :
    FOLD_INTEGER_UNI a op x next = some (Ast.unary a op x next) := by
  cases x <;> first | rfl | (simp [is_null] at h1; done) | (simp [is_integer] at h2; done)

/-- A tree without integer literal whose visited operands are present is
returned by `optimizer_r` as it is. -/
theorem optimizer_r_no_integer {L : Type} (o : Int) :
    ∀ (t : Ast L), no_integer t = true → operands_present t = true → optimizer_r o t = some t
  | Ast.null, _, _ => by simp only [optimizer_r]
  | Ast.block a val block_next next, h, hp => by
    simp only [no_integer, Bool.and_eq_true] at h
    simp only [operands_present, Bool.and_eq_true] at hp
    simp only [optimizer_r, optimizer_r_no_integer o val h.1.1 hp.1,
      optimizer_r_no_integer o block_next h.1.2 hp.2]
  | Ast.function a name args body next, h, hp => by
    simp only [no_integer, Bool.and_eq_true] at h
    simp only [operands_present] at hp
    simp only [optimizer_r, optimizer_r_no_integer o body h.1.2 hp]
  | Ast.ret a val next, h, hp => by
    simp only [no_integer, Bool.and_eq_true] at h
    simp only [operands_present] at hp
    simp only [optimizer_r, optimizer_r_no_integer o val h.1 hp]
  | Ast.cond a cond body next, h, hp => by
    simp only [no_integer, Bool.and_eq_true] at h
    simp only [operands_present, Bool.and_eq_true, Bool.not_eq_true'] at hp
    simp only [optimizer_r, optimizer_r_no_integer o cond h.1.1 hp.1.2,
      optimizer_r_no_integer o body h.1.2 hp.2]
    exact fold_cond_keeps a cond body next hp.1.1 (no_integer_not_integer cond h.1.1)
  | Ast.label a name stuff next, h, hp => by
    simp only [no_integer, Bool.and_eq_true] at h
    simp only [operands_present] at hp
    simp only [optimizer_r, optimizer_r_no_integer o stuff h.1 hp]
  | Ast.jump a name next, _, _ => by simp only [optimizer_r]
  | Ast.integer a i next, h, _ => by
    simp only [no_integer] at h
    exact absurd h (by decide)
  | Ast.variable a name type alloc next, _, _ => by simp only [optimizer_r]
  | Ast.string a val next, _, _ => by simp only [optimizer_r]
  | Ast.binary a op left right next, h, hp => by
    simp only [no_integer, Bool.and_eq_true] at h
    simp only [operands_present, Bool.and_eq_true, Bool.not_eq_true'] at hp
    simp only [optimizer_r, optimizer_r_no_integer o left h.1.1 hp.1.2,
      optimizer_r_no_integer o right h.1.2 hp.2]
    by_cases ho : o > 0
    · rw [if_pos ho]
      cases hf : fold_case op with
      | none => rfl
      | some f =>
        exact fold_integer_bin_keeps f a op left right next hp.1.1
          (no_integer_not_integer left h.1.1)
    · rw [if_neg ho]
  | Ast.unary a op arg next, h, hp => by
    simp only [no_integer, Bool.and_eq_true] at h
    simp only [operands_present, Bool.and_eq_true, Bool.not_eq_true'] at hp
    simp only [optimizer_r, optimizer_r_no_integer o arg h.1 hp.2]
    by_cases ho : o > 0
    · rw [if_pos ho]
      by_cases hop : op = chr '-'
      · rw [if_pos hop]
        exact fold_integer_uni_keeps a op arg next hp.1 (no_integer_not_integer arg h.1)
      · rw [if_neg hop]
    · rw [if_neg ho]
  | Ast.crement a val next, _, _ => by simp only [optimizer_r]
  | Ast.function_call a name args next, _, _ => by simp only [optimizer_r]
  | Ast.statement a val next, _, _ => by simp only [optimizer_r]
  | Ast.alloc a size next, _, _ => by simp only [optimizer_r]

/-- An operator with a case in the switch of the binary case is one of
`folded_operators`. -/
theorem folded_of_fold_case (op : Int) (h : (fold_case op).isSome = true) :
    op ∈ folded_operators := by
  by_contra hn
  simp only [folded_operators, List.mem_cons, List.mem_singleton, List.not_mem_nil, or_false,
    not_or] at hn
  obtain ⟨h1, h2, h3, h4, h5, h6, h7, h8, h9, h10, h11, h12, h13⟩ := hn
  unfold fold_case at h
  rw [if_neg h1, if_neg h2, if_neg h3, if_neg h4, if_neg h5, if_neg h6, if_neg h7, if_neg h8,
    if_neg h9, if_neg h10, if_neg h11, if_neg h12, if_neg h13] at h
  exact absurd h (by decide)

/-- What the macro `FOLD_INTEGER_BIN` returns: the node as it is, or an integer
literal in place of a node with two integer literals as operands. -/
theorem fold_integer_bin_cases {L : Type} (f : Int → Int → Option Int) (a : Attr L) (op : Int)
    (l r next t' : Ast L) (h : FOLD_INTEGER_BIN f a op l r next = some t') :
    t' = Ast.binary a op l r next ∨
      (is_integer l = true ∧ is_integer r = true ∧ is_integer t' = true) := by
  unfold FOLD_INTEGER_BIN at h
  split at h
  · cases h
  · split at h
    · cases h
    · cases hv : f _ _ with
      | none => rw [hv] at h; cases h
      | some v =>
        rw [hv] at h
        simp only [Option.map_some', Option.some.injEq] at h
        subst h
        exact Or.inr ⟨rfl, rfl, rfl⟩
    · simp only [Option.some.injEq] at h
      exact Or.inl h.symm
  · simp only [Option.some.injEq] at h
    exact Or.inl h.symm

/-- Claim C21: the optimizer replaces a binary node only when both operands
are integer literals after their own optimization (and then by an integer
literal, the flag being set and the operator one of the folded ones); in every
other case the node stays a binary node with its operator over the optimized
operands.  A tree without any integer literal, with the operands present that
the optimizer reads, is returned unchanged, whatever the flag. -/
theorem optimizer_keeps_non_literal {L : Type} (o : Int) (a : Attr L) (op : Int)
    (left right next t' : Ast L)
    (h : optimizer o (Ast.binary a op left right next) = some t') :
    (∃ l r, optimizer o left = some l ∧ optimizer o right = some r ∧
      (t' = Ast.binary a op l r next ∨
        (is_integer l = true ∧ is_integer r = true ∧ is_integer t' = true ∧ o > 0 ∧
          op ∈ folded_operators)) ∧
      (¬ (is_integer l = true ∧ is_integer r = true) → t' = Ast.binary a op l r next)) ∧
    (∀ (flag : Int) (t : Ast L), no_integer t = true → operands_present t = true →
      optimizer flag t = some t) := by
  refine ⟨?_, fun flag t h1 h2 => optimizer_r_no_integer flag t h1 h2⟩
  simp only [optimizer, optimizer_r] at h
  cases hl : optimizer_r o left with
  | none => rw [hl] at h; cases h
  | some l =>
    cases hr : optimizer_r o right with
    | none => rw [hl, hr] at h; cases h
    | some r =>
      rw [hl, hr] at h
      dsimp only at h
      refine ⟨l, r, hl, hr, ?_⟩
      by_cases ho : o > 0
      · rw [if_pos ho] at h
        cases hf : fold_case op with
        | none =>
          rw [hf] at h
          simp only [Option.some.injEq] at h
          exact ⟨Or.inl h.symm, fun _ => h.symm⟩
        | some f =>
          rw [hf] at h
          have hop : op ∈ folded_operators := folded_of_fold_case op (by rw [hf]; rfl)
          rcases fold_integer_bin_cases f a op l r next t' h with h1 | ⟨h1, h2, h3⟩
          · exact ⟨Or.inl h1, fun _ => h1⟩
          · exact ⟨Or.inr ⟨h1, h2, h3, ho, hop⟩, fun hn => absurd ⟨h1, h2⟩ hn⟩
      · rw [if_neg ho] at h
        simp only [Option.some.injEq] at h
        exact ⟨Or.inl h.symm, fun _ => h.symm⟩

/-- The expressions `x + 0` and `0 * x` come back as they are, and so does
`return x - y;`, which holds no integer literal. -/
theorem optimizer_keeps_non_literal_witness :
    optimizer 1 (x_plus_zero : Ast String) = some x_plus_zero ∧
    optimizer 1 (zero_times_x : Ast String) = some zero_times_x ∧
    no_integer (return_difference : Ast String) = true ∧
    operands_present (return_difference : Ast String) = true ∧
    optimizer 0 (return_difference : Ast String) = some return_difference :=
  ⟨by decide, by decide, by decide, by decide,
    (optimizer_keeps_non_literal 1 Attr.fresh (chr '+')
      (Ast.variable Attr.fresh "x" none 0 Ast.null) (make_integer 0) Ast.null
      (x_plus_zero : Ast String) (by decide)).2 0 return_difference (by decide) (by decide)⟩

/-! ## Operand placement of the binary operators -/

theorem valid_register_check_ok (s : Option String) (g : GState) (h : g.avail ≤ 13) :
    ∃ b, VALID_REGISTER_CHECK s g = Except.ok b := by
  by_cases h0 : 0 ≤ g.avail
  · exact ⟨_, valid_register_check_top s g h0 h⟩
  · cases s with
    | none => exact ⟨false, rfl⟩
    | some r =>
      have h1 : g.avail < 1 := by omega
      refine ⟨r == "%rbx", ?_⟩
      simp only [VALID_REGISTER_CHECK, if_pos h1]
      rfl

theorem free_loc_hook_ok (x : Loc) (g : GState) (h : g.avail ≤ 13) :
    ∃ g', FREE_LOC_HOOK x g = Except.ok g' ∧ g'.out = g.out ∧ g'.avail ≤ g.avail ∧
      g.avail - 2 ≤ g'.avail := by
  have step : ∀ (s : Option String) (g1 : GState), g1.avail ≤ 13 →
      ∃ g2, (match VALID_REGISTER_CHECK s g1 with
        | Except.error e => Except.error e
        | Except.ok true => Except.ok { g1 with avail := g1.avail - 1 }
        | Except.ok false => Except.ok g1) = Except.ok g2 ∧ g2.out = g1.out ∧
        g2.avail ≤ g1.avail ∧ g1.avail - 1 ≤ g2.avail := by
    intro s g1 h1
    obtain ⟨b, hb⟩ := valid_register_check_ok s g1 h1
    rw [hb]
    cases b
    · exact ⟨g1, rfl, rfl, le_refl _, by omega⟩
    · exact ⟨_, rfl, rfl, by simp only; omega, by simp only; omega⟩
  unfold FREE_LOC_HOOK
  by_cases c1 : (IS_REGISTER x || IS_MEMORY x) = true
  · rw [if_pos c1]
    by_cases c2 : IS_MEMORY x = true
    · rw [if_pos c2]
      obtain ⟨g1, e1, o1, a1, b1⟩ := step x.index g h
      obtain ⟨g2, e2, o2, a2, b2⟩ := step x.base g1 (by omega)
      refine ⟨g2, ?_, by rw [o2, o1], by omega, by omega⟩
      rw [← e2]
      obtain ⟨b, hb⟩ := valid_register_check_ok x.index g h
      rw [hb] at e1 ⊢
      cases b <;> (simp only [Except.ok.injEq] at e1; subst e1; rfl)
    · rw [if_neg c2]
      obtain ⟨g2, e2, o2, a2, b2⟩ := step x.base g h
      exact ⟨g2, e2, o2, a2, by omega⟩
  · rw [if_neg c1]
    exact ⟨g, rfl, rfl, le_refl _, by omega⟩

theorem free_loc_ok (x : Option Loc) (g : GState) (h : g.avail ≤ 13) :
    ∃ g', FREE_LOC x g = Except.ok g' ∧ g'.out = g.out ∧ g'.avail ≤ g.avail ∧
      g.avail - 2 ≤ g'.avail := by
  cases x with
  | none => exact ⟨g, rfl, rfl, le_refl _, by omega⟩
  | some l => exact free_loc_hook_ok l g h

theorem move_loc_with_ok (op : String) (x y : Loc) (g : GState) (h : g.avail ≤ 13) :
    ∃ g', MOVE_LOC_WITH op (some x) y g = Except.ok g' ∧
      g'.out = g.out ++ [Instr.two op x y] ∧ g'.avail ≤ g.avail ∧ g.avail - 2 ≤ g'.avail := by
  obtain ⟨g', e, o, a, b⟩ := free_loc_ok (some x) (PUT (Instr.two op x y) g) h
  exact ⟨g', e, o, a, b⟩

theorem alloc_register_ok (g : GState) (h0 : 0 ≤ g.avail) (h1 : g.avail ≤ 12) :
    ALLOC_REGISTER g = Except.ok (next_register g.avail, { g with avail := g.avail + 1 }) := by
  obtain ⟨d, s, ds, b, o⟩ := g
  simp only at h0 h1 ⊢
  interval_cases d <;> rfl

theorem give_register_how_ok (i : String) (s : Loc) (g : GState) (h0 : 0 ≤ g.avail)
    (h1 : g.avail ≤ 12) (hb : IS_MEMORY s = true → s.base ≠ none) :
    ∃ r g', GIVE_REGISTER_HOW i s g = Except.ok (r, g') ∧ IS_REGISTER r = true ∧
      g'.out = g.out ++ [Instr.two i s r] ∧ g'.avail ≤ g.avail + 1 ∧ g.avail - 2 ≤ g'.avail ∧
      (IS_MEMORY s = false → r = next_register g.avail) := by
  have reuse : ∀ b : String, ∃ g2, MOVE_LOC_WITH i (some s) (MAKE_BASE_LOC loc_kind.register_loc b) g
      = Except.ok g2 ∧ g2.out = g.out ++ [Instr.two i s (MAKE_BASE_LOC loc_kind.register_loc b)] ∧
      g2.avail ≤ g.avail ∧ g.avail - 2 ≤ g2.avail :=
    fun b => move_loc_with_ok i s _ g (by omega)
  have fresh : ∃ g2, MOVE_LOC_WITH i (some s) (next_register g.avail)
      { g with avail := g.avail + 1 } = Except.ok g2 ∧
      g2.out = g.out ++ [Instr.two i s (next_register g.avail)] ∧
      g2.avail ≤ g.avail + 1 ∧ g.avail - 1 ≤ g2.avail := by
    obtain ⟨g2, e, o, a, b⟩ := move_loc_with_ok i s (next_register g.avail)
      { g with avail := g.avail + 1 } (by simp only; omega)
    exact ⟨g2, e, o, a, by simp only at b; omega⟩
  have ha := alloc_register_ok g h0 h1
  unfold GIVE_REGISTER_HOW
  cases hm : IS_MEMORY s with
  | false =>
    obtain ⟨g2, e, o, a, b⟩ := fresh
    refine ⟨next_register g.avail, { g2 with avail := g2.avail + 0 }, ?_, rfl, o, ?_, ?_,
      fun _ => rfl⟩
    · simp only [Bool.false_eq_true, if_false, ha, e]
    · simp only; omega
    · simp only; omega
  | true =>
    cases hbase : s.base with
    | none => exact absurd hbase (hb hm)
    | some b =>
      by_cases hrbp : b ≠ "%rbp"
      · obtain ⟨g2, e, o, a, c⟩ := reuse b
        refine ⟨MAKE_BASE_LOC loc_kind.register_loc b, { g2 with avail := g2.avail + 1 }, ?_,
          rfl, o, ?_, ?_, fun h => by cases h⟩
        · simp only [if_true, if_pos hrbp, e]
        · simp only; omega
        · simp only; omega
      · cases hidx : s.index with
        | some x =>
          obtain ⟨g2, e, o, a, c⟩ := reuse x
          refine ⟨MAKE_BASE_LOC loc_kind.register_loc x, { g2 with avail := g2.avail + 1 }, ?_,
            rfl, o, ?_, ?_, fun h => by cases h⟩
          · simp only [if_true, if_neg hrbp, e]
          · simp only; omega
          · simp only; omega
        | none =>
          obtain ⟨g2, e, o, a, c⟩ := fresh
          refine ⟨next_register g.avail, { g2 with avail := g2.avail + 0 }, ?_, rfl, o, ?_, ?_,
            fun h => by cases h⟩
          · simp only [if_true, if_neg hrbp, ha, e]
          · simp only; omega
          · simp only; omega

theorem ensure1_ok (x y : Loc) (g : GState) (h0 : 0 ≤ g.avail) (h1 : g.avail ≤ 12)
    (hb : IS_MEMORY x = true → x.base ≠ none) :
    ∃ pre S D g', ENSURE_DESTINATION_REGISTER1 x y g = Except.ok (D, S, g') ∧
      g'.out = g.out ++ pre ∧ g'.avail ≤ 13 ∧ IS_REGISTER D = true ∧
      order_free x y pre S D := by
  unfold ENSURE_DESTINATION_REGISTER1
  cases hx : IS_REGISTER x with
  | true =>
    exact ⟨[], y, x, g, rfl, by simp, by omega, hx, Or.inl ⟨hx, rfl, rfl, rfl⟩⟩
  | false =>
    cases hy : IS_REGISTER y with
    | true =>
      exact ⟨[], x, y, g, rfl, by simp, by omega, hy, Or.inr (Or.inl ⟨hx, hy, rfl, rfl, rfl⟩)⟩
    | false =>
      obtain ⟨r, g1, e, hr, o, a, _, _⟩ := give_register_how_ok "mov" x g h0 h1 hb
      refine ⟨[Instr.two "mov" x r], y, r, g1, ?_, o, by omega, hr,
        Or.inr (Or.inr ⟨hx, hy, rfl, hr, rfl⟩)⟩
      simp only [GIVE_REGISTER, e, Bool.not_false, if_true, Bool.false_eq_true, if_false]

theorem ensure2_ok (x y : Loc) (g : GState) (h0 : 0 ≤ g.avail) (h1 : g.avail ≤ 12)
    (hb : IS_MEMORY x = true → x.base ≠ none) :
    ∃ pre S D g', ENSURE_DESTINATION_REGISTER2 x y g = Except.ok (D, S, g') ∧
      g'.out = g.out ++ pre ∧ g'.avail ≤ 13 ∧ IS_REGISTER D = true ∧
      order_kept x y g.avail pre S D := by
  unfold ENSURE_DESTINATION_REGISTER2
  cases hx : IS_REGISTER x with
  | true =>
    exact ⟨[], y, x, g, rfl, by simp, by omega, hx, Or.inl ⟨hx, rfl, rfl, rfl⟩⟩
  | false =>
    cases hy : IS_REGISTER y with
    | true =>
      have hm : IS_MEMORY y = false := by
        simp only [IS_REGISTER, beq_iff_eq] at hy
        simp [IS_MEMORY, hy]
      obtain ⟨r, g1, e, _, o, a, _, hn⟩ := give_register_how_ok "mov" y g h0 h1
        (fun h => by rw [hm] at h; cases h)
      have hr := hn hm
      subst hr
      obtain ⟨g2, e2, o2, a2, _⟩ := move_loc_with_ok "mov" x y g1 (by omega)
      refine ⟨[Instr.two "mov" y (next_register g.avail), Instr.two "mov" x y],
        next_register g.avail, y, g2, ?_, ?_, by omega, hy,
        Or.inr (Or.inl ⟨hx, hy, rfl, rfl, rfl⟩)⟩
      · simp only [GIVE_REGISTER, e, e2, Bool.not_false, if_true]
      · rw [o2, o, List.append_assoc]
        rfl
    | false =>
      obtain ⟨r, g1, e, hr, o, a, _, _⟩ := give_register_how_ok "mov" x g h0 h1 hb
      refine ⟨[Instr.two "mov" x r], y, r, g1, ?_, o, by omega, hr,
        Or.inr (Or.inr ⟨hx, hy, rfl, hr, rfl⟩)⟩
      simp only [GIVE_REGISTER, e, Bool.not_false, if_true, Bool.false_eq_true, if_false]

theorem branch_code_some_iff (o : Int) :
    (branch_code o).isSome = true ↔ o ∈ [chr '<', chr '>', EQ, NE, LE, GE] := by
  simp only [branch_code, branchable_binops, List.find?_isSome, List.mem_cons,
    List.mem_singleton, List.not_mem_nil, or_false, exists_eq_or_imp, exists_eq_left,
    beq_iff_eq, exists_false]
  constructor <;> intro h <;> rcases h with h | h | h | h | h | h <;> simp [h]

theorem gen_code_r_cond_plain (a : Attr Loc) (c body next : Ast Loc) (g : GState)
    (hc : cond_code c = none) (hn : c ≠ Ast.null) :
    gen_code_r (Ast.cond a c body next) g =
      finish_node a.throw_away (cond_plain a.loc (gen_code_r c) g) (gen_code_r next)
        (fun c n => Ast.cond a c body n) := by
  cases c <;>
    first
    | exact absurd rfl hn
    | (simp only [cond_code] at hc; simp only [gen_code_r, hc])
    | simp only [gen_code_r]

theorem finish_node_alone {α : Type} (throw_away : Bool) (r : Except Fatal (α × GState))
    (node : α → Ast Loc → Ast Loc) (x : α) (g1 : GState) (hr : r = Except.ok (x, g1)) :
    ∃ g', finish_node throw_away r (gen_code_r Ast.null) node = Except.ok (node x Ast.null, g') ∧
      g'.out = g1.out := by
  subst hr
  cases throw_away
  · exact ⟨g1, by simp [finish_node, gen_code_r], rfl⟩
  · exact ⟨{ g1 with avail := 0 }, by simp [finish_node, gen_code_r], rfl⟩

/-- Claim C25: the search in the table of `gen_code_cond` finds a record
exactly for the operators `< > == != <= >=`, and the records hold `cmp` with
`jl jg je jne jle jge` and the negated `jnl jng jne je jnle jnge`.  For a
conditional whose condition is a binary node with a record `code`, once the
two operands are generated, `gen_code_r` returns and the lines written after
those of the operands are the moves that bring the left operand into a
register without changing the order, one line `cmp S, D` with `S` the right
and `D` the left operand, and one jump to the target, `code.jump`, or
`code.not` when `boolean_not` is set.  For a condition `c` without a record,
once it is generated, the lines written after its own are `cmpq c, $0` and
`jz` to the target. -/
theorem cond_compare_and_jump (a ca : Attr Loc) (op : Int) (code : binop_branching)
    (left right cnext body l r c c' : Ast Loc) (target x y z : Loc) (g g1 g2 g3 : GState)
    (ht : a.loc = some target) (hcode : branch_code op = some code)
    (hl : gen_code_r left g = Except.ok (l, g1)) (hx : assert_loc l = Except.ok x)
    (hr : gen_code_r right g1 = Except.ok (r, g2)) (hy : assert_loc r = Except.ok y)
    (h0 : 0 ≤ g2.avail) (h1 : g2.avail ≤ 12) (hb : IS_MEMORY x = true → x.base ≠ none)
    (hc : cond_code c = none) (hg : gen_code_r c g = Except.ok (c', g3))
    (hz : assert_loc c' = Except.ok z) (h3 : g3.avail ≤ 13) :
    (∀ o : Int, (branch_code o).isSome = true ↔ o ∈ [chr '<', chr '>', EQ, NE, LE, GE]) ∧
    [chr '<', chr '>', EQ, NE, LE, GE].map
        (fun o => (branch_code o).map (fun k => (k.check, k.jump, k.not))) =
      [some ("cmp", "jl", "jnl"), some ("cmp", "jg", "jng"), some ("cmp", "je", "jne"),
       some ("cmp", "jne", "je"), some ("cmp", "jle", "jnle"), some ("cmp", "jge", "jnge")] ∧
    (code.op = op ∧ code.check = "cmp") ∧
    (∃ pre S D g',
      gen_code_r (Ast.cond a (Ast.binary ca op left right cnext) body Ast.null) g =
        Except.ok (Ast.cond a (Ast.binary ca op (set_loc none l) (set_loc none r) cnext) body
          Ast.null, g') ∧
      g'.out = g2.out ++ pre ++ [Instr.two "cmp" S D,
        Instr.one (if ca.boolean_not = true then code.not else code.jump) target] ∧
      IS_REGISTER D = true ∧ order_kept x y g2.avail pre S D) ∧
    (∃ g', gen_code_r (Ast.cond a c body Ast.null) g =
        Except.ok (Ast.cond a (set_loc none c') body Ast.null, g') ∧
      g'.out = g3.out ++ [Instr.two "cmpq" z (MAKE_BASE_LOC loc_kind.literal_loc "0"),
        Instr.one "jz" target]) := by
  have hop : code.op = op ∧ code.check = "cmp" := by
    have hm := List.mem_of_find?_eq_some hcode
    have hp := List.find?_some hcode
    simp only [beq_iff_eq] at hp
    refine ⟨hp, ?_⟩
    simp only [branchable_binops, List.mem_cons, List.mem_singleton, List.not_mem_nil,
      or_false] at hm
    rcases hm with h | h | h | h | h | h <;> rw [h]
  refine ⟨branch_code_some_iff, by decide, hop, ?_, ?_⟩
  · obtain ⟨pre, S, D, g4, e4, o4, a4, hd, hk⟩ := ensure2_ok x y g2 h0 h1 hb
    obtain ⟨g5, e5, o5, a5, _⟩ := free_loc_ok (some S)
      (PUT (Instr.one (if ca.boolean_not = true then code.not else code.jump) target)
        (PUT (Instr.two code.check S D) g4)) a4
    obtain ⟨g6, e6, o6, _, _⟩ := free_loc_ok (some D) g5 (by simp only [PUT] at a5; omega)
    have hrun : cond_branch code ca.boolean_not a.loc (gen_code_r left) (gen_code_r right) g =
        Except.ok ((set_loc none l, set_loc none r), g6) := by
      simp only [cond_branch, hl, hx, hr, hy, e4, ht, e5, e6]
    obtain ⟨g7, e7, o7⟩ := finish_node_alone a.throw_away _
      (fun p n => Ast.cond a (Ast.binary ca op p.1 p.2 cnext) body n) _ _ hrun
    refine ⟨pre, S, D, g7, ?_, ?_, hd, hk⟩
    · simp only [gen_code_r, hcode]
      exact e7
    · rw [o7, o6, o5]
      simp only [PUT, o4, hop.2, List.append_assoc, List.cons_append, List.nil_append]
  · have hn : c ≠ Ast.null := by
      intro h
      subst h
      simp only [gen_code_r, Except.ok.injEq, Prod.mk.injEq] at hg
      rw [← hg.1] at hz
      cases hz
    obtain ⟨g4, e4, o4, _, _⟩ := free_loc_ok (some z)
      (PUT (Instr.one "jz" target)
        (PUT (Instr.two "cmpq" z (MAKE_BASE_LOC loc_kind.literal_loc "0")) g3)) h3
    have hrun : cond_plain a.loc (gen_code_r c) g = Except.ok (set_loc none c', g4) := by
      simp only [cond_plain, hg, hz, ht, e4]
    obtain ⟨g5, e5, o5⟩ := finish_node_alone a.throw_away _
      (fun c n => Ast.cond a c body n) _ _ hrun
    refine ⟨g5, ?_, ?_⟩
    · rw [gen_code_r_cond_plain a c body Ast.null g hc hn]
      exact e5
    · rw [o5, o4]
      simp only [PUT, List.append_assoc, List.cons_append, List.nil_append]

theorem cond_compare_and_jump_witness :
    (Attr.at_loc target_lj1).loc = some target_lj1 ∧
    branch_code (chr '<') = some code_less ∧
    gen_code_r slot_a GState.start = Except.ok (slot_a, GState.start) ∧
    assert_loc slot_a = Except.ok (slot_loc 8) ∧
    gen_code_r slot_b GState.start = Except.ok (slot_b, GState.start) ∧
    assert_loc slot_b = Except.ok (slot_loc 16) ∧
    (0 : Int) ≤ GState.start.avail ∧ GState.start.avail ≤ 12 ∧
    (IS_MEMORY (slot_loc 8) = true → (slot_loc 8).base ≠ none) ∧
    cond_code slot_a = none ∧ GState.start.avail ≤ 13 ∧
    ((∀ o : Int, (branch_code o).isSome = true ↔ o ∈ [chr '<', chr '>', EQ, NE, LE, GE]) ∧
    [chr '<', chr '>', EQ, NE, LE, GE].map
        (fun o => (branch_code o).map (fun k => (k.check, k.jump, k.not))) =
      [some ("cmp", "jl", "jnl"), some ("cmp", "jg", "jng"), some ("cmp", "je", "jne"),
       some ("cmp", "jne", "je"), some ("cmp", "jle", "jnle"), some ("cmp", "jge", "jnge")] ∧
    (code_less.op = chr '<' ∧ code_less.check = "cmp") ∧
    (∃ pre S D g',
      gen_code_r (Ast.cond (Attr.at_loc target_lj1)
          (Ast.binary Attr.fresh (chr '<') slot_a slot_b Ast.null) Ast.null Ast.null)
          GState.start =
        Except.ok (Ast.cond (Attr.at_loc target_lj1)
          (Ast.binary Attr.fresh (chr '<') (set_loc none slot_a) (set_loc none slot_b) Ast.null)
          Ast.null Ast.null, g') ∧
      g'.out = GState.start.out ++ pre ++ [Instr.two "cmp" S D,
        Instr.one (if (Attr.fresh : Attr Loc).boolean_not = true then code_less.not
          else code_less.jump) target_lj1] ∧
      IS_REGISTER D = true ∧ order_kept (slot_loc 8) (slot_loc 16) GState.start.avail pre S D) ∧
    (∃ g', gen_code_r (Ast.cond (Attr.at_loc target_lj1) slot_a Ast.null Ast.null)
          GState.start =
        Except.ok (Ast.cond (Attr.at_loc target_lj1) (set_loc none slot_a) Ast.null Ast.null, g') ∧
      g'.out = GState.start.out ++
        [Instr.two "cmpq" (slot_loc 8) (MAKE_BASE_LOC loc_kind.literal_loc "0"),
         Instr.one "jz" target_lj1])) :=
  ⟨rfl, by decide, rfl, rfl, rfl, rfl, by decide, by decide, by decide, rfl, by decide,
    cond_compare_and_jump (Attr.at_loc target_lj1) Attr.fresh (chr '<') code_less
      slot_a slot_b Ast.null Ast.null slot_a slot_b slot_a slot_a target_lj1
      (slot_loc 8) (slot_loc 16) (slot_loc 8) GState.start GState.start GState.start GState.start
      rfl (by decide) rfl rfl rfl rfl (by decide) (by decide) (by decide) rfl rfl rfl
      (by decide)⟩

/-! ## Label texts -/

theorem jump_label_injective (a b : Nat) (h : jump_label (a : Int) = jump_label (b : Int)) :
    a = b := by
  simp only [jump_label] at h
  have h1 := congrArg String.data h
  simp only [String.data_append] at h1
  have h2 := List.append_cancel_left h1
  apply nat_repr_injective
  apply String.ext
  exact h2

theorem get_from_state_cases (l : String) (st : DState) :
    get_from_state l st = l ∨
      ∃ e ∈ st.state, e.label = l ∧ e.meaning = get_from_state l st := by
  unfold get_from_state
  cases h : st.state.reverse.find? (fun e => e.label == l) with
  | none => exact Or.inl rfl
  | some e =>
    refine Or.inr ⟨e, ?_, ?_, rfl⟩
    · exact List.mem_reverse.mp (List.mem_of_find?_eq_some h)
    · simpa using List.find?_some h

theorem minted_initial : Minted DState.initial :=
  ⟨by decide, fun e he => by simp [DState.initial] at he,
    fun e he => by simp [DState.initial] at he⟩

theorem minted_clear (st : DState) (hm : Minted st) : Minted (clear_state st) :=
  ⟨hm.1, fun e he => by simp [clear_state] at he, fun e he => by simp [clear_state] at he⟩

/-- What a call of `get_label` on a name without a dot does. -/
theorem get_label_minted (name l : String) (st st1 : DState)
    (hg : get_label name st = some (l, st1)) (hm : Minted st) (hs : not_dotted name = true) :
    Minted st1 ∧
    ((∃ k : Nat, (k : Int) = st.curr_labelno ∧ l = jump_label (k : Int) ∧
        st1.curr_labelno = st.curr_labelno + 1 ∧
        st1.state = st.state ++ [{ label := name, meaning := l }]) ∨
      (st1 = st ∧ ∃ e ∈ st.state, e.label = name ∧ e.meaning = l ∧ not_dotted l = false)) := by
  obtain ⟨h0, hk, hu⟩ := hm
  rcases get_label_some name st st1 l hg with ⟨_, _, hl, hs1⟩ | ⟨hd, hl, hs1⟩
  · obtain ⟨c, hc⟩ := Int.eq_ofNat_of_zero_le h0
    have hlc : l = jump_label (c : Int) := by rw [hl, hc]
    refine ⟨⟨?_, ?_, ?_⟩, Or.inl ⟨c, hc.symm, hlc, by rw [hs1], by rw [hs1]⟩⟩
    · rw [hs1]
      simp only
      omega
    · intro e he hde
      rw [hs1] at he ⊢
      simp only [List.mem_append, List.mem_singleton] at he ⊢
      rcases he with he | he
      · obtain ⟨k, hk1, hk2⟩ := hk e he hde
        exact ⟨k, hk1, by omega⟩
      · exact ⟨c, by rw [he]; exact hlc, by omega⟩
    · intro e1 he1 e2 he2 hd1 heq
      rw [hs1] at he1 he2
      simp only [List.mem_append, List.mem_singleton] at he1 he2
      rcases he1 with he1 | he1 <;> rcases he2 with he2 | he2
      · exact hu e1 he1 e2 he2 hd1 heq
      · obtain ⟨k, hk1, hk2⟩ := hk e1 he1 hd1
        rw [he2] at heq
        simp only at heq
        rw [hk1, hlc] at heq
        have := jump_label_injective k c heq
        omega
      · have hd2 : not_dotted e2.meaning = false := by rw [← heq]; exact hd1
        obtain ⟨k, hk1, hk2⟩ := hk e2 he2 hd2
        rw [he1] at heq
        simp only at heq
        rw [hk1, hlc] at heq
        have := jump_label_injective c k heq
        omega
      · rw [he1, he2]
  · subst hs1
    refine ⟨⟨h0, hk, hu⟩, Or.inr ⟨rfl, ?_⟩⟩
    rcases get_from_state_cases name st1 with h | ⟨e, he, hel, hem⟩
    · rw [h] at hd
      rw [hd] at hs
      cases hs
    · exact ⟨e, he, hel, by rw [hl]; exact hem, by rw [hl]; exact hd⟩

/-- The step of the induction for a label or jump node. -/
theorem label_step (name l : String) (st st1 st' : DState) (seg : Nat)
    (rest : List (Nat × String × String))
    (hg : get_label name st = some (l, st1)) (hm : Minted st) (hs : not_dotted name = true)
    (hle : st1.curr_labelno ≤ st'.curr_labelno)
    (hA : rest.Pairwise (fun p q => p.2.2 = q.2.2 → p.2.1 = q.2.1 ∧ p.1 = q.1))
    (hB : ∀ p ∈ rest,
      (∃ k : Nat, p.2.2 = jump_label (k : Int) ∧ st1.curr_labelno ≤ (k : Int) ∧
        (k : Int) < st'.curr_labelno) ∨
      (p.1 = seg ∧ ∃ e ∈ st1.state, e.label = p.2.1 ∧ e.meaning = p.2.2 ∧
        not_dotted e.meaning = false)) :
    ((seg, name, l) :: rest).Pairwise (fun p q => p.2.2 = q.2.2 → p.2.1 = q.2.1 ∧ p.1 = q.1) ∧
    (∀ p ∈ (seg, name, l) :: rest,
      (∃ k : Nat, p.2.2 = jump_label (k : Int) ∧ st.curr_labelno ≤ (k : Int) ∧
        (k : Int) < st'.curr_labelno) ∨
      (p.1 = seg ∧ ∃ e ∈ st.state, e.label = p.2.1 ∧ e.meaning = p.2.2 ∧
        not_dotted e.meaning = false)) := by
  obtain ⟨hm1, hcase⟩ := get_label_minted name l st st1 hg hm hs
  obtain ⟨h0, hk, hu⟩ := hm
  rcases hcase with ⟨c, hc, hlc, hcur, hst⟩ | ⟨hst, e, he, hel, hem, hdl⟩
  · constructor
    · refine List.pairwise_cons.mpr ⟨?_, hA⟩
      intro q hq heq
      simp only at heq
      rcases hB q hq with ⟨k, hk1, hk2, _⟩ | ⟨hseg, e, he, hel, hem, hde⟩
      · rw [hk1, hlc] at heq
        have := jump_label_injective c k heq
        omega
      · rw [hst] at he
        simp only [List.mem_append, List.mem_singleton] at he
        rcases he with he | he
        · obtain ⟨k, hk1, hk2⟩ := hk e he hde
          rw [← hem, hk1, hlc] at heq
          have := jump_label_injective c k heq
          omega
        · rw [he] at hel
          exact ⟨hel, hseg.symm⟩
    · intro p hp
      rcases List.mem_cons.mp hp with hp | hp
      · subst hp
        exact Or.inl ⟨c, hlc, by omega, by omega⟩
      · rcases hB p hp with ⟨k, hk1, hk2, hk3⟩ | ⟨hseg, e, he, hel, hem, hde⟩
        · exact Or.inl ⟨k, hk1, by omega, hk3⟩
        · rw [hst] at he
          simp only [List.mem_append, List.mem_singleton] at he
          rcases he with he | he
          · exact Or.inr ⟨hseg, e, he, hel, hem, hde⟩
          · rw [he] at hem
            exact Or.inl ⟨c, by rw [← hem]; exact hlc, by omega, by omega⟩
  · subst hst
    constructor
    · refine List.pairwise_cons.mpr ⟨?_, hA⟩
      intro q hq heq
      simp only at heq
      have hde : not_dotted e.meaning = false := by rw [hem]; exact hdl
      rcases hB q hq with ⟨k, hk1, hk2, _⟩ | ⟨hseg, e2, he2, hel2, hem2, hde2⟩
      · obtain ⟨k0, hk01, hk02⟩ := hk e he hde
        rw [hk1, ← hem, hk01] at heq
        have := jump_label_injective k0 k heq
        omega
      · have := hu e he e2 he2 hde (by rw [hem, hem2]; exact heq)
        exact ⟨by rw [← hel, ← hel2]; exact this, hseg.symm⟩
    · intro p hp
      rcases List.mem_cons.mp hp with hp | hp
      · subst hp
        exact Or.inr ⟨rfl, e, he, hel, hem, by rw [hem]; exact hdl⟩
      · exact hB p hp

theorem resolve_visits_labels : ∀ (inp : List Visit) (st st' : DState) (out : List Visit)
    (seg : Nat), resolve_visits inp st = some (out, st') → Minted st →
    source_labels inp = true →
    Minted st' ∧ st.curr_labelno ≤ st'.curr_labelno ∧
    (label_texts out seg).Pairwise (fun p q => p.2.2 = q.2.2 → p.2.1 = q.2.1 ∧ p.1 = q.1) ∧
    (∀ p ∈ label_texts out seg,
      (∃ k : Nat, p.2.2 = jump_label (k : Int) ∧ st.curr_labelno ≤ (k : Int) ∧
        (k : Int) < st'.curr_labelno) ∨
      (p.1 = seg ∧ ∃ e ∈ st.state, e.label = p.2.1 ∧ e.meaning = p.2.2 ∧
        not_dotted e.meaning = false))
  | [], st, st', out, seg, h, hm, _ => by
    simp only [resolve_visits, Option.some.injEq, Prod.mk.injEq] at h
    obtain ⟨rfl, rfl⟩ := h
    exact ⟨hm, le_refl _, List.Pairwise.nil, fun p hp => by simp [label_texts] at hp⟩
  | v :: vs, st, st', out, seg, h, hm, hs => by
    simp only [resolve_visits] at h
    cases hv : resolve_visit v st with
    | none => simp [hv] at h
    | some p =>
      obtain ⟨w, st1⟩ := p
      simp only [hv] at h
      cases hvs : resolve_visits vs st1 with
      | none => simp [hvs] at h
      | some q =>
        obtain ⟨ws, st2⟩ := q
        simp only [hvs, Option.some.injEq, Prod.mk.injEq] at h
        obtain ⟨rfl, rfl⟩ := h
        cases v with
        | clear =>
          simp only [resolve_visit, Option.some.injEq, Prod.mk.injEq] at hv
          obtain ⟨rfl, rfl⟩ := hv
          simp only [source_labels] at hs
          obtain ⟨m2, l2, a2, b2⟩ := resolve_visits_labels vs (clear_state st) st2 ws (seg + 1)
            hvs (minted_clear st hm) hs
          refine ⟨m2, l2, a2, ?_⟩
          intro p hp
          rcases b2 p hp with hf | ⟨_, e, he, _⟩
          · exact Or.inl hf
          · simp [clear_state] at he
        | declaration n al lo =>
          simp only [resolve_visit] at hv
          cases h1 : add_to_state n 8 st with
          | none => simp [h1] at hv
          | some s2 =>
            simp only [h1, Option.some.injEq, Prod.mk.injEq] at hv
            obtain ⟨rfl, rfl⟩ := hv
            obtain ⟨_, hs2⟩ := add_to_state_some n st s2 h1
            simp only [source_labels] at hs
            have hm1 : Minted s2 := by
              obtain ⟨h0, hk, hu⟩ := hm
              rw [hs2]
              refine ⟨h0, ?_, ?_⟩
              · intro e he hde
                simp only [List.mem_append, List.mem_singleton] at he
                rcases he with he | he
                · exact hk e he hde
                · rw [he] at hde
                  simp only [not_dotted_frame_slot] at hde
                  cases hde
              · intro e1 he1 e2 he2 hd1 heq
                simp only [List.mem_append, List.mem_singleton] at he1 he2
                rcases he1 with he1 | he1
                · rcases he2 with he2 | he2
                  · exact hu e1 he1 e2 he2 hd1 heq
                  · rw [heq, he2] at hd1
                    simp only [not_dotted_frame_slot] at hd1
                    cases hd1
                · rw [he1] at hd1
                  simp only [not_dotted_frame_slot] at hd1
                  cases hd1
            obtain ⟨m2, l2, a2, b2⟩ := resolve_visits_labels vs s2 st2 ws seg hvs hm1 hs
            have hcur : s2.curr_labelno = st.curr_labelno := by rw [hs2]
            refine ⟨m2, by omega, a2, ?_⟩
            intro p hp
            rcases b2 p hp with ⟨k, hk1, hk2, hk3⟩ | ⟨hseg, e, he, hel, hem, hde⟩
            · exact Or.inl ⟨k, hk1, by omega, hk3⟩
            · rw [hs2] at he
              simp only [List.mem_append, List.mem_singleton] at he
              rcases he with he | he
              · exact Or.inr ⟨hseg, e, he, hel, hem, hde⟩
              · rw [he] at hde
                simp only [not_dotted_frame_slot] at hde
                cases hde
        | reference n lo =>
          simp only [resolve_visit, Option.some.injEq, Prod.mk.injEq] at hv
          obtain ⟨rfl, rfl⟩ := hv
          simp only [source_labels] at hs
          exact resolve_visits_labels vs st st2 ws seg hvs hm hs
        | label n lo =>
          simp only [resolve_visit] at hv
          cases hg : get_label n st with
          | none => simp [hg] at hv
          | some r =>
            obtain ⟨l, s2⟩ := r
            simp only [hg, Option.some.injEq, Prod.mk.injEq] at hv
            obtain ⟨rfl, rfl⟩ := hv
            simp only [source_labels, Bool.and_eq_true] at hs
            obtain ⟨hm1, hcase⟩ := get_label_minted n l st s2 hg hm hs.1
            obtain ⟨m2, l2, a2, b2⟩ := resolve_visits_labels vs s2 st2 ws seg hvs hm1 hs.2
            have hcur : st.curr_labelno ≤ s2.curr_labelno := by
              rcases hcase with ⟨_, _, _, hc, _⟩ | ⟨hst, _⟩
              · omega
              · rw [hst]
            obtain ⟨a3, b3⟩ := label_step n l st s2 st2 seg _ hg hm hs.1 l2 a2 b2
            exact ⟨m2, by omega, a3, b3⟩
        | jump n lo =>
          simp only [resolve_visit] at hv
          cases hg : get_label n st with
          | none => simp [hg] at hv
          | some r =>
            obtain ⟨l, s2⟩ := r
            simp only [hg, Option.some.injEq, Prod.mk.injEq] at hv
            obtain ⟨rfl, rfl⟩ := hv
            simp only [source_labels, Bool.and_eq_true] at hs
            obtain ⟨hm1, hcase⟩ := get_label_minted n l st s2 hg hm hs.1
            obtain ⟨m2, l2, a2, b2⟩ := resolve_visits_labels vs s2 st2 ws seg hvs hm1 hs.2
            have hcur : st.curr_labelno ≤ s2.curr_labelno := by
              rcases hcase with ⟨_, _, _, hc, _⟩ | ⟨hst, _⟩
              · omega
              · rw [hst]
            obtain ⟨a3, b3⟩ := label_step n l st s2 st2 seg _ hg hm hs.1 l2 a2 b2
            exact ⟨m2, by omega, a3, b3⟩

theorem range_labels_succ (c : Int) (n : Nat) :
    (List.range (n + 1)).map (fun i : Nat => jump_label (c + (i : Int))) =
      jump_label c :: (List.range n).map (fun i : Nat => jump_label (c + 1 + (i : Int))) := by
  rw [List.range_succ_eq_map, List.map_cons, List.map_map]
  refine congrArg₂ _ (by simp) (List.map_congr_left (fun i _ => ?_))
  simp only [Function.comp, Nat.succ_eq_add_one, Nat.cast_add, Nat.cast_one]
  congr 1
  ring

/-- The texts made during a walk are `.LJ<c>`, `.LJ<c+1>`, ... in this order,
`c` being the value of the label counter on entry. -/
theorem minted_texts_run : ∀ (inp : List Visit) (st st' : DState) (out : List Visit),
    resolve_visits inp st = some (out, st') →
    st.curr_labelno ≤ st'.curr_labelno ∧
    minted_texts inp st =
      (List.range (st'.curr_labelno - st.curr_labelno).toNat).map
        (fun i : Nat => jump_label (st.curr_labelno + (i : Int)))
  | [], st, st', out, h => by
    simp only [resolve_visits, Option.some.injEq, Prod.mk.injEq] at h
    obtain ⟨_, rfl⟩ := h
    simp [minted_texts]
  | v :: vs, st, st', out, h => by
    simp only [resolve_visits] at h
    cases hv : resolve_visit v st with
    | none => simp [hv] at h
    | some p =>
      obtain ⟨w, st1⟩ := p
      simp only [hv] at h
      cases hvs : resolve_visits vs st1 with
      | none => simp [hvs] at h
      | some q =>
        obtain ⟨ws, st2⟩ := q
        simp only [hvs, Option.some.injEq, Prod.mk.injEq] at h
        obtain ⟨_, rfl⟩ := h
        obtain ⟨ih1, ih2⟩ := minted_texts_run vs st1 st2 ws hvs
        have same : st1.curr_labelno = st.curr_labelno → minted_at w st = [] →
            st.curr_labelno ≤ st2.curr_labelno ∧
            minted_texts (v :: vs) st =
              (List.range (st2.curr_labelno - st.curr_labelno).toNat).map
                (fun i : Nat => jump_label (st.curr_labelno + (i : Int))) := by
          intro hc hw
          simp only [minted_texts, hv, hw, List.nil_append, ih2, hc]
          exact ⟨by omega, trivial⟩
        have made : ∀ l : String, st1.curr_labelno = st.curr_labelno + 1 →
            l = jump_label st.curr_labelno → minted_at w st = [l] →
            st.curr_labelno ≤ st2.curr_labelno ∧
            minted_texts (v :: vs) st =
              (List.range (st2.curr_labelno - st.curr_labelno).toNat).map
                (fun i : Nat => jump_label (st.curr_labelno + (i : Int))) := by
          intro l hc hl hw
          have hn : (st2.curr_labelno - st.curr_labelno).toNat =
              (st2.curr_labelno - st1.curr_labelno).toNat + 1 := by omega
          simp only [minted_texts, hv, hw, ih2, hn, range_labels_succ, hc, hl]
          exact ⟨by omega, rfl⟩
        cases v with
        | clear =>
          simp only [resolve_visit, Option.some.injEq, Prod.mk.injEq] at hv
          obtain ⟨rfl, rfl⟩ := hv
          exact same rfl rfl
        | declaration n al lo =>
          simp only [resolve_visit] at hv
          cases h1 : add_to_state n 8 st with
          | none => simp [h1] at hv
          | some s2 =>
            simp only [h1, Option.some.injEq, Prod.mk.injEq] at hv
            obtain ⟨rfl, rfl⟩ := hv
            obtain ⟨_, hs2⟩ := add_to_state_some n st s2 h1
            exact same (by rw [hs2]) rfl
        | reference n lo =>
          simp only [resolve_visit, Option.some.injEq, Prod.mk.injEq] at hv
          obtain ⟨rfl, rfl⟩ := hv
          exact same rfl rfl
        | label n lo =>
          simp only [resolve_visit] at hv
          cases hg : get_label n st with
          | none => simp [hg] at hv
          | some r =>
            obtain ⟨l, s2⟩ := r
            simp only [hg, Option.some.injEq, Prod.mk.injEq] at hv
            obtain ⟨rfl, rfl⟩ := hv
            rcases get_label_some n st s2 l hg with ⟨hd, _, hl, hs2⟩ | ⟨hd, _, hs2⟩
            · exact made l (by rw [hs2]) hl (by simp only [minted_at, hd, if_true])
            · exact same (by rw [hs2]) (by simp only [minted_at, hd, Bool.false_eq_true, if_false])
        | jump n lo =>
          simp only [resolve_visit] at hv
          cases hg : get_label n st with
          | none => simp [hg] at hv
          | some r =>
            obtain ⟨l, s2⟩ := r
            simp only [hg, Option.some.injEq, Prod.mk.injEq] at hv
            obtain ⟨rfl, rfl⟩ := hv
            rcases get_label_some n st s2 l hg with ⟨hd, _, hl, hs2⟩ | ⟨hd, _, hs2⟩
            · exact made l (by rw [hs2]) hl (by simp only [minted_at, hd, if_true])
            · exact same (by rw [hs2]) (by simp only [minted_at, hd, Bool.false_eq_true, if_false])

/-- Claim C22: in a run of the resolver that starts with a label counter that
is not negative and a table whose dotted meanings are texts `.LJ<k>` made
earlier, on a tree whose label and jump nodes have names that do not begin
with a dot, two label or jump nodes that receive the same text have the same
name and no call of `clear_state` lies between them, so they lie in the same
function; every text received is `.LJ<k>` for a number `k` below the counter
on return; and the texts made during the run are `.LJ<c>`, `.LJ<c+1>`, ... in
this order, one for each step of the counter, `c` being its value on
entry. -/
theorem labels_never_collide (t t' : Ast String) (st st' : DState)
    (h : dealias t st = some (t', st')) (hm : Minted st)
    (hs : source_labels (visits t) = true) :
    (label_texts (visits t') 0).Pairwise
      (fun p q => p.2.2 = q.2.2 → p.2.1 = q.2.1 ∧ p.1 = q.1) ∧
    (∀ p ∈ label_texts (visits t') 0,
      ∃ k : Nat, p.2.2 = jump_label (k : Int) ∧ (k : Int) < st'.curr_labelno) ∧
    minted_texts (visits t) st =
      (List.range (st'.curr_labelno - st.curr_labelno).toNat).map
        (fun i : Nat => jump_label (st.curr_labelno + (i : Int))) ∧
    st.curr_labelno ≤ st'.curr_labelno ∧ Minted st' := by
  have hv := dealias_r_visits t st t' st' h
  obtain ⟨m2, l2, a2, b2⟩ := resolve_visits_labels (visits t) st st' (visits t') 0 hv hm hs
  refine ⟨a2, ?_, (minted_texts_run (visits t) st st' (visits t') hv).2, l2, m2⟩
  intro p hp
  rcases b2 p hp with ⟨k, hk1, _, hk3⟩ | ⟨_, e, he, _, hem, hde⟩
  · exact ⟨k, hk1, hk3⟩
  · obtain ⟨k, hk1, hk2⟩ := hm.2.1 e he hde
    exact ⟨k, by rw [← hem]; exact hk1, by omega⟩

theorem labels_never_collide_witness :
    dealias two_labelled_fns DState.initial =
      some (two_labelled_fns_resolved, three_labels_made) ∧
    Minted DState.initial ∧ source_labels (visits two_labelled_fns) = true ∧
    label_texts (visits two_labelled_fns_resolved) 0 =
      [(1, "a", ".LJ1"), (1, "b", ".LJ2"), (1, "a", ".LJ1"), (3, "a", ".LJ3")] ∧
    ((label_texts (visits two_labelled_fns_resolved) 0).Pairwise
      (fun p q => p.2.2 = q.2.2 → p.2.1 = q.2.1 ∧ p.1 = q.1) ∧
    (∀ p ∈ label_texts (visits two_labelled_fns_resolved) 0,
      ∃ k : Nat, p.2.2 = jump_label (k : Int) ∧ (k : Int) < three_labels_made.curr_labelno) ∧
    minted_texts (visits two_labelled_fns) DState.initial =
      (List.range (three_labels_made.curr_labelno - DState.initial.curr_labelno).toNat).map
        (fun i : Nat => jump_label (DState.initial.curr_labelno + (i : Int))) ∧
    DState.initial.curr_labelno ≤ three_labels_made.curr_labelno ∧
    Minted three_labels_made) :=
  ⟨by decide, minted_initial, by decide, by decide,
    labels_never_collide two_labelled_fns two_labelled_fns_resolved DState.initial
      three_labels_made (by decide) minted_initial (by decide)⟩

end Compiler
